import Mathlib

/-!
Verification development for the job scheduler and pipeline executor of the
photo-restoration service.  The definitions below are a shallow embedding of
the JavaScript sources:

  * packages/core/queue.js      (processNext, processJob, setMaxConcurrent)
  * packages/core/heartbeat.js  (checkHeartbeat)
  * the jobs router             (input / skip / back / retry / skip-failed /
                                 cancel / cancel-all / reorder / job creation)
  * the settings router         (PUT /settings)
  * the photos router           (upload, delete)
  * the step registry           (steps/index.js and the per-step definitions)

JavaScript is single threaded; an async processJob runs synchronously until
its first `await runPythonStep(...)`.  We model each synchronous burst as an
atomic state transformation, and a suspended `await` as a `Frame` recording
the local variables that are live across the suspension (loop index, step
key, output file name, sanitized original name).  A worker-exit event resumes
the frame.  The `.then(() => processNext())` continuation attached to every
`processJob` call fires when the whole async function returns; we model the
microtask queue as a counter drained at the end of each atomic event.
-/

namespace OldPhotos

/-- The step keys registered in steps/index.js after filtering: online_restore
has disabled=true and is dropped by the registry filter, so seven steps
remain.  Job creation filters request steps through the registry, hence every
step list in the store draws from this type. -/
inductive StepKey where
  | crop
  | inpaint
  | spot_removal
  | scratch_removal
  | face_restore
  | colorize
  | upscale
deriving DecidableEq, Repr

/-- Job status values used by queue.js and the routers. -/
inductive Status where
  | pending
  | processing
  | waiting_input
  | completed
  | failed
  | cancelled
deriving DecidableEq, Repr

/-- A filesystem path.  Under the default configuration (config.js) the two
artifact directories are UPLOADS_DIR = ROOT/uploads and RESULTS_DIR =
ROOT/results; we represent paths by which directory they live in plus the
file name.  `outside` covers a path.join(ROOT, rel) whose rel does not start
with results/ or uploads/ (never produced by the scheduler itself). -/
inductive FPath where
  | uploads (name : String)
  | results (name : String)
  | outside (s : String)
deriving DecidableEq, Repr

/-- manual flag of the step definitions: crop.js and inpaint.js declare
manual: true, the other step files do not. -/
def isManualStep : StepKey → Bool
  | .crop => true
  | .inpaint => true
  | _ => false

/-- Output filename tag (the `prefix` field of each step definition).  The
colorize step file is not present in the tree; its tag value is irrelevant to
every claim (it only feeds the opaque output file name). -/
def outputTag : StepKey → String
  | .crop => "CROP"
  | .inpaint => "INPAINT"
  | .spot_removal => "SPOTS"
  | .scratch_removal => "REST"
  | .face_restore => "FACE"
  | .colorize => "COLOR"
  | .upscale => "UPS"

/-- A job record, with exactly the fields assembled by the job-creation route
and mutated by queue.js and the routers.  Fields that the creation route does
not set (resumeFromStep, currentInputPath, currentStep, waitingStep,
waitingImage, error, failedStep, failedStepIndex) are `Option`s, `none`
standing for the JavaScript `undefined`/`null`; `job.resumeFromStep || 0`
becomes `resumeFromStep.getD 0`.  `failedStepIndex` is an `Int` because
`Array.prototype.indexOf` can return -1. -/
structure Job where
  id : String
  photoId : String
  photoName : String
  originalUrl : String
  steps : List StepKey
  options : List (StepKey × String)
  maskPath : Option FPath
  cropRect : Option String
  status : Status
  progress : Nat
  createdAt : Nat
  result : Option String
  stepResults : List (StepKey × String)
  priority : Nat
  resumeFromStep : Option Nat
  currentInputPath : Option FPath
  currentStep : Option StepKey
  waitingStep : Option StepKey
  waitingImage : Option String
  error : Option String
  failedStep : Option StepKey
  failedStepIndex : Option Int
deriving DecidableEq, Repr

/-- needsInput of the step definitions: crop.js has needsInput(job) =
!job.cropRect, inpaint.js has needsInput(job) = !job.maskPath; the other step
definitions have no needsInput member, and `stepDef.needsInput?.(job)` is
then undefined, i.e. false. -/
def stepNeedsInput (k : StepKey) (j : Job) : Bool :=
  match k with
  | .crop => j.cropRect.isNone
  | .inpaint => j.maskPath.isNone
  | _ => false

/-- onComplete of the step definitions as it acts on the job record: crop.js
nulls cropRect, inpaint.js nulls maskPath (the unlink of the mask file is a
filesystem effect handled at the call site). -/
def onCompleteJob (k : StepKey) (j : Job) : Job :=
  match k with
  | .crop => { j with cropRect := none }
  | .inpaint => { j with maskPath := none }
  | _ => j

/-- A photo record (photos router: id, stored filename, original name). -/
structure Photo where
  id : String
  filename : String
  originalName : String
deriving DecidableEq, Repr

/-- The local variables of a processJob execution that are live across an
`await runPythonStep(...)` suspension: the loop index i, the step key, the
output file name computed before the await, and the sanitized original photo
name used by subsequent iterations. -/
structure Frame where
  jobId : String
  stepIdx : Nat
  stepK : StepKey
  outName : String
  origName : String
deriving DecidableEq, Repr

/-- Global scheduler state: the jobs map (insertion-ordered, as a JavaScript
Map), the photos map, the mutable maxConcurrent of queue.js, the
running-process table (set of job ids with a live worker), the suspended
processJob frames, and the set of mask files on disk. -/
structure St where
  jobs : List Job
  photos : List Photo
  maxConcurrent : Nat
  runningProcs : List String
  frames : List Frame
  maskFiles : List FPath
deriving DecidableEq, Repr

/-- jobs.get(id): first (and in reachable states only) job with this id. -/
def findJob (st : St) (id : String) : Option Job :=
  st.jobs.find? (fun j => j.id == id)

/-- In-place mutation of the job object stored under `id`: replace the first
job with this id.  As jobs is a Map in the source, ids are unique and this is
exactly `jobs.get(id)` mutation. -/
def updateJob (l : List Job) (id : String) (f : Job → Job) : List Job :=
  match l with
  | [] => []
  | j :: js => if j.id == id then f j :: js else j :: updateJob js id f

/-- State-level wrapper of `updateJob`. -/
def updSt (st : St) (id : String) (f : Job → Job) : St :=
  { st with jobs := updateJob st.jobs id f }

/-- Characters kept verbatim by sanitizeFilename (utils.js): ASCII letters,
digits, dot, underscore, dash. -/
def keepChar (c : Char) : Bool :=
  c.isAlpha || c.isDigit || c = '.' || c = '_' || c = '-'

/-- Collapse runs of underscores into one (the replace of /_+/ with one). -/
def collapseUnders : List Char → List Char
  | [] => []
  | c :: cs =>
    let r := collapseUnders cs
    if c = '_' then
      match r with
      | '_' :: _ => r
      | _ => c :: r
    else c :: r

/-- sanitizeFilename of utils.js: replace every character outside
[A-Za-z0-9._-] with an underscore, collapse runs of underscores, trim leading
and trailing underscores.  The Unicode NFD diacritic-stripping step of the
source is the identity on the ASCII alphabet and is elided here. -/
def sanitizeFilename (s : String) : String :=
  let mapped := s.data.map (fun c => if keepChar c then c else '_')
  let collapsed := collapseUnders mapped
  let trimmed := (collapsed.dropWhile (fun c => c = '_')).reverse.dropWhile (fun c => c = '_')
  String.mk trimmed.reverse

/-- path.parse(name).name: the file name with its last extension stripped (a
leading dot does not start an extension). -/
def baseNameNoExt (s : String) : String :=
  let rev := s.data.reverse
  let ext := rev.takeWhile (fun c => c ≠ '.')
  if ext.length = s.data.length then s
  else if ext.length + 1 = s.data.length then s
  else String.mk (rev.drop (ext.length + 1)).reverse

/-- getUrlForPath of utils.js: paths under RESULTS_DIR map to /results/name,
everything else to /uploads/name (under the default configuration the only
other scheduler paths are uploads). -/
def getUrlForPath : FPath → String
  | .results n => "/results/" ++ n
  | .uploads n => "/uploads/" ++ n
  | .outside s => "/uploads/" ++ s

/-- path.join(ROOT, url.replace(/^\//, '')) of the back route: under the
default configuration ROOT/results and ROOT/uploads are RESULTS_DIR and
UPLOADS_DIR, so a /results/... or /uploads/... URL maps back into those
directories. -/
def joinRootUrl (s : String) : FPath :=
  if "/results/".isPrefixOf s then .results (s.drop 9)
  else if "/uploads/".isPrefixOf s then .uploads (s.drop 9)
  else .outside (s.drop 1)

/-- Array.prototype.indexOf: index of the first occurrence, -1 if absent. -/
def jsIndexOf : List StepKey → StepKey → Int
  | [], _ => -1
  | k :: ks, t =>
    if k = t then 0
    else
      let r := jsIndexOf ks t
      if r < 0 then -1 else r + 1

/-- Math.round((i / len) * 100) for natural i < len: round half up. -/
def round100 (i len : Nat) : Nat :=
  (200 * i + len) / (2 * len)

/-- Math.round on a rational (JavaScript rounds half toward +infinity):
the floor of q + 1/2, computed as the floor division (2 num + den) / (2 den)
so that it evaluates by kernel reduction. -/
def jsRound (q : ℚ) : Int :=
  Int.fdiv (2 * q.num + q.den) (2 * q.den)

/-- The index a retry resumes from, given the stored failedStepIndex: the
source computes `job.failedStepIndex ?? 0` and starts the pipeline loop
there.  The stored value is a valid index in every reachable state; in the
hypothetical -1 case the source loop body hits `steps[-1]`, finds no step
definition and continues from index 0, which is what toNat yields. -/
def intIdx (n : Int) : Nat := n.toNat

/-- jobHasManualSteps of queue.js. -/
def jobHasManualSteps (j : Job) : Bool :=
  j.steps.any isManualStep

/-- jobWillPauseImmediately of queue.js: look up the step at resumeFromStep
(|| 0); an out-of-range index yields no step definition, hence false; for a
registered step, `stepDef?.needsInput?.(job)` is the needsInput of crop or
inpaint and undefined (false) otherwise. -/
def jobWillPauseImmediately (j : Job) : Bool :=
  let idx := j.resumeFromStep.getD 0
  match j.steps.get? idx with
  | some k => stepNeedsInput k j
  | none => false

/-- Stable insertion of a job into a priority-ascending list, after any job
of equal priority (so that the overall sort is stable, as Array.prototype
.sort is). -/
def insertByPrio (j : Job) : List Job → List Job
  | [] => [j]
  | k :: ks => if k.priority ≤ j.priority then k :: insertByPrio j ks else j :: k :: ks

/-- Stable sort by ascending priority (the comparator (a.priority || 0) -
(b.priority || 0); priorities are always set in the model). -/
def sortByPrio (l : List Job) : List Job :=
  l.foldl (fun acc j => insertByPrio j acc) []

/-- Number of jobs whose status is processing. -/
def countProcessing (st : St) : Nat :=
  st.jobs.countP (fun j => j.status == Status.processing)

/-- One iteration of the processJob pipeline loop (queue.js lines 68-131),
from the loop test up to the next suspension or return.  Returns the new
state and whether the async function returned (true) or suspended at the
await (false).  The branches: loop exhausted -> completed epilogue; manual
step needing input -> waiting_input pause; otherwise set currentStep and
progress, compute the output file name, perform the pre-invocation
cancellation checkpoint, and suspend: register the worker in the
running-process table and record the frame. -/
def stepIter (st : St) (jobId : String) (i : Nat) (cur : FPath) (orig : String) : St × Bool :=
  match findJob st jobId with
  | none => (st, true)
  | some j =>
    match j.steps.get? i with
    | some step =>
      if stepNeedsInput step j then
        (updSt st jobId (fun j0 => { j0 with
            status := .waiting_input,
            waitingStep := some step,
            resumeFromStep := some i,
            currentInputPath := some cur,
            waitingImage := some (getUrlForPath cur),
            progress := round100 i j0.steps.length }), true)
      else
        let outName := orig ++ "_" ++ outputTag step ++ "_" ++ jobId.take 6 ++ ".png"
        let st1 := updSt st jobId (fun j0 => { j0 with
            currentStep := some step,
            progress := round100 i j0.steps.length })
        if j.status = .cancelled then
          (st1, true)
        else
          ({ st1 with
              runningProcs := jobId :: st1.runningProcs.erase jobId,
              frames := ⟨jobId, i, step, outName, orig⟩ :: st1.frames }, false)
    | none =>
      (updSt st jobId (fun j0 => { j0 with
          status := .completed,
          progress := 100,
          currentStep := none,
          waitingStep := none,
          waitingImage := none,
          result := (j0.stepResults.getLast?).map (fun p => p.2) }), true)

/-- The synchronous prefix of processJob (queue.js lines 53-66 and the first
loop iteration): set status to processing, fail if the owning photo is gone,
compute the sanitized name and the starting input, and run one loop
iteration. -/
def processJobBurst (st : St) (jobId : String) : St × Bool :=
  match findJob st jobId with
  | none => (st, true)
  | some j =>
    let st1 := updSt st jobId (fun j0 => { j0 with status := .processing })
    match st1.photos.find? (fun p => p.id == j.photoId) with
    | none => (updSt st1 jobId (fun j0 => { j0 with status := .failed }), true)
    | some photo =>
      let orig := sanitizeFilename (baseNameNoExt photo.originalName)
      let startIdx := j.resumeFromStep.getD 0
      let cur := j.currentInputPath.getD (FPath.uploads photo.filename)
      stepIter st1 jobId startIdx cur orig

/-- The dispatch loop of processNext (queue.js lines 43-50), walking the
sorted candidate ids.  `running` is the processing count captured before the
loop; `slots` is slotsUsed; `q` counts the processJob promises that resolved
synchronously (their `.then(() => processNext())` continuations join the
microtask queue).  The returned list records, in walk order, each dispatched
job id with its willPause flag. -/
def dispatchLoop (maxC running : Nat) : St → List String → Nat → Nat → St × Nat × List (String × Bool)
  | st, [], _, q => (st, q, [])
  | st, id :: ids, slots, q =>
    match findJob st id with
    | none => dispatchLoop maxC running st ids slots q
    | some j =>
      let wp := jobWillPauseImmediately j
      if !wp && decide (running + slots ≥ maxC) then
        dispatchLoop maxC running st ids slots q
      else
        let slots1 := if wp then slots else slots + 1
        let r := processJobBurst st id
        let q1 := q + (if r.2 then 1 else 0)
        let rest := dispatchLoop maxC running r.1 ids slots1 q1
        (rest.1, rest.2.1, (id, wp) :: rest.2.2)

/-- processNext of queue.js with an instrumentation trace: compute running
and hasWaitingManual from the snapshot, build the candidate list (pending,
and when some job is in waiting_input only jobs without manual steps), sort
it by ascending priority, and walk it with the dispatch loop.  Returns the
state, the number of synchronously resolved dispatches (queued microtasks),
and the dispatch decisions. -/
def processNextT (st : St) : St × Nat × List (String × Bool) :=
  let running := st.jobs.countP (fun j => j.status == Status.processing)
  let hasWaitingManual := st.jobs.any (fun j => j.status == Status.waiting_input)
  let cands := sortByPrio ((st.jobs.filter (fun j => j.status == Status.pending)).filter
      (fun j => !hasWaitingManual || !jobHasManualSteps j))
  dispatchLoop st.maxConcurrent running st (cands.map (fun j => j.id)) 0 0

/-- processNext without the trace. -/
def processNext (st : St) : St × Nat :=
  let r := processNextT st
  (r.1, r.2.1)

/-- Drain the microtask queue at the end of an atomic event: run the queued
`processNext` callbacks in order; a callback whose dispatches resolve
synchronously queues further callbacks.  The fuel argument only bounds the
recursion; events pass ample fuel. -/
def drain : Nat → St → Nat → St
  | _, st, 0 => st
  | 0, st, _ + 1 => st
  | fuel + 1, st, q + 1 =>
    let r := processNext st
    drain fuel r.1 (q + r.2)

/-- Run an event's queued microtasks to completion. -/
def finishEv (st : St) (q : Nat) : St :=
  drain (st.jobs.length + q + 1) st q

/-- HTTP responses, as far as the claims observe them. -/
inductive Resp where
  | ok
  | er (code : Nat)
  | settings (mc lim : Nat)
deriving DecidableEq, Repr

/-- Request body of POST /jobs/:id/input. -/
structure InputBody where
  mask : Option String
  cropRect : Option String
deriving DecidableEq, Repr

/-- POST /jobs/:id/input: reject unless the job is in waiting_input; when
waiting on inpaint and a mask is supplied, write a fresh mask file (its
generated name is the `maskName` argument) and store its path; when waiting
on crop and a cropRect is supplied, store it; clear waitingStep and
waitingImage; resume the pipeline (processJob followed by the queued
processNext). -/
def postInput (st : St) (id : String) (body : InputBody) (maskName : String) : St × Resp :=
  match findJob st id with
  | none => (st, .er 400)
  | some j =>
    if j.status = .waiting_input then
      let st1 :=
        if j.waitingStep = some .inpaint ∧ body.mask.isSome then
          { updSt st id (fun j0 => { j0 with maskPath := some (FPath.uploads maskName) }) with
            maskFiles := FPath.uploads maskName :: st.maskFiles }
        else st
      let st2 :=
        if j.waitingStep = some .crop ∧ body.cropRect.isSome then
          updSt st1 id (fun j0 => { j0 with cropRect := body.cropRect })
        else st1
      let st3 := updSt st2 id (fun j0 => { j0 with waitingStep := none, waitingImage := none })
      let r := processJobBurst st3 id
      (finishEv r.1 (if r.2 then 1 else 0), .ok)
    else (st, .er 400)

/-- POST /jobs/:id/skip: reject unless waiting_input; advance resumeFromStep
by one, clear waitingStep and waitingImage, resume. -/
def postSkip (st : St) (id : String) : St × Resp :=
  match findJob st id with
  | none => (st, .er 400)
  | some j =>
    if j.status = .waiting_input then
      let st1 := updSt st id (fun j0 => { j0 with
          resumeFromStep := some (j0.resumeFromStep.getD 0 + 1),
          waitingStep := none, waitingImage := none })
      let r := processJobBurst st1 id
      (finishEv r.1 (if r.2 then 1 else 0), .ok)
    else (st, .er 400)

/-- The descending search of the back route: the greatest index t < c with a
manual step (MANUAL_STEPS.has(steps[i]) walking i from c-1 down to 0). -/
def findPrevManual (steps : List StepKey) : Nat → Option Nat
  | 0 => none
  | n + 1 =>
    match steps.get? n with
    | some k => if isManualStep k then some n else findPrevManual steps n
    | none => findPrevManual steps n

/-- One iteration of the input-clearing loop of the back route: crop nulls
cropRect; inpaint unlinks the mask file (if any) and nulls maskPath. -/
def clearStepInput (st : St) (id : String) (k : StepKey) : St :=
  match k with
  | .crop => updSt st id (fun j0 => { j0 with cropRect := none })
  | .inpaint =>
    match findJob st id with
    | some j0 =>
      let mf := match j0.maskPath with
        | some p => st.maskFiles.erase p
        | none => st.maskFiles
      { updSt st id (fun j1 => { j1 with maskPath := none }) with maskFiles := mf }
    | none => st
  | _ => st

/-- POST /jobs/:id/back: reject unless waiting_input; find the previous
manual step index t (reject with no mutation when none); clear the inputs of
all steps from t on; truncate stepResults to t; recompute currentInputPath
from the last remaining step result or the photo's upload path; set
resumeFromStep to t, clear waitingStep and waitingImage, resume. -/
def postBack (st : St) (id : String) : St × Resp :=
  match findJob st id with
  | none => (st, .er 400)
  | some j =>
    if j.status = .waiting_input then
      let currentIdx := j.resumeFromStep.getD 0
      match findPrevManual j.steps currentIdx with
      | none => (st, .er 400)
      | some t =>
        let st1 := (j.steps.drop t).foldl (fun acc k => clearStepInput acc id k) st
        let st2 := updSt st1 id (fun j0 => { j0 with stepResults := j0.stepResults.take t })
        let st3 :=
          match findJob st2 id with
          | none => st2
          | some j2 =>
            match j2.stepResults.getLast? with
            | some last =>
              updSt st2 id (fun j0 => { j0 with currentInputPath := some (joinRootUrl last.2) })
            | none =>
              match st2.photos.find? (fun p => p.id == j2.photoId) with
              | some photo =>
                updSt st2 id (fun j0 => { j0 with currentInputPath := some (FPath.uploads photo.filename) })
              | none => updSt st2 id (fun j0 => { j0 with currentInputPath := none })
        let st4 := updSt st3 id (fun j0 => { j0 with
            resumeFromStep := some t, waitingStep := none, waitingImage := none })
        let r := processJobBurst st4 id
        (finishEv r.1 (if r.2 then 1 else 0), .ok)
    else (st, .er 400)

/-- Replace (or append) a per-step model selection in the options map. -/
def setOpt (l : List (StepKey × String)) (k : StepKey) (v : String) : List (StepKey × String) :=
  match l with
  | [] => [(k, v)]
  | (k1, v1) :: t => if k1 = k then (k, v) :: t else (k1, v1) :: setOpt t k v

/-- POST /jobs/:id/retry: reject unless failed; when a model is supplied and
failedStep is set, record the model override; set resumeFromStep from
failedStepIndex (?? 0), status to processing, clear the error fields,
resume. -/
def postRetry (st : St) (id : String) (model : Option String) : St × Resp :=
  match findJob st id with
  | none => (st, .er 400)
  | some j =>
    if j.status = .failed then
      let st1 :=
        match model, j.failedStep with
        | some m, some fk => updSt st id (fun j0 => { j0 with options := setOpt j0.options fk m })
        | _, _ => st
      let st2 := updSt st1 id (fun j0 => { j0 with
          resumeFromStep := some (intIdx (j0.failedStepIndex.getD 0)),
          status := .processing, error := none,
          failedStep := none, failedStepIndex := none })
      let r := processJobBurst st2 id
      (finishEv r.1 (if r.2 then 1 else 0), .ok)
    else (st, .er 400)

/-- POST /jobs/:id/skip-failed: reject unless failed; clear the error
fields; if failedStepIndex + 1 runs past the steps, complete the job with
the result of the existing stepResults; otherwise resume from there. -/
def postSkipFailed (st : St) (id : String) : St × Resp :=
  match findJob st id with
  | none => (st, .er 400)
  | some j =>
    if j.status = .failed then
      let nextIdx : Int := j.failedStepIndex.getD 0 + 1
      let st1 := updSt st id (fun j0 => { j0 with
          error := none, failedStep := none, failedStepIndex := none })
      if nextIdx ≥ (j.steps.length : Int) then
        (updSt st1 id (fun j0 => { j0 with
            status := .completed, progress := 100,
            result := (j0.stepResults.getLast?).map (fun p => p.2) }), .ok)
      else
        let st2 := updSt st1 id (fun j0 => { j0 with
            resumeFromStep := some (intIdx nextIdx), status := .processing })
        let r := processJobBurst st2 id
        (finishEv r.1 (if r.2 then 1 else 0), .ok)
    else (st, .er 400)

/-- The per-job effect of cancellation (cancel route, cancel-all, and the
heartbeat sweep): status cancelled, currentStep, waitingStep and
waitingImage cleared. -/
def cancelJobRecord (j : Job) : Job :=
  { j with status := .cancelled, currentStep := none, waitingStep := none, waitingImage := none }

/-- True when the status admits cancellation (pending, processing or
waiting_input). -/
def isCancellable (s : Status) : Bool :=
  s == Status.pending || s == Status.processing || s == Status.waiting_input

/-- POST /jobs/:id/cancel: 404 when unknown, 400 when not cancellable;
otherwise cancel the record, kill and deregister its worker if one is
registered, and run processNext. -/
def postCancel (st : St) (id : String) : St × Resp :=
  match findJob st id with
  | none => (st, .er 404)
  | some j =>
    if isCancellable j.status then
      let st1 := updSt st id cancelJobRecord
      let st2 := { st1 with runningProcs := st1.runningProcs.erase id }
      let r := processNext st2
      (finishEv r.1 r.2, .ok)
    else (st, .er 400)

/-- POST /jobs/cancel-all: cancel every job in a cancellable status and
deregister (killing) each of their workers.  The route does not call
processNext. -/
def cancelAllJobs (st : St) : St :=
  { st with
    jobs := st.jobs.map (fun j => if isCancellable j.status then cancelJobRecord j else j),
    runningProcs := st.runningProcs.filter (fun pid =>
      match findJob st pid with
      | some j => !isCancellable j.status
      | none => true) }

/-- PUT /jobs/reorder: for each id in the list that resolves to a pending
job, set its priority to its position; other jobs untouched; no dispatch. -/
def putReorder (st : St) (ids : List String) : St :=
  (ids.enum).foldl (fun acc p =>
      updSt acc p.2 (fun j0 => if j0.status = .pending then { j0 with priority := p.1 } else j0)) st

/-- A JSON value as far as the settings route inspects it: a number or
anything else (typeof val === 'number'). -/
inductive JsVal where
  | num (q : ℚ)
  | other
deriving DecidableEq, Repr

/-- PUT /settings (settings router; the monolithic server has the identical
handler): when the supplied maxConcurrent is a number within [1,
MAX_CONCURRENT_LIMIT], store Math.round of it; in every case run processNext
and respond with the current values. -/
def putSettings (lim : Nat) (st : St) (v : Option JsVal) : St × Resp :=
  let st1 :=
    match v with
    | some (.num q) =>
      if 1 ≤ q ∧ q ≤ (lim : ℚ) then { st with maxConcurrent := (jsRound q).toNat } else st
    | _ => st
  let r := processNext st1
  let resp := Resp.settings r.1.maxConcurrent lim
  (finishEv r.1 r.2, resp)

/-- A job counts as active for the heartbeat sweep when pending or
processing. -/
def isActiveJob (j : Job) : Bool :=
  j.status == Status.pending || j.status == Status.processing

/-- checkHeartbeat of heartbeat.js: when the elapsed time reaches the
timeout and at least one job is active, cancel every active job (clearing
currentStep, waitingStep, waitingImage) and kill and deregister its worker;
otherwise do nothing. -/
def checkHeartbeat (timeoutMs now lastHB : Nat) (st : St) : St :=
  if now - lastHB < timeoutMs then st
  else if st.jobs.countP isActiveJob = 0 then st
  else
    { st with
      jobs := st.jobs.map (fun j => if isActiveJob j then cancelJobRecord j else j),
      runningProcs := st.runningProcs.filter (fun pid =>
        match findJob st pid with
        | some j => !isActiveJob j
        | none => true) }

/-- One entry of a POST /jobs request: the photo, the id generated for the
new job, the optional mask data and crop rect for this photo, and the name
generated for the mask file should one be written. -/
structure CreateItem where
  photoId : String
  newId : String
  maskData : Option String
  rect : Option String
  maskName : String
deriving DecidableEq, Repr

/-- The per-photo body of the creation loop: skip unknown photos; write the
mask file when the steps include inpaint and a mask was supplied; keep the
crop rect when the steps include crop; build the job record (status pending,
priority Date.now()); store it and call enqueueJob, i.e. processNext. -/
def createOne (stepsReq : List StepKey) (opts : List (StepKey × String)) (prioVal : Nat)
    (acc : St × Nat) (it : CreateItem) : St × Nat :=
  let st := acc.1
  match st.photos.find? (fun p => p.id == it.photoId) with
  | none => acc
  | some photo =>
    let writeMask := stepsReq.contains .inpaint ∧ it.maskData.isSome
    let maskPath := if writeMask then some (FPath.uploads it.maskName) else none
    let rect := if stepsReq.contains .crop then it.rect else none
    let job : Job := {
      id := it.newId, photoId := it.photoId, photoName := photo.originalName,
      originalUrl := "/uploads/" ++ photo.filename, steps := stepsReq, options := opts,
      maskPath := maskPath, cropRect := rect, status := .pending, progress := 0,
      createdAt := prioVal, result := none, stepResults := [], priority := prioVal,
      resumeFromStep := none, currentInputPath := none, currentStep := none,
      waitingStep := none, waitingImage := none, error := none,
      failedStep := none, failedStepIndex := none }
    let st1 := { st with
      jobs := st.jobs ++ [job],
      maskFiles := if writeMask then FPath.uploads it.maskName :: st.maskFiles else st.maskFiles }
    let r := processNext st1
    (r.1, acc.2 + r.2)

/-- POST /jobs: reject empty photo or step lists (the registry filter is the
identity here because StepKey only has registered keys); otherwise run the
creation loop and drain the microtasks queued by the synchronous dispatches.
The worker environment is taken as ready (the 503 guard concerns the
bootstrap collaborator). -/
def createJobs (st : St) (items : List CreateItem) (stepsReq : List StepKey)
    (opts : List (StepKey × String)) (prioVal : Nat) : St × Resp :=
  if items.isEmpty ∨ stepsReq.isEmpty then (st, .er 400)
  else
    let r := items.foldl (createOne stepsReq opts prioVal) (st, 0)
    (finishEv r.1 r.2, .ok)

/-- POST /photos (one uploaded file): record the photo. -/
def uploadPhoto (st : St) (p : Photo) : St :=
  { st with photos := st.photos ++ [p] }

/-- DELETE /photos/:id: drop the photo record; jobs are not touched. -/
def deletePhoto (st : St) (pid : String) : St :=
  { st with photos := st.photos.filter (fun p => !(p.id == pid)) }

/-- A worker process exit resuming the suspended processJob frame of a job
(the execFile callback in runPythonStep followed by the rest of the
pipeline loop body, queue.js lines 104-144).  The callback first
deregisters the process.  On error the catch block runs: a cancelled job
just clears currentStep; otherwise the job transitions to failed recording
the message, failedStep = currentStep and failedStepIndex =
steps.indexOf(currentStep).  On success, a cancelled job is returned
without recording; otherwise onComplete releases the consumed input (for
inpaint also unlinking the mask file), the step result is appended,
currentInputPath advances to the output, processNext runs inline, and the
loop continues with the next iteration.  Whenever the async function
returns, its `.then(() => processNext())` joins the microtask queue. -/
def workerExit (st : St) (jobId : String) (ok : Bool) (msg : String) : St :=
  match st.frames.find? (fun fr => fr.jobId == jobId) with
  | none => st
  | some fr =>
    let st1 := { st with
        frames := st.frames.eraseP (fun fr2 => fr2.jobId == jobId),
        runningProcs := st.runningProcs.erase jobId }
    match findJob st1 jobId with
    | none => st1
    | some j =>
      if ok then
        if j.status = .cancelled then finishEv st1 1
        else
          let st2 :=
            match fr.stepK, j.maskPath with
            | .inpaint, some p => { st1 with maskFiles := st1.maskFiles.erase p }
            | _, _ => st1
          let st3 := updSt st2 jobId (fun j0 => onCompleteJob fr.stepK j0)
          let st4 := updSt st3 jobId (fun j0 => { j0 with
              stepResults := j0.stepResults ++ [(fr.stepK, "/results/" ++ fr.outName)],
              currentInputPath := some (FPath.results fr.outName) })
          let r1 := processNext st4
          let r2 := stepIter r1.1 jobId (fr.stepIdx + 1) (FPath.results fr.outName) fr.origName
          finishEv r2.1 (r1.2 + (if r2.2 then 1 else 0))
      else
        if j.status = .cancelled then
          finishEv (updSt st1 jobId (fun j0 => { j0 with currentStep := none })) 1
        else
          finishEv (updSt st1 jobId (fun j0 => { j0 with
              status := .failed, error := some msg,
              failedStep := j0.currentStep,
              failedStepIndex := some (match j0.currentStep with
                | some k => jsIndexOf j0.steps k
                | none => -1),
              currentStep := none })) 1

/-- The external events that drive the scheduler. -/
inductive Ev where
  | upload (p : Photo)
  | delPhoto (pid : String)
  | create (items : List CreateItem) (stepsReq : List StepKey)
      (opts : List (StepKey × String)) (prioVal : Nat)
  | input (id : String) (body : InputBody) (maskName : String)
  | skipManual (id : String)
  | back (id : String)
  | retryJob (id : String) (model : Option String)
  | skipFailedJob (id : String)
  | cancelJob (id : String)
  | cancelAll
  | reorder (ids : List String)
  | setMax (v : Option JsVal)
  | heartbeat (now lastHB : Nat)
  | workerDone (id : String) (ok : Bool) (msg : String)

/-- Apply an event.  `lim` is MAX_CONCURRENT_LIMIT; the heartbeat timeout is
the default 10000 ms. -/
def applyEv (lim : Nat) (st : St) : Ev → St
  | .upload p => uploadPhoto st p
  | .delPhoto pid => deletePhoto st pid
  | .create items s o pr => (createJobs st items s o pr).1
  | .input id body mn => (postInput st id body mn).1
  | .skipManual id => (postSkip st id).1
  | .back id => (postBack st id).1
  | .retryJob id m => (postRetry st id m).1
  | .skipFailedJob id => (postSkipFailed st id).1
  | .cancelJob id => (postCancel st id).1
  | .cancelAll => cancelAllJobs st
  | .reorder ids => putReorder st ids
  | .setMax v => (putSettings lim st v).1
  | .heartbeat now lastHB => checkHeartbeat 10000 now lastHB st
  | .workerDone id ok msg => workerExit st id ok msg

/-- Event well-formedness: freshly generated identifiers are fresh.  The
source generates job and photo ids with randomUUID, so they never collide
with existing ones. -/
def EvOk (st : St) : Ev → Prop
  | .upload p => p.id ∉ st.photos.map Photo.id
  | .create items _ _ _ =>
      (items.map CreateItem.newId).Nodup ∧
      ∀ it ∈ items, it.newId ∉ st.jobs.map Job.id
  | _ => True

instance instDecidableEvOk (st : St) (e : Ev) : Decidable (EvOk st e) := by
  cases e <;> simp only [EvOk] <;> infer_instance

/-- One scheduler transition: a well-formed event applied atomically. -/
inductive SchedStep (lim : Nat) : St → St → Prop where
  | mk (st : St) (e : Ev) (h : EvOk st e) : SchedStep lim st (applyEv lim st e)

/-- The initial state: empty stores, maxConcurrent = MAX_CONCURRENT_LIMIT. -/
def initSt (lim : Nat) : St :=
  { jobs := [], photos := [], maxConcurrent := lim,
    runningProcs := [], frames := [], maskFiles := [] }

/-- States reachable from the empty store through scheduler operations. -/
def Reachable (lim : Nat) (st : St) : Prop :=
  Relation.ReflTransGen (SchedStep lim) (initSt lim) st

/-! ### Concrete executions used to refute claims -/

/-- A first test photo. -/
def ph1 : Photo := ⟨"p1", "f1", "n1"⟩

/-- A second test photo. -/
def ph2 : Photo := ⟨"p2", "f2", "n2"⟩

/-- Upload two photos. -/
def stPhotos : St := applyEv 2 (applyEv 2 (initSt 2) (.upload ph1)) (.upload ph2)

/-- Create job a with steps [face_restore, crop] on photo p1: it is
dispatched at once (its first step is automatic) and suspends awaiting the
face_restore worker. -/
def c2s1 : St := applyEv 2 stPhotos (.create [⟨"p1", "a", none, none, "m"⟩] [.face_restore, .crop] [] 5)

/-- Create job b with steps [crop] on photo p2: no job is yet in
waiting_input, so the manual gate is open; b pauses immediately into
waiting_input without consuming a slot. -/
def c2s2 : St := applyEv 2 c2s1 (.create [⟨"p2", "b", none, none, "m"⟩] [.crop] [] 6)

/-- Job a's face_restore worker exits: the pipeline records the result and
reaches the crop step, which needs input, so a also enters waiting_input,
although b is already there. -/
def c2s3 : St := applyEv 2 c2s2 (.workerDone "a" true "")

/-- Reachability of the two-waiting-jobs state. -/
theorem c2s3_reachable : Reachable 2 c2s3 := by
  refine Relation.ReflTransGen.tail (Relation.ReflTransGen.tail (Relation.ReflTransGen.tail
    (Relation.ReflTransGen.tail (Relation.ReflTransGen.tail Relation.ReflTransGen.refl
      (SchedStep.mk _ (.upload ph1) (by decide)))
      (SchedStep.mk _ (.upload ph2) (by decide)))
      (SchedStep.mk _ (.create [⟨"p1", "a", none, none, "m"⟩] [.face_restore, .crop] [] 5) (by decide)))
      (SchedStep.mk _ (.create [⟨"p2", "b", none, none, "m"⟩] [.crop] [] 6) (by decide)))
      (SchedStep.mk _ (.workerDone "a" true "") (by decide))

/-- Lower maxConcurrent to 1 (within [1, MAX_CONCURRENT_LIMIT] = [1,2]). -/
def c3s1 : St := applyEv 2 stPhotos (.setMax (some (.num 1)))

/-- Create job a with steps [crop] on p1: it pauses into waiting_input. -/
def c3s2 : St := applyEv 2 c3s1 (.create [⟨"p1", "a", none, none, "m"⟩] [.crop] [] 5)

/-- Create job c with steps [face_restore] on p2: it takes the single slot
and is processing. -/
def c3s3 : St := applyEv 2 c3s2 (.create [⟨"p2", "c", none, none, "m"⟩] [.face_restore] [] 6)

/-- Submit the crop rect for job a: the input route resumes a
unconditionally, so a becomes processing although c already occupies the
only slot. -/
def c3s4 : St := applyEv 2 c3s3 (.input "a" ⟨none, some "10,10,200,200"⟩ "m2")

/-- Reachability of the over-capacity state. -/
theorem c3s4_reachable : Reachable 2 c3s4 := by
  refine Relation.ReflTransGen.tail (Relation.ReflTransGen.tail (Relation.ReflTransGen.tail
    (Relation.ReflTransGen.tail (Relation.ReflTransGen.tail (Relation.ReflTransGen.tail
      Relation.ReflTransGen.refl
      (SchedStep.mk _ (.upload ph1) (by decide)))
      (SchedStep.mk _ (.upload ph2) (by decide)))
      (SchedStep.mk _ (.setMax (some (.num 1))) (by decide)))
      (SchedStep.mk _ (.create [⟨"p1", "a", none, none, "m"⟩] [.crop] [] 5) (by decide)))
      (SchedStep.mk _ (.create [⟨"p2", "c", none, none, "m"⟩] [.face_restore] [] 6) (by decide)))
      (SchedStep.mk _ (.input "a" ⟨none, some "10,10,200,200"⟩ "m2") (by decide))

/-- Create job a with the automatic pipeline [upscale, face_restore] on p1;
it suspends awaiting the upscale worker. -/
def c6s1 : St := applyEv 2 (applyEv 2 (initSt 2) (.upload ph1))
  (.create [⟨"p1", "a", none, none, "m"⟩] [.upscale, .face_restore] [] 5)

/-- The upscale worker exits: the pipeline appends the step result and
suspends awaiting face_restore.  resumeFromStep was never written (it is
still unset, read as 0) while stepResults now has one entry. -/
def c6s2 : St := applyEv 2 c6s1 (.workerDone "a" true "")

/-- Reachability of the mid-pipeline state with stepResults ahead of
resumeFromStep. -/
theorem c6s2_reachable : Reachable 2 c6s2 := by
  refine Relation.ReflTransGen.tail (Relation.ReflTransGen.tail (Relation.ReflTransGen.tail
    Relation.ReflTransGen.refl
    (SchedStep.mk _ (.upload ph1) (by decide)))
    (SchedStep.mk _ (.create [⟨"p1", "a", none, none, "m"⟩] [.upscale, .face_restore] [] 5) (by decide)))
    (SchedStep.mk _ (.workerDone "a" true "") (by decide))

/-- Prepare the missing-photo failure: with maxConcurrent lowered to 1,
job c occupies the slot, job a stays pending, and photo p1 is deleted. -/
def c7s1 : St := applyEv 2 (applyEv 2 (applyEv 2 (applyEv 2 (applyEv 2 (applyEv 2 (initSt 2)
  (.setMax (some (.num 1))))
  (.upload ph1))
  (.upload ph2))
  (.create [⟨"p2", "c", none, none, "m"⟩] [.face_restore] [] 5))
  (.create [⟨"p1", "a", none, none, "m"⟩] [.face_restore] [] 6))
  (.delPhoto "p1")

/-- Job c completes; the queued dispatch starts job a, whose photo is gone:
processJob sets status failed and returns without populating failedStep or
failedStepIndex. -/
def c7s2 : St := applyEv 2 c7s1 (.workerDone "c" true "")

/-- Reachability of the failed-without-failedStep state. -/
theorem c7s2_reachable : Reachable 2 c7s2 := by
  refine Relation.ReflTransGen.tail (Relation.ReflTransGen.tail (Relation.ReflTransGen.tail
    (Relation.ReflTransGen.tail (Relation.ReflTransGen.tail (Relation.ReflTransGen.tail
      (Relation.ReflTransGen.tail Relation.ReflTransGen.refl
      (SchedStep.mk _ (.setMax (some (.num 1))) (by decide)))
      (SchedStep.mk _ (.upload ph1) (by decide)))
      (SchedStep.mk _ (.upload ph2) (by decide)))
      (SchedStep.mk _ (.create [⟨"p2", "c", none, none, "m"⟩] [.face_restore] [] 5) (by decide)))
      (SchedStep.mk _ (.create [⟨"p1", "a", none, none, "m"⟩] [.face_restore] [] 6) (by decide)))
      (SchedStep.mk _ (.delPhoto "p1") (by decide)))
      (SchedStep.mk _ (.workerDone "c" true "") (by decide))

/-- A pipeline with a duplicated step key: [upscale, face_restore, upscale].
After two successful workers the job is suspended at step index 2, whose key
upscale also occurs at index 0. -/
def c4pre : St := applyEv 2 (applyEv 2 (applyEv 2 (applyEv 2 (initSt 2)
  (.upload ph1))
  (.create [⟨"p1", "a", none, none, "m"⟩] [.upscale, .face_restore, .upscale] [] 5))
  (.workerDone "a" true ""))
  (.workerDone "a" true "")

/-- The worker of the invocation at step index 2 fails. -/
def c4post : St := workerExit c4pre "a" false "boom"

/-- Reachability of the suspended-at-duplicate-step state. -/
theorem c4pre_reachable : Reachable 2 c4pre := by
  refine Relation.ReflTransGen.tail (Relation.ReflTransGen.tail (Relation.ReflTransGen.tail
    (Relation.ReflTransGen.tail Relation.ReflTransGen.refl
    (SchedStep.mk _ (.upload ph1) (by decide)))
    (SchedStep.mk _ (.create [⟨"p1", "a", none, none, "m"⟩] [.upscale, .face_restore, .upscale] [] 5) (by decide)))
    (SchedStep.mk _ (.workerDone "a" true "") (by decide)))
    (SchedStep.mk _ (.workerDone "a" true "") (by decide))

/-! ### Basic lemmas about the store operations -/

/-- A function acts only on the fields of a job, not on its identity. -/
def KeepsId (f : Job → Job) : Prop :=
  ∀ j : Job, (f j).id = j.id

lemma keepsId_of (f : Job → Job) (h : ∀ j, (f j).id = j.id) : KeepsId f := h

lemma updateJob_map_id (l : List Job) (id : String) (f : Job → Job) (hf : KeepsId f) :
    (updateJob l id f).map Job.id = l.map Job.id := by
  induction l with
  | nil => rfl
  | cons j js ih =>
    by_cases h : j.id == id
    · simp [updateJob, h, hf j]
    · simp [updateJob, h, ih]

lemma mem_updateJob {l : List Job} {id : String} {f : Job → Job} {j1 : Job}
    (h : j1 ∈ updateJob l id f) : ∃ j ∈ l, j1 = j ∨ j1 = f j := by
  induction l with
  | nil => simp [updateJob] at h
  | cons j js ih =>
    by_cases hj : j.id == id
    · simp only [updateJob, hj, if_pos] at h
      rcases List.mem_cons.mp h with h | h
      · exact ⟨j, List.mem_cons_self _ _, Or.inr h⟩
      · exact ⟨j1, List.mem_cons_of_mem _ h, Or.inl rfl⟩
    · simp only [updateJob, hj] at h
      rcases List.mem_cons.mp h with h | h
      · exact ⟨j, List.mem_cons_self _ _, Or.inl h⟩
      · rcases ih h with ⟨j2, hj2, hor⟩
        exact ⟨j2, List.mem_cons_of_mem _ hj2, hor⟩

lemma findJob_updSt_ne (st : St) (id id2 : String) (f : Job → Job) (hf : KeepsId f)
    (hne : id2 ≠ id) : findJob (updSt st id f) id2 = findJob st id2 := by
  show List.find? _ (updateJob st.jobs id f) = List.find? _ st.jobs
  induction st.jobs with
  | nil => rfl
  | cons j js ih =>
    by_cases hj : j.id == id
    · have hid : j.id = id := by simpa using hj
      have hne2 : (j.id == id2) = false := by
        simp only [beq_eq_false_iff_ne, ne_eq, hid]
        exact fun h => hne h.symm
      have hfne : ((f j).id == id2) = false := by rw [hf j]; exact hne2
      simp [updateJob, hj, List.find?, hfne, hne2]
    · have hj2 : (j.id == id) = false := by simpa using hj
      cases hcase : (j.id == id2) with
      | true => simp [updateJob, hj2, List.find?, hcase]
      | false => simpa [updateJob, hj2, List.find?, hcase] using ih

lemma findJob_updSt_self (st : St) (id : String) (f : Job → Job) (hf : KeepsId f) :
    findJob (updSt st id f) id = (findJob st id).map f := by
  show List.find? _ (updateJob st.jobs id f) = (List.find? _ st.jobs).map f
  induction st.jobs with
  | nil => rfl
  | cons j js ih =>
    by_cases hj : j.id == id
    · have hfj : ((f j).id == id) = true := by rw [hf j]; exact hj
      simp [updateJob, hj, List.find?, hfj]
    · have hj2 : (j.id == id) = false := by simpa using hj
      simpa [updateJob, hj2, List.find?] using ih

lemma updSt_photos (st : St) (id : String) (f : Job → Job) :
    (updSt st id f).photos = st.photos := rfl

lemma updSt_maxC (st : St) (id : String) (f : Job → Job) :
    (updSt st id f).maxConcurrent = st.maxConcurrent := rfl

lemma updSt_maskFiles (st : St) (id : String) (f : Job → Job) :
    (updSt st id f).maskFiles = st.maskFiles := rfl

/-- The parts of the state that the dispatch machinery never changes: the
photos, the concurrency limit, the mask files, and the identity and order of
the jobs (dispatch mutates job records in place, never adds or removes
them). -/
def CoreShape (st st1 : St) : Prop :=
  st1.photos = st.photos ∧ st1.maxConcurrent = st.maxConcurrent ∧
  st1.maskFiles = st.maskFiles ∧ st1.jobs.map Job.id = st.jobs.map Job.id

lemma coreShape_refl (st : St) : CoreShape st st :=
  ⟨rfl, rfl, rfl, rfl⟩

lemma coreShape_trans {st st1 st2 : St} (h1 : CoreShape st st1) (h2 : CoreShape st1 st2) :
    CoreShape st st2 :=
  ⟨h2.1.trans h1.1, h2.2.1.trans h1.2.1, h2.2.2.1.trans h1.2.2.1, h2.2.2.2.trans h1.2.2.2⟩

lemma coreShape_updSt (st : St) (id : String) (f : Job → Job) (hf : KeepsId f) :
    CoreShape st (updSt st id f) :=
  ⟨rfl, rfl, rfl, updateJob_map_id st.jobs id f hf⟩

lemma stepIter_coreShape (st : St) (id : String) (i : Nat) (cur : FPath) (orig : String) :
    CoreShape st (stepIter st id i cur orig).1 := by
  unfold stepIter
  split
  · exact coreShape_refl st
  · split
    · split
      · exact ⟨rfl, rfl, rfl, updateJob_map_id _ _ _ (fun j0 => rfl)⟩
      · split
        · exact ⟨rfl, rfl, rfl, updateJob_map_id _ _ _ (fun j0 => rfl)⟩
        · exact ⟨rfl, rfl, rfl, updateJob_map_id _ _ _ (fun j0 => rfl)⟩
    · exact ⟨rfl, rfl, rfl, updateJob_map_id _ _ _ (fun j0 => rfl)⟩

lemma processJobBurst_coreShape (st : St) (id : String) :
    CoreShape st (processJobBurst st id).1 := by
  unfold processJobBurst
  split
  · exact coreShape_refl st
  · dsimp only
    split
    · refine coreShape_trans (coreShape_updSt st id _ ?_) (coreShape_updSt _ id _ ?_) <;>
        intro j0 <;> rfl
    · refine coreShape_trans (coreShape_updSt st id _ ?_) (stepIter_coreShape _ id _ _ _)
      intro j0; rfl

lemma dispatchLoop_coreShape (maxC running : Nat) (ids : List String) :
    ∀ (st : St) (slots q : Nat), CoreShape st (dispatchLoop maxC running st ids slots q).1 := by
  induction ids with
  | nil => intro st slots q; exact coreShape_refl st
  | cons id ids ih =>
    intro st slots q
    unfold dispatchLoop
    split
    · exact ih st slots q
    · dsimp only
      split
      · exact ih st slots q
      · exact coreShape_trans (processJobBurst_coreShape st id) (ih _ _ _)

lemma processNext_coreShape (st : St) : CoreShape st (processNext st).1 :=
  dispatchLoop_coreShape _ _ _ st 0 0

lemma drain_coreShape : ∀ (fuel : Nat) (st : St) (q : Nat), CoreShape st (drain fuel st q) := by
  intro fuel
  induction fuel with
  | zero =>
    intro st q
    cases q with
    | zero => exact coreShape_refl st
    | succ n => exact coreShape_refl st
  | succ n ih =>
    intro st q
    cases q with
    | zero => exact coreShape_refl st
    | succ m => exact coreShape_trans (processNext_coreShape st) (ih _ _)

lemma finishEv_coreShape (st : St) (q : Nat) : CoreShape st (finishEv st q) :=
  drain_coreShape _ st q

lemma stepIter_findJob_ne (st : St) (id id2 : String) (i : Nat) (cur : FPath) (orig : String)
    (hne : id2 ≠ id) : findJob (stepIter st id i cur orig).1 id2 = findJob st id2 := by
  unfold stepIter
  split
  · rfl
  · split
    · split
      · exact findJob_updSt_ne st id id2 _ (fun j0 => rfl) hne
      · split
        · exact findJob_updSt_ne st id id2 _ (fun j0 => rfl) hne
        · exact findJob_updSt_ne st id id2 _ (fun j0 => rfl) hne
    · exact findJob_updSt_ne st id id2 _ (fun j0 => rfl) hne

lemma processJobBurst_findJob_ne (st : St) (id id2 : String) (hne : id2 ≠ id) :
    findJob (processJobBurst st id).1 id2 = findJob st id2 := by
  unfold processJobBurst
  split
  · rfl
  · dsimp only
    split
    · rw [findJob_updSt_ne _ id id2 _ (by intro j0; rfl) hne,
        findJob_updSt_ne _ id id2 _ (by intro j0; rfl) hne]
    · rw [stepIter_findJob_ne _ id id2 _ _ _ hne,
        findJob_updSt_ne _ id id2 _ (by intro j0; rfl) hne]

lemma dispatchLoop_findJob_ne (maxC running : Nat) (ids : List String) (id2 : String)
    (hmem : id2 ∉ ids) :
    ∀ (st : St) (slots q : Nat),
      findJob (dispatchLoop maxC running st ids slots q).1 id2 = findJob st id2 := by
  induction ids with
  | nil => intro st slots q; rfl
  | cons id ids ih =>
    have hne : id2 ≠ id := fun h => hmem (h ▸ List.mem_cons_self _ _)
    have htl : id2 ∉ ids := fun h => hmem (List.mem_cons_of_mem _ h)
    intro st slots q
    unfold dispatchLoop
    split
    · exact ih htl st slots q
    · dsimp only
      split
      · exact ih htl st slots q
      · rw [ih htl _ _ _, processJobBurst_findJob_ne st id id2 hne]

lemma mem_insertByPrio {j x : Job} : ∀ {l : List Job}, x ∈ insertByPrio j l ↔ x = j ∨ x ∈ l := by
  intro l
  induction l with
  | nil => simp [insertByPrio]
  | cons k ks ih =>
    by_cases h : k.priority ≤ j.priority
    · simp only [insertByPrio, if_pos h, List.mem_cons, ih]
      tauto
    · simp only [insertByPrio, if_neg h, List.mem_cons]

lemma mem_sortByPrio_aux {x : Job} :
    ∀ (l acc : List Job), x ∈ l.foldl (fun a j => insertByPrio j a) acc ↔ x ∈ acc ∨ x ∈ l := by
  intro l
  induction l with
  | nil => intro acc; simp
  | cons j js ih =>
    intro acc
    simp only [List.foldl_cons, ih, mem_insertByPrio, List.mem_cons]
    tauto

lemma mem_sortByPrio {x : Job} {l : List Job} : x ∈ sortByPrio l ↔ x ∈ l := by
  unfold sortByPrio
  rw [mem_sortByPrio_aux]
  simp

/-- The ids walked by processNext: the sorted candidate list of queue.js. -/
def candidateIds (st : St) : List String :=
  let hasWaitingManual := st.jobs.any (fun j => j.status == Status.waiting_input)
  (sortByPrio ((st.jobs.filter (fun j => j.status == Status.pending)).filter
      (fun j => !hasWaitingManual || !jobHasManualSteps j))).map (fun j => j.id)

lemma processNextT_eq (st : St) :
    processNextT st = dispatchLoop st.maxConcurrent
      (st.jobs.countP (fun j => j.status == Status.processing)) st (candidateIds st) 0 0 := rfl

lemma mem_candidateIds {st : St} {id2 : String} (h : id2 ∈ candidateIds st) :
    ∃ j ∈ st.jobs, j.id = id2 ∧ j.status = Status.pending := by
  unfold candidateIds at h
  rcases List.mem_map.mp h with ⟨j, hj, hid⟩
  rcases List.mem_filter.mp (mem_sortByPrio.mp hj) with ⟨hj2, _⟩
  rcases List.mem_filter.mp hj2 with ⟨hj3, hp⟩
  exact ⟨j, hj3, hid, by simpa using hp⟩

lemma findJob_mem {st : St} {id : String} {j : Job} (h : findJob st id = some j) :
    j ∈ st.jobs ∧ j.id = id := by
  refine ⟨List.mem_of_find?_eq_some h, ?_⟩
  have := List.find?_some h
  simpa using this

lemma job_eq_of_id_eq {st : St} (hnd : (st.jobs.map Job.id).Nodup) {j1 j2 : Job}
    (h1 : j1 ∈ st.jobs) (h2 : j2 ∈ st.jobs) (h : j1.id = j2.id) : j1 = j2 :=
  List.inj_on_of_nodup_map hnd h1 h2 h

lemma processNext_findJob_nonpending {st : St} {id2 : String} {j : Job}
    (hnd : (st.jobs.map Job.id).Nodup)
    (hj : findJob st id2 = some j) (hs : j.status ≠ Status.pending) :
    findJob (processNext st).1 id2 = some j := by
  have hnotc : id2 ∉ candidateIds st := by
    intro hmem
    rcases mem_candidateIds hmem with ⟨jc, hjc, hidc, hpc⟩
    rcases findJob_mem hj with ⟨hjm, hjid⟩
    have : j = jc := job_eq_of_id_eq hnd hjm hjc (hjid.trans hidc.symm)
    exact hs (this ▸ hpc)
  show findJob (processNextT st).1 id2 = some j
  rw [processNextT_eq]
  rw [dispatchLoop_findJob_ne _ _ _ _ hnotc st 0 0]
  exact hj

lemma drain_findJob_nonpending :
    ∀ (fuel : Nat) (st : St) (q : Nat) {id2 : String} {j : Job},
      (st.jobs.map Job.id).Nodup →
      findJob st id2 = some j → j.status ≠ Status.pending →
      findJob (drain fuel st q) id2 = some j := by
  intro fuel
  induction fuel with
  | zero =>
    intro st q id2 j _ hj _
    cases q with
    | zero => exact hj
    | succ n => exact hj
  | succ n ih =>
    intro st q id2 j hnd hj hs
    cases q with
    | zero => exact hj
    | succ m =>
      show findJob (drain n (processNext st).1 _) id2 = some j
      have hnd2 : ((processNext st).1.jobs.map Job.id).Nodup := by
        rw [(processNext_coreShape st).2.2.2]; exact hnd
      exact ih _ _ hnd2 (processNext_findJob_nonpending hnd hj hs) hs

lemma finishEv_findJob_nonpending {st : St} {q : Nat} {id2 : String} {j : Job}
    (hnd : (st.jobs.map Job.id).Nodup)
    (hj : findJob st id2 = some j) (hs : j.status ≠ Status.pending) :
    findJob (finishEv st q) id2 = some j :=
  drain_findJob_nonpending _ st q hnd hj hs

lemma updateJob_cons_pos {j : Job} {js : List Job} {id : String} {f : Job → Job}
    (hj : (j.id == id) = true) : updateJob (j :: js) id f = f j :: js := by
  simp only [updateJob]
  rw [if_pos hj]

lemma updateJob_cons_neg {j : Job} {js : List Job} {id : String} {f : Job → Job}
    (hj : ¬ (j.id == id) = true) : updateJob (j :: js) id f = j :: updateJob js id f := by
  simp only [updateJob]
  rw [if_neg hj]

lemma countP_updateJob_le (l : List Job) (id : String) (f : Job → Job) (p : Job → Bool) :
    (updateJob l id f).countP p ≤ l.countP p + 1 := by
  induction l with
  | nil => simp [updateJob]
  | cons j js ih =>
    by_cases hj : (j.id == id) = true
    · rw [updateJob_cons_pos hj, List.countP_cons, List.countP_cons]
      have h1 : (if p (f j) = true then 1 else 0) ≤ 1 := by split <;> omega
      omega
    · rw [updateJob_cons_neg hj, List.countP_cons, List.countP_cons]
      omega

lemma countP_updateJob_le_of_false (l : List Job) (id : String) (f : Job → Job) (p : Job → Bool)
    (h : ∀ j, p (f j) = false) :
    (updateJob l id f).countP p ≤ l.countP p := by
  induction l with
  | nil => simp [updateJob]
  | cons j js ih =>
    by_cases hj : (j.id == id) = true
    · rw [updateJob_cons_pos hj, List.countP_cons, List.countP_cons]
      have hz : (if p (f j) = true then (1:Nat) else 0) = 0 := by
        rw [h j]
        rfl
      omega
    · rw [updateJob_cons_neg hj, List.countP_cons, List.countP_cons]
      omega

lemma countP_updateJob_eq_of (l : List Job) (id : String) (f : Job → Job) (p : Job → Bool)
    (h : ∀ j, p (f j) = p j) :
    (updateJob l id f).countP p = l.countP p := by
  induction l with
  | nil => rfl
  | cons j js ih =>
    by_cases hj : (j.id == id) = true
    · rw [updateJob_cons_pos hj, List.countP_cons, List.countP_cons, h j]
    · rw [updateJob_cons_neg hj, List.countP_cons, List.countP_cons, ih]

lemma updateJob_comp (l : List Job) (id : String) (f g : Job → Job) (hf : KeepsId f) :
    updateJob (updateJob l id f) id g = updateJob l id (fun j => g (f j)) := by
  induction l with
  | nil => rfl
  | cons j js ih =>
    by_cases hj : (j.id == id) = true
    · have h2 : ((f j).id == id) = true := by rw [hf j]; exact hj
      rw [updateJob_cons_pos hj, updateJob_cons_pos h2, updateJob_cons_pos hj]
    · rw [updateJob_cons_neg hj, updateJob_cons_neg hj, updateJob_cons_neg hj, ih]

lemma updSt_comp (st : St) (id : String) (f g : Job → Job) (hf : KeepsId f) :
    updSt (updSt st id f) id g = updSt st id (fun j => g (f j)) := by
  unfold updSt
  rw [updateJob_comp st.jobs id f g hf]

lemma stepIter_count_le (st : St) (id : String) (i : Nat) (cur : FPath) (orig : String) :
    countProcessing (stepIter st id i cur orig).1 ≤ countProcessing st := by
  unfold stepIter
  split
  · exact Nat.le_refl _
  · split
    · split
      · exact countP_updateJob_le_of_false _ _ _ _ (fun j0 => rfl)
      · split
        · exact Nat.le_of_eq (countP_updateJob_eq_of _ _ _ _ (fun j0 => rfl))
        · exact Nat.le_of_eq (countP_updateJob_eq_of _ _ _ _ (fun j0 => rfl))
    · exact countP_updateJob_le_of_false _ _ _ _ (fun j0 => rfl)

lemma processJobBurst_count (st : St) (id : String) :
    countProcessing (processJobBurst st id).1 ≤ countProcessing st + 1 := by
  unfold processJobBurst
  split
  · exact Nat.le_succ_of_le (Nat.le_refl _)
  · dsimp only
    split
    · refine Nat.le_trans (countP_updateJob_le_of_false _ _ _ _ (fun j0 => rfl)) ?_
      exact countP_updateJob_le _ _ _ _
    · refine Nat.le_trans (stepIter_count_le _ _ _ _ _) ?_
      exact countP_updateJob_le _ _ _ _

lemma stepNeedsInput_setProcessing (k : StepKey) (j : Job) :
    stepNeedsInput k { j with status := Status.processing } = stepNeedsInput k j := by
  cases k <;> rfl

lemma processJobBurst_count_pause (st : St) (id : String) {j : Job}
    (hj : findJob st id = some j) (hwp : jobWillPauseImmediately j = true) :
    countProcessing (processJobBurst st id).1 ≤ countProcessing st := by
  obtain ⟨k, hk, hneed⟩ : ∃ k, j.steps.get? (j.resumeFromStep.getD 0) = some k ∧
      stepNeedsInput k j = true := by
    unfold jobWillPauseImmediately at hwp
    dsimp only at hwp
    cases hget : j.steps.get? (j.resumeFromStep.getD 0) with
    | none => rw [hget] at hwp; cases hwp
    | some k => rw [hget] at hwp; exact ⟨k, rfl, hwp⟩
  unfold processJobBurst
  rw [hj]
  dsimp only
  split
  · rw [updSt_comp st id _ _ (by intro j0; rfl)]
    exact countP_updateJob_le_of_false _ _ _ _ (fun j0 => rfl)
  · unfold stepIter
    rw [findJob_updSt_self st id _ (by intro j0; rfl), hj]
    dsimp only [Option.map]
    rw [hk]
    dsimp only
    rw [if_pos (by rw [stepNeedsInput_setProcessing]; exact hneed)]
    dsimp only
    rw [updSt_comp st id _ _ (by intro j0; rfl)]
    exact countP_updateJob_le_of_false _ _ _ _ (fun j0 => rfl)

lemma dispatchLoop_count (maxC running : Nat) (ids : List String) :
    ∀ (st : St) (slots q : Nat),
      countProcessing st ≤ running + slots →
      running + slots ≤ max running maxC →
      countProcessing (dispatchLoop maxC running st ids slots q).1 ≤ max running maxC := by
  induction ids with
  | nil =>
    intro st slots q h1 h2
    exact Nat.le_trans h1 h2
  | cons id ids ih =>
    intro st slots q h1 h2
    unfold dispatchLoop
    split
    · exact ih st slots q h1 h2
    · dsimp only
      rename_i j hj
      by_cases hwp : jobWillPauseImmediately j = true
      · rw [if_neg (by simp [hwp])]
        dsimp only
        rw [if_pos hwp]
        refine ih _ slots _ ?_ h2
        exact Nat.le_trans (processJobBurst_count_pause st id hj hwp) h1
      · have hwpf : jobWillPauseImmediately j = false := by
          cases hcase : jobWillPauseImmediately j with
          | true => exact absurd hcase hwp
          | false => rfl
        by_cases hcap : running + slots ≥ maxC
        · rw [if_pos (by simp [hwpf, hcap])]
          exact ih st slots q h1 h2
        · rw [if_neg (by simp [hwpf, hcap])]
          dsimp only
          rw [if_neg (by simp [hwpf])]
          refine ih _ (slots + 1) _ ?_ ?_
          · calc countProcessing (processJobBurst st id).1
                ≤ countProcessing st + 1 := processJobBurst_count st id
              _ ≤ running + slots + 1 := by omega
              _ = running + (slots + 1) := by omega
          · have : running + slots + 1 ≤ maxC := by omega
            calc running + (slots + 1) = running + slots + 1 := by omega
              _ ≤ maxC := this
              _ ≤ max running maxC := Nat.le_max_right _ _

lemma find?_id_of_mem {l : List Job} (hnd : (l.map Job.id).Nodup) {j : Job} (hm : j ∈ l) :
    l.find? (fun k => k.id == j.id) = some j := by
  induction l with
  | nil => cases hm
  | cons a as ih =>
    rcases List.mem_cons.mp hm with rfl | hm2
    · simp [List.find?]
    · have hnd2 : (as.map Job.id).Nodup := (List.nodup_cons.mp hnd).2
      have hane : (a.id == j.id) = false := by
        simp only [beq_eq_false_iff_ne, ne_eq]
        intro h
        exact (List.nodup_cons.mp hnd).1 (h ▸ List.mem_map_of_mem Job.id hm2)
      simp only [List.find?, hane]
      exact ih hnd2 hm2

lemma findJob_of_mem {st : St} (hnd : (st.jobs.map Job.id).Nodup) {j : Job} (hm : j ∈ st.jobs) :
    findJob st j.id = some j :=
  find?_id_of_mem hnd hm

/-- C2 is refuted on the code: the state c2s3, reachable from the empty job
store through job creation, dispatch and pipeline execution, holds two jobs
in waiting_input at once (job b paused by dispatch, job a paused by its own
running pipeline on reaching its manual crop step). -/
theorem claim_C2_counterexample :
    Reachable 2 c2s3 ∧
    ¬ (c2s3.jobs.filter (fun j => j.status == Status.waiting_input)).length ≤ 1 :=
  ⟨c2s3_reachable, by decide⟩

/-- C3 is refuted on the code: in the reachable state c3s4 the current
maxConcurrent is 1 while two jobs are in processing, because the submitInput
resume path starts processJob without any slot check. -/
theorem claim_C3_counterexample :
    Reachable 2 c3s4 ∧ c3s4.maxConcurrent = 1 ∧ ¬ countProcessing c3s4 ≤ c3s4.maxConcurrent :=
  ⟨c3s4_reachable, by decide, by decide⟩

/-- C6 is refuted on the code: in the reachable state c6s2 (a pipeline
suspended between its first and second automatic steps) the job has one
stepResults entry while resumeFromStep still reads 0, so
stepResults.length is not bounded by resumeFromStep at this observable
moment. -/
theorem claim_C6_counterexample :
    Reachable 2 c6s2 ∧
    ∃ j ∈ c6s2.jobs, ¬ j.stepResults.length ≤ j.resumeFromStep.getD 0 :=
  ⟨c6s2_reachable, by decide⟩

/-- C7 is refuted on the code: in the reachable state c7s2 job a failed
because its owning photo was deleted before dispatch, and neither failedStep
nor failedStepIndex is populated, although the status is failed. -/
theorem claim_C7_counterexample :
    Reachable 2 c7s2 ∧
    ∃ j ∈ c7s2.jobs, j.status = Status.failed ∧ j.failedStep = none ∧ j.failedStepIndex = none :=
  ⟨c7s2_reachable, by decide⟩

/-- C4 is refuted on the code: in the reachable state c4pre the job is
suspended in a worker invocation at step index 2, whose key upscale also
occurs at index 0; when that invocation fails, the job records
failedStepIndex = 0 (steps.indexOf of the key, i.e. the first occurrence),
not the claimed 2. -/
theorem claim_C4_counterexample :
    Reachable 2 c4pre ∧
    (c4pre.frames.map (fun fr => (fr.jobId, fr.stepIdx, fr.stepK)))
      = [("a", 2, StepKey.upscale)] ∧
    (∃ j ∈ c4pre.jobs, j.status ≠ Status.cancelled ∧ j.steps.get? 0 = some StepKey.upscale) ∧
    (∃ j ∈ (workerExit c4pre "a" false "boom").jobs,
      j.status = Status.failed ∧ j.failedStepIndex = some 0) ∧
    (0 : Int) ≠ 2 :=
  ⟨c4pre_reachable, by decide, by decide, by decide, by decide⟩

/-! ### C8: the heartbeat sweep -/

/-- C8: when the heartbeat check fires with now - lastHeartbeat at or above
the timeout, then (i) if no job is pending or processing nothing changes at
all; (ii) job for job, every pending or processing job transitions to
cancelled with currentStep, waitingStep and waitingImage cleared (that is
cancelJobRecord) while every other job - in particular every job in
waiting_input - is left unchanged; (iii) any worker registered for an active
job is killed and deregistered from the running-process table; (iv) workers
of non-active jobs stay registered. -/
theorem claim_C8_heartbeat (tmo now lastHB : Nat) (st : St)
    (hnd : (st.jobs.map Job.id).Nodup)
    (helapsed : tmo ≤ now - lastHB) :
    (st.jobs.countP isActiveJob = 0 → checkHeartbeat tmo now lastHB st = st) ∧
    List.Forall₂ (fun j j1 =>
        (isActiveJob j = true → j1 = cancelJobRecord j) ∧
        (isActiveJob j = false → j1 = j))
      st.jobs (checkHeartbeat tmo now lastHB st).jobs ∧
    (∀ j ∈ st.jobs, isActiveJob j = true →
        j.id ∉ (checkHeartbeat tmo now lastHB st).runningProcs) ∧
    (∀ pid ∈ st.runningProcs, (∀ j2, findJob st pid = some j2 → isActiveJob j2 = false) →
        pid ∈ (checkHeartbeat tmo now lastHB st).runningProcs) := by
  have hlt : ¬ (now - lastHB < tmo) := not_lt.mpr helapsed
  unfold checkHeartbeat
  rw [if_neg hlt]
  by_cases hz : st.jobs.countP isActiveJob = 0
  · rw [if_pos hz]
    have hall : ∀ j ∈ st.jobs, ¬ isActiveJob j = true := List.countP_eq_zero.mp hz
    refine ⟨fun _ => rfl, ?_, ?_, ?_⟩
    · exact List.forall₂_same.mpr (fun j hj => ⟨fun ha => absurd ha (hall j hj), fun _ => rfl⟩)
    · intro j hj ha
      exact absurd ha (hall j hj)
    · intro pid hp _
      exact hp
  · rw [if_neg hz]
    refine ⟨fun h => absurd h hz, ?_, ?_, ?_⟩
    · refine List.forall₂_map_right_iff.mpr (List.forall₂_same.mpr (fun j hj => ⟨?_, ?_⟩))
      · intro ha
        simp [ha]
      · intro ha
        simp [ha]
    · intro j hj ha hmem
      have hpred := (List.mem_filter.mp hmem).2
      rw [findJob_of_mem hnd hj] at hpred
      simp [ha] at hpred
    · intro pid hp hfj
      refine List.mem_filter.mpr ⟨hp, ?_⟩
      cases hcase : findJob st pid with
      | none => simp [hcase]
      | some j2 => simp [hcase, hfj j2 hcase]

/-- A tiny concrete state exercising claim_C8_heartbeat: one processing job
with a live worker, one job in waiting_input. -/
def hbJob1 : Job :=
  { id := "h1", photoId := "p1", photoName := "n1", originalUrl := "/uploads/f1",
    steps := [.face_restore], options := [], maskPath := none, cropRect := none,
    status := .processing, progress := 0, createdAt := 0, result := none,
    stepResults := [], priority := 0, resumeFromStep := none, currentInputPath := none,
    currentStep := some .face_restore, waitingStep := none, waitingImage := none,
    error := none, failedStep := none, failedStepIndex := none }

/-- The waiting_input companion job of the heartbeat witness state. -/
def hbJob2 : Job :=
  { id := "h2", photoId := "p2", photoName := "n2", originalUrl := "/uploads/f2",
    steps := [.crop], options := [], maskPath := none, cropRect := none,
    status := .waiting_input, progress := 0, createdAt := 0, result := none,
    stepResults := [], priority := 0, resumeFromStep := some 0, currentInputPath := none,
    currentStep := none, waitingStep := some .crop, waitingImage := none,
    error := none, failedStep := none, failedStepIndex := none }

/-- The heartbeat witness state. -/
def hbSt : St :=
  { jobs := [hbJob1, hbJob2], photos := [ph1, ph2], maxConcurrent := 2,
    runningProcs := ["h1"], frames := [], maskFiles := [] }

/-- Witness for claim_C8_heartbeat at a concrete timed-out state. -/
theorem claim_C8_heartbeat_witness :
    ((hbSt.jobs.map Job.id).Nodup ∧ 10000 ≤ 20000 - 0) ∧
    ((hbSt.jobs.countP isActiveJob = 0 → checkHeartbeat 10000 20000 0 hbSt = hbSt) ∧
    List.Forall₂ (fun j j1 =>
        (isActiveJob j = true → j1 = cancelJobRecord j) ∧
        (isActiveJob j = false → j1 = j))
      hbSt.jobs (checkHeartbeat 10000 20000 0 hbSt).jobs ∧
    (∀ j ∈ hbSt.jobs, isActiveJob j = true →
        j.id ∉ (checkHeartbeat 10000 20000 0 hbSt).runningProcs) ∧
    (∀ pid ∈ hbSt.runningProcs, (∀ j2, findJob hbSt pid = some j2 → isActiveJob j2 = false) →
        pid ∈ (checkHeartbeat 10000 20000 0 hbSt).runningProcs)) :=
  ⟨⟨by decide, by decide⟩, claim_C8_heartbeat 10000 20000 0 hbSt (by decide) (by decide)⟩

/-! ### C3 amended: the dispatcher respects the limit -/

/-- C3 amended: a processNext pass alone never raises the number of
processing jobs above max(current count, maxConcurrent): dispatch admits a
slot-consuming job only while running + slotsUsed < maxConcurrent, and a
job dispatched as will-pause leaves processing within the same pass.  (The
resume routes violate the original claim, see the counterexample.) -/
theorem claim_C3_amended_bound (st : St) :
    countProcessing (processNext st).1 ≤ max (countProcessing st) st.maxConcurrent := by
  show countProcessing (processNextT st).1 ≤ _
  rw [processNextT_eq]
  refine dispatchLoop_count st.maxConcurrent _ (candidateIds st) st 0 0 ?_ ?_
  · show countProcessing st ≤ countProcessing st + 0
    omega
  · show countProcessing st + 0 ≤ max (countProcessing st) st.maxConcurrent
    rw [Nat.add_zero]
    exact Nat.le_max_left (countProcessing st) st.maxConcurrent

/-! ### C2 amended: the manual gate restricts dispatch only -/

lemma mem_candidateIds_pending_nomanual {st : St} {id2 : String}
    (hw : st.jobs.any (fun j => j.status == Status.waiting_input) = true)
    (h : id2 ∈ candidateIds st) :
    ∃ j ∈ st.jobs, j.id = id2 ∧ j.status = Status.pending ∧ jobHasManualSteps j = false := by
  unfold candidateIds at h
  rcases List.mem_map.mp h with ⟨j, hj, hid⟩
  rcases List.mem_filter.mp (mem_sortByPrio.mp hj) with ⟨hj2, hfilter⟩
  rcases List.mem_filter.mp hj2 with ⟨hj3, hp⟩
  refine ⟨j, hj3, hid, by simpa using hp, ?_⟩
  rw [hw] at hfilter
  simpa using hfilter

lemma dispatchLoop_decisions_mem (maxC running : Nat) (ids : List String) :
    ∀ (st : St) (slots q : Nat), ∀ p ∈ (dispatchLoop maxC running st ids slots q).2.2,
      p.1 ∈ ids := by
  induction ids with
  | nil =>
    intro st slots q p hp
    cases hp
  | cons id ids ih =>
    intro st slots q p hp
    unfold dispatchLoop at hp
    split at hp
    · exact List.mem_cons_of_mem _ (ih _ _ _ p hp)
    · dsimp only at hp
      split at hp
      · exact List.mem_cons_of_mem _ (ih _ _ _ p hp)
      · rcases List.mem_cons.mp hp with h | h
        · rw [h]
          exact List.mem_cons_self _ _
        · exact List.mem_cons_of_mem _ (ih _ _ _ p h)

/-- C2 amended: when some job is in waiting_input, every job that a
processNext pass dispatches is a pending job with no manual steps, i.e. the
hasWaitingManual gate keeps every pending job with manual steps out of the
candidate set.  (The gate does not bound the number of waiting_input jobs,
see the counterexample.) -/
theorem claim_C2_amended_gate (st : St)
    (hw : st.jobs.any (fun j => j.status == Status.waiting_input) = true) :
    ∀ p ∈ (processNextT st).2.2,
      ∃ j ∈ st.jobs, j.id = p.1 ∧ j.status = Status.pending ∧ jobHasManualSteps j = false := by
  intro p hp
  have hmem : p.1 ∈ candidateIds st := by
    rw [processNextT_eq] at hp
    exact dispatchLoop_decisions_mem _ _ _ st 0 0 p hp
  exact mem_candidateIds_pending_nomanual hw hmem

/-- A pending job with a manual step, used by the gate witness. -/
def gateJob3 : Job :=
  { id := "h3", photoId := "p1", photoName := "n1", originalUrl := "/uploads/f1",
    steps := [.crop, .face_restore], options := [], maskPath := none, cropRect := none,
    status := .pending, progress := 0, createdAt := 0, result := none,
    stepResults := [], priority := 3, resumeFromStep := none, currentInputPath := none,
    currentStep := none, waitingStep := none, waitingImage := none,
    error := none, failedStep := none, failedStepIndex := none }

/-- Witness state for the gate: one waiting_input job and one pending
manual job. -/
def gateSt : St :=
  { jobs := [hbJob2, gateJob3], photos := [ph1, ph2], maxConcurrent := 2,
    runningProcs := [], frames := [], maskFiles := [] }

/-- Witness for claim_C2_amended_gate on a concrete state (where the gate
dispatches nothing at all). -/
theorem claim_C2_amended_gate_witness :
    (gateSt.jobs.any (fun j => j.status == Status.waiting_input) = true) ∧
    (∀ p ∈ (processNextT gateSt).2.2,
      ∃ j ∈ gateSt.jobs, j.id = p.1 ∧ j.status = Status.pending ∧
        jobHasManualSteps j = false) :=
  ⟨by decide, claim_C2_amended_gate gateSt (by decide)⟩

/-! ### C4 amended: worker failure bookkeeping -/

lemma findJob_set_frames (st : St) (frs : List Frame) (procs : List String) (id : String) :
    findJob { st with frames := frs, runningProcs := procs } id = findJob st id := rfl

/-- C4 amended: when the worker invocation a job is suspended in (at the
frame's step index) fails while the job is not cancelled, the job
transitions to failed with error = the message, failedStep = the step key of
that invocation (the job's currentStep), failedStepIndex =
steps.indexOf(that key) - the index of its first occurrence in steps, which
equals the invocation index only when the key has no earlier duplicate -
and its stepResults unchanged (no entry recorded for the failed step). -/
theorem claim_C4_amended_failure (st : St) (jobId msg : String) (fr : Frame) (j : Job)
    (hnd : (st.jobs.map Job.id).Nodup)
    (hfr : st.frames.find? (fun fr2 => fr2.jobId == jobId) = some fr)
    (hj : findJob st jobId = some j)
    (hnc : ¬ j.status = Status.cancelled)
    (hcs : j.currentStep = some fr.stepK) :
    ∃ j1, findJob (workerExit st jobId false msg) jobId = some j1 ∧
      j1.status = Status.failed ∧
      j1.error = some msg ∧
      j1.failedStep = some fr.stepK ∧
      j1.failedStepIndex = some (jsIndexOf j.steps fr.stepK) ∧
      j1.stepResults = j.stepResults := by
  unfold workerExit
  rw [hfr]
  dsimp only
  cases hcase : findJob { st with
      frames := st.frames.eraseP (fun fr2 => fr2.jobId == jobId),
      runningProcs := st.runningProcs.erase jobId } jobId with
  | none =>
    have h0 : findJob st jobId = none := hcase
    rw [hj] at h0
    cases h0
  | some j2 =>
    have h2 : findJob st jobId = some j2 := hcase
    rw [hj] at h2
    injection h2 with h2e
    subst h2e
    simp only [Bool.false_eq_true, if_false]
    rw [if_neg hnc]
    have hksid : KeepsId (fun j0 : Job => { j0 with
        status := Status.failed, error := some msg,
        failedStep := j0.currentStep,
        failedStepIndex := some (match j0.currentStep with
          | some k => jsIndexOf j0.steps k
          | none => -1),
        currentStep := none }) := by intro j0; rfl
    have hupd : findJob (updSt { st with
        frames := st.frames.eraseP (fun fr2 => fr2.jobId == jobId),
        runningProcs := st.runningProcs.erase jobId } jobId
        (fun j0 : Job => { j0 with
          status := Status.failed, error := some msg,
          failedStep := j0.currentStep,
          failedStepIndex := some (match j0.currentStep with
            | some k => jsIndexOf j0.steps k
            | none => -1),
          currentStep := none })) jobId
        = some { j with
          status := Status.failed, error := some msg,
          failedStep := j.currentStep,
          failedStepIndex := some (match j.currentStep with
            | some k => jsIndexOf j.steps k
            | none => -1),
          currentStep := none } := by
      rw [findJob_updSt_self _ jobId _ hksid, hcase]
      rfl
    have hnd1 : ((updSt { st with
        frames := st.frames.eraseP (fun fr2 => fr2.jobId == jobId),
        runningProcs := st.runningProcs.erase jobId } jobId
        (fun j0 : Job => { j0 with
          status := Status.failed, error := some msg,
          failedStep := j0.currentStep,
          failedStepIndex := some (match j0.currentStep with
            | some k => jsIndexOf j0.steps k
            | none => -1),
          currentStep := none })).jobs.map Job.id).Nodup := by
      dsimp only [updSt]
      rw [updateJob_map_id _ _ _ hksid]
      exact hnd
    have hfin := finishEv_findJob_nonpending (q := 1) hnd1 hupd (by intro hcontra; cases hcontra)
    refine ⟨_, hfin, rfl, rfl, ?_, ?_, rfl⟩
    · show j.currentStep = some fr.stepK
      exact hcs
    · show some (match j.currentStep with
          | some k => jsIndexOf j.steps k
          | none => -1) = some (jsIndexOf j.steps fr.stepK)
      rw [hcs]

/-- The suspended frame of the duplicate-step state, recovered from it. -/
def c4fr : Frame :=
  (c4pre.frames.find? (fun fr2 => fr2.jobId == "a")).getD ⟨"a", 0, .crop, "", ""⟩

/-- The suspended job of the duplicate-step state, recovered from it. -/
def c4job : Job :=
  (findJob c4pre "a").getD gateJob3

/-- Witness for claim_C4_amended_failure at the concrete duplicate-step
state. -/
theorem claim_C4_amended_failure_witness :
    ((c4pre.jobs.map Job.id).Nodup ∧
     c4pre.frames.find? (fun fr2 => fr2.jobId == "a") = some c4fr ∧
     findJob c4pre "a" = some c4job ∧
     ¬ c4job.status = Status.cancelled ∧
     c4job.currentStep = some c4fr.stepK) ∧
    (∃ j1, findJob (workerExit c4pre "a" false "boom") "a" = some j1 ∧
      j1.status = Status.failed ∧
      j1.error = some "boom" ∧
      j1.failedStep = some c4fr.stepK ∧
      j1.failedStepIndex = some (jsIndexOf c4job.steps c4fr.stepK) ∧
      j1.stepResults = c4job.stepResults) :=
  ⟨⟨by decide, by decide, by decide, by decide, by decide⟩,
   claim_C4_amended_failure c4pre "a" "boom" c4fr c4job
     (by decide) (by decide) (by decide) (by decide) (by decide)⟩

/-! ### Characterizations of the pause path, shared by the resume claims -/

lemma stepNeedsInput_congr (k : StepKey) (j1 j2 : Job)
    (hc : j1.cropRect = j2.cropRect) (hm : j1.maskPath = j2.maskPath) :
    stepNeedsInput k j1 = stepNeedsInput k j2 := by
  cases k <;> simp [stepNeedsInput, hc, hm]

/-- When the step at index i needs input, the pipeline iteration pauses the
job into waiting_input exactly as queue.js lines 74-82 write it. -/
lemma stepIter_pause_char (st : St) (id : String) (i : Nat) (cur : FPath) (orig : String)
    (j : Job) (k : StepKey)
    (hj : findJob st id = some j)
    (hstep : j.steps.get? i = some k)
    (hneed : stepNeedsInput k j = true) :
    stepIter st id i cur orig =
      (updSt st id (fun j0 => { j0 with
          status := Status.waiting_input,
          waitingStep := some k,
          resumeFromStep := some i,
          currentInputPath := some cur,
          waitingImage := some (getUrlForPath cur),
          progress := round100 i j0.steps.length }), true) := by
  unfold stepIter
  rw [hj]
  dsimp only
  rw [hstep]
  dsimp only
  rw [if_pos hneed]

/-- When the step at the resume index needs input and the photo exists, the
processJob burst re-pauses the job into waiting_input at that index, with
currentInputPath defaulting to the photo's upload path. -/
lemma processJobBurst_pause_char (st : St) (id : String) (j : Job) (photo : Photo) (k : StepKey)
    (hj : findJob st id = some j)
    (hphoto : st.photos.find? (fun p => p.id == j.photoId) = some photo)
    (hstep : j.steps.get? (j.resumeFromStep.getD 0) = some k)
    (hneed : stepNeedsInput k j = true) :
    processJobBurst st id =
      (updSt (updSt st id (fun j0 => { j0 with status := Status.processing })) id
        (fun j0 => { j0 with
          status := Status.waiting_input,
          waitingStep := some k,
          resumeFromStep := some (j.resumeFromStep.getD 0),
          currentInputPath := some (j.currentInputPath.getD (FPath.uploads photo.filename)),
          waitingImage := some (getUrlForPath (j.currentInputPath.getD (FPath.uploads photo.filename))),
          progress := round100 (j.resumeFromStep.getD 0) j0.steps.length }), true) := by
  unfold processJobBurst
  rw [hj]
  dsimp only
  have hphoto2 : List.find? (fun p => p.id == j.photoId)
      (updSt st id (fun j0 => { j0 with status := Status.processing })).photos = some photo :=
    hphoto
  rw [hphoto2]
  dsimp only
  have hj2 : findJob (updSt st id (fun j0 => { j0 with status := Status.processing })) id
      = some { j with status := Status.processing } := by
    rw [findJob_updSt_self _ _ _ (by intro j0; rfl), hj]
    rfl
  have hstep2 : ({ j with status := Status.processing } : Job).steps.get?
      (j.resumeFromStep.getD 0) = some k := hstep
  have hneed2 : stepNeedsInput k { j with status := Status.processing } = true :=
    (stepNeedsInput_congr k _ j rfl rfl).trans hneed
  rw [stepIter_pause_char _ id _ _ _ _ k hj2 hstep2 hneed2]

/-! ### C10: submitInput with a missing input re-pauses unchanged -/

/-- C10: for a job waiting on crop (respectively inpaint) whose photo still
exists, submitInput with a body lacking cropRect (respectively mask) is
answered ok, and the job passes through processJob and re-enters
waiting_input on the same step with resumeFromStep, waitingStep,
waitingImage, currentInputPath and stepResults all unchanged. -/
theorem claim_C10_resubmit
    (st : St) (id maskName : String) (body : InputBody)
    (j : Job) (photo : Photo) (cip : FPath) (i : Nat)
    (hnd : (st.jobs.map Job.id).Nodup)
    (hj : findJob st id = some j)
    (hw : j.status = Status.waiting_input)
    (hr : j.resumeFromStep = some i)
    (hphoto : st.photos.find? (fun p => p.id == j.photoId) = some photo)
    (hcip : j.currentInputPath = some cip)
    (hwi : j.waitingImage = some (getUrlForPath cip))
    (hk : (j.steps.get? i = some StepKey.crop ∧ j.waitingStep = some StepKey.crop ∧
            body.cropRect = none ∧ j.cropRect = none) ∨
          (j.steps.get? i = some StepKey.inpaint ∧ j.waitingStep = some StepKey.inpaint ∧
            body.mask = none ∧ j.maskPath = none)) :
    (postInput st id body maskName).2 = Resp.ok ∧
    ∃ j1, findJob (postInput st id body maskName).1 id = some j1 ∧
      j1.status = Status.waiting_input ∧
      j1.resumeFromStep = j.resumeFromStep ∧
      j1.waitingStep = j.waitingStep ∧
      j1.waitingImage = j.waitingImage ∧
      j1.currentInputPath = j.currentInputPath ∧
      j1.stepResults = j.stepResults := by
  obtain ⟨k, hgk, hws, hbm, hbc, hneed⟩ :
      ∃ k, j.steps.get? i = some k ∧ j.waitingStep = some k ∧
        ¬ (j.waitingStep = some StepKey.inpaint ∧ body.mask.isSome = true) ∧
        ¬ (j.waitingStep = some StepKey.crop ∧ body.cropRect.isSome = true) ∧
        stepNeedsInput k j = true := by
    rcases hk with ⟨h1, h2, h3, h4⟩ | ⟨h1, h2, h3, h4⟩
    · refine ⟨.crop, h1, h2, ?_, ?_, ?_⟩
      · intro hcon
        rw [h2] at hcon
        exact absurd hcon.1 (by decide)
      · intro hcon
        rw [h3] at hcon
        exact absurd hcon.2 (by decide)
      · simp [stepNeedsInput, h4]
    · refine ⟨.inpaint, h1, h2, ?_, ?_, ?_⟩
      · intro hcon
        rw [h3] at hcon
        exact absurd hcon.2 (by decide)
      · intro hcon
        rw [h2] at hcon
        exact absurd hcon.1 (by decide)
      · simp [stepNeedsInput, h4]
  unfold postInput
  rw [hj]
  dsimp only
  rw [if_pos hw, if_neg hbm, if_neg hbc]
  dsimp only
  have hjc : findJob (updSt st id
      (fun j0 => { j0 with waitingStep := none, waitingImage := none })) id
      = some { j with waitingStep := none, waitingImage := none } := by
    rw [findJob_updSt_self _ _ _ (by intro j0; rfl), hj]
    rfl
  have hphoto2 : (updSt st id
      (fun j0 => { j0 with waitingStep := none, waitingImage := none })).photos.find?
        (fun p => p.id == ({ j with waitingStep := none, waitingImage := none } : Job).photoId)
      = some photo := hphoto
  have hstep2 : ({ j with waitingStep := none, waitingImage := none } : Job).steps.get?
      (({ j with waitingStep := none, waitingImage := none } : Job).resumeFromStep.getD 0)
      = some k := by
    show j.steps.get? (j.resumeFromStep.getD 0) = some k
    rw [hr]
    exact hgk
  have hneed2 : stepNeedsInput k { j with waitingStep := none, waitingImage := none } = true :=
    (stepNeedsInput_congr k _ j rfl rfl).trans hneed
  rw [processJobBurst_pause_char _ id _ photo k hjc hphoto2 hstep2 hneed2]
  dsimp only
  have hch : findJob (updSt (updSt (updSt st id
      (fun j0 => { j0 with waitingStep := none, waitingImage := none })) id
      (fun j0 => { j0 with status := Status.processing })) id
      (fun j0 => { j0 with
        status := Status.waiting_input,
        waitingStep := some k,
        resumeFromStep := some (({ j with waitingStep := none, waitingImage := none } : Job).resumeFromStep.getD 0),
        currentInputPath := some (({ j with waitingStep := none, waitingImage := none } : Job).currentInputPath.getD (FPath.uploads photo.filename)),
        waitingImage := some (getUrlForPath (({ j with waitingStep := none, waitingImage := none } : Job).currentInputPath.getD (FPath.uploads photo.filename))),
        progress := round100 (({ j with waitingStep := none, waitingImage := none } : Job).resumeFromStep.getD 0) j0.steps.length })) id
      = some { { { j with waitingStep := none, waitingImage := none } with status := Status.processing } with
        status := Status.waiting_input,
        waitingStep := some k,
        resumeFromStep := some (({ j with waitingStep := none, waitingImage := none } : Job).resumeFromStep.getD 0),
        currentInputPath := some (({ j with waitingStep := none, waitingImage := none } : Job).currentInputPath.getD (FPath.uploads photo.filename)),
        waitingImage := some (getUrlForPath (({ j with waitingStep := none, waitingImage := none } : Job).currentInputPath.getD (FPath.uploads photo.filename))),
        progress := round100 (({ j with waitingStep := none, waitingImage := none } : Job).resumeFromStep.getD 0) ({ j with waitingStep := none, waitingImage := none } : Job).steps.length } := by
    rw [findJob_updSt_self _ _ _ (by intro j0; rfl),
      findJob_updSt_self _ _ _ (by intro j0; rfl), hjc]
    rfl
  have hnd3 : (((updSt (updSt (updSt st id
      (fun j0 => { j0 with waitingStep := none, waitingImage := none })) id
      (fun j0 => { j0 with status := Status.processing })) id
      (fun j0 => { j0 with
        status := Status.waiting_input,
        waitingStep := some k,
        resumeFromStep := some (({ j with waitingStep := none, waitingImage := none } : Job).resumeFromStep.getD 0),
        currentInputPath := some (({ j with waitingStep := none, waitingImage := none } : Job).currentInputPath.getD (FPath.uploads photo.filename)),
        waitingImage := some (getUrlForPath (({ j with waitingStep := none, waitingImage := none } : Job).currentInputPath.getD (FPath.uploads photo.filename))),
        progress := round100 (({ j with waitingStep := none, waitingImage := none } : Job).resumeFromStep.getD 0) j0.steps.length })).jobs.map Job.id)).Nodup := by
    dsimp only [updSt]
    rw [updateJob_map_id _ _ _ (by intro j0; rfl), updateJob_map_id _ _ _ (by intro j0; rfl),
      updateJob_map_id _ _ _ (by intro j0; rfl)]
    exact hnd
  have hfin := finishEv_findJob_nonpending (q := 1) hnd3 hch
    (fun hcon => Status.noConfusion hcon)
  refine ⟨rfl, _, hfin, rfl, ?_, ?_, ?_, ?_, rfl⟩
  · show some (({ j with waitingStep := none, waitingImage := none } : Job).resumeFromStep.getD 0)
      = j.resumeFromStep
    dsimp only
    rw [hr]
    rfl
  · exact hws.symm
  · show some (getUrlForPath (({ j with waitingStep := none, waitingImage := none } : Job).currentInputPath.getD (FPath.uploads photo.filename)))
      = j.waitingImage
    dsimp only
    rw [hcip]
    exact hwi.symm
  · show some (({ j with waitingStep := none, waitingImage := none } : Job).currentInputPath.getD (FPath.uploads photo.filename))
      = j.currentInputPath
    dsimp only
    rw [hcip]
    rfl

/-- The waiting job of the C10 witness, recovered from the c2s2 state. -/
def c10job : Job := (findJob c2s2 "b").getD gateJob3

/-- The photo of the C10 witness. -/
def c10photo : Photo := (c2s2.photos.find? (fun p => p.id == c10job.photoId)).getD ph1

/-- The current input path of the C10 witness job. -/
def c10cip : FPath := c10job.currentInputPath.getD (FPath.uploads "zz")

/-- Witness for claim_C10_resubmit: submitting an empty body to the job
waiting on crop in the concrete state c2s2. -/
theorem claim_C10_resubmit_witness :
    ((c2s2.jobs.map Job.id).Nodup ∧
     findJob c2s2 "b" = some c10job ∧
     c10job.status = Status.waiting_input ∧
     c10job.resumeFromStep = some 0 ∧
     c2s2.photos.find? (fun p => p.id == c10job.photoId) = some c10photo ∧
     c10job.currentInputPath = some c10cip ∧
     c10job.waitingImage = some (getUrlForPath c10cip) ∧
     c10job.steps.get? 0 = some StepKey.crop ∧ c10job.waitingStep = some StepKey.crop ∧
     c10job.cropRect = none) ∧
    ((postInput c2s2 "b" ⟨none, none⟩ "mw").2 = Resp.ok ∧
    ∃ j1, findJob (postInput c2s2 "b" ⟨none, none⟩ "mw").1 "b" = some j1 ∧
      j1.status = Status.waiting_input ∧
      j1.resumeFromStep = c10job.resumeFromStep ∧
      j1.waitingStep = c10job.waitingStep ∧
      j1.waitingImage = c10job.waitingImage ∧
      j1.currentInputPath = c10job.currentInputPath ∧
      j1.stepResults = c10job.stepResults) :=
  ⟨⟨by decide, by decide, by decide, by decide, by decide, by decide, by decide,
    by decide, by decide, by decide⟩,
   claim_C10_resubmit c2s2 "b" "mw" ⟨none, none⟩ c10job c10photo c10cip 0
     (by decide) (by decide) (by decide) (by decide) (by decide) (by decide) (by decide)
     (Or.inl ⟨by decide, by decide, rfl, by decide⟩)⟩

/-! ### C5: the rewind route -/

/-- Net effect of the input-clearing loop of the back route on the job and
on the mask files: crop clears cropRect when a crop step occurs, inpaint
unlinks the mask file (at its first occurrence, while maskPath is still set)
and clears maskPath; all other job fields, the photos and the job ids are
untouched. -/
lemma clearLoop_char (id : String) :
    ∀ (ks : List StepKey) (st : St) (j : Job), findJob st id = some j →
    ∃ j1, findJob (ks.foldl (fun acc k => clearStepInput acc id k) st) id = some j1 ∧
      j1.id = j.id ∧ j1.photoId = j.photoId ∧ j1.steps = j.steps ∧
      j1.status = j.status ∧ j1.stepResults = j.stepResults ∧
      j1.resumeFromStep = j.resumeFromStep ∧ j1.currentInputPath = j.currentInputPath ∧
      j1.cropRect = (if ks.contains StepKey.crop then none else j.cropRect) ∧
      j1.maskPath = (if ks.contains StepKey.inpaint then none else j.maskPath) ∧
      (ks.foldl (fun acc k => clearStepInput acc id k) st).photos = st.photos ∧
      (ks.foldl (fun acc k => clearStepInput acc id k) st).jobs.map Job.id
        = st.jobs.map Job.id ∧
      (ks.foldl (fun acc k => clearStepInput acc id k) st).maskFiles =
        (if ks.contains StepKey.inpaint then
          (match j.maskPath with
           | some p => st.maskFiles.erase p
           | none => st.maskFiles)
         else st.maskFiles) := by
  intro ks
  induction ks with
  | nil =>
    intro st j hj
    exact ⟨j, hj, rfl, rfl, rfl, rfl, rfl, rfl, rfl, rfl, rfl, rfl, rfl, rfl⟩
  | cons k ks ih =>
    intro st j hj
    rw [List.foldl_cons]
    cases k with
    | crop =>
      have hj2 : findJob (clearStepInput st id StepKey.crop) id
          = some { j with cropRect := none } := by
        show findJob (updSt st id _) id = _
        rw [findJob_updSt_self _ _ _ (by intro j0; rfl), hj]
        rfl
      obtain ⟨j1, hfind, hid, hpid, hsteps, hstat, hsr, hrs, hcipf, hcr, hmp, hph, hmap, hmf⟩ :=
        ih (clearStepInput st id StepKey.crop) _ hj2
      refine ⟨j1, hfind, hid, hpid, hsteps, hstat, hsr, hrs, hcipf, ?_, ?_, ?_, ?_, ?_⟩
      · rw [hcr]
        simp
      · rw [hmp]
        simp
      · rw [hph]
        rfl
      · rw [hmap]
        show (updateJob st.jobs id _).map Job.id = _
        rw [updateJob_map_id _ _ _ (by intro j0; rfl)]
      · rw [hmf]
        show (if ks.contains StepKey.inpaint then
            (match j.maskPath with
             | some p => (clearStepInput st id StepKey.crop).maskFiles.erase p
             | none => (clearStepInput st id StepKey.crop).maskFiles)
           else (clearStepInput st id StepKey.crop).maskFiles) = _
        have hcm : (clearStepInput st id StepKey.crop).maskFiles = st.maskFiles := rfl
        rw [hcm]
        simp
    | inpaint =>
      have hst : clearStepInput st id StepKey.inpaint =
          { updSt st id (fun j1 => { j1 with maskPath := none }) with
            maskFiles := (match j.maskPath with
              | some p => st.maskFiles.erase p
              | none => st.maskFiles) } := by
        show (match findJob st id with
          | some j0 =>
            { updSt st id (fun j1 => { j1 with maskPath := none }) with
              maskFiles := (match j0.maskPath with
                | some p => st.maskFiles.erase p
                | none => st.maskFiles) }
          | none => st) = _
        rw [hj]
      have hj2 : findJob (clearStepInput st id StepKey.inpaint) id
          = some { j with maskPath := none } := by
        rw [hst]
        show findJob (updSt st id _) id = _
        rw [findJob_updSt_self _ _ _ (by intro j0; rfl), hj]
        rfl
      obtain ⟨j1, hfind, hid, hpid, hsteps, hstat, hsr, hrs, hcipf, hcr, hmp, hph, hmap, hmf⟩ :=
        ih (clearStepInput st id StepKey.inpaint) _ hj2
      refine ⟨j1, hfind, hid, hpid, hsteps, hstat, hsr, hrs, hcipf, ?_, ?_, ?_, ?_, ?_⟩
      · rw [hcr]
        simp
      · rw [hmp]
        simp
      · rw [hph, hst]
        rfl
      · rw [hmap, hst]
        show (updateJob st.jobs id _).map Job.id = _
        rw [updateJob_map_id _ _ _ (by intro j0; rfl)]
      · rw [hmf, hst]
        simp
    | spot_removal =>
      rw [show clearStepInput st id StepKey.spot_removal = st from rfl]
      obtain ⟨j1, hfind, hid, hpid, hsteps, hstat, hsr, hrs, hcipf, hcr, hmp, hph, hmap, hmf⟩ :=
        ih st j hj
      exact ⟨j1, hfind, hid, hpid, hsteps, hstat, hsr, hrs, hcipf,
        by rw [hcr]; simp, by rw [hmp]; simp, hph, hmap, by rw [hmf]; simp⟩
    | scratch_removal =>
      rw [show clearStepInput st id StepKey.scratch_removal = st from rfl]
      obtain ⟨j1, hfind, hid, hpid, hsteps, hstat, hsr, hrs, hcipf, hcr, hmp, hph, hmap, hmf⟩ :=
        ih st j hj
      exact ⟨j1, hfind, hid, hpid, hsteps, hstat, hsr, hrs, hcipf,
        by rw [hcr]; simp, by rw [hmp]; simp, hph, hmap, by rw [hmf]; simp⟩
    | face_restore =>
      rw [show clearStepInput st id StepKey.face_restore = st from rfl]
      obtain ⟨j1, hfind, hid, hpid, hsteps, hstat, hsr, hrs, hcipf, hcr, hmp, hph, hmap, hmf⟩ :=
        ih st j hj
      exact ⟨j1, hfind, hid, hpid, hsteps, hstat, hsr, hrs, hcipf,
        by rw [hcr]; simp, by rw [hmp]; simp, hph, hmap, by rw [hmf]; simp⟩
    | colorize =>
      rw [show clearStepInput st id StepKey.colorize = st from rfl]
      obtain ⟨j1, hfind, hid, hpid, hsteps, hstat, hsr, hrs, hcipf, hcr, hmp, hph, hmap, hmf⟩ :=
        ih st j hj
      exact ⟨j1, hfind, hid, hpid, hsteps, hstat, hsr, hrs, hcipf,
        by rw [hcr]; simp, by rw [hmp]; simp, hph, hmap, by rw [hmf]; simp⟩
    | upscale =>
      rw [show clearStepInput st id StepKey.upscale = st from rfl]
      obtain ⟨j1, hfind, hid, hpid, hsteps, hstat, hsr, hrs, hcipf, hcr, hmp, hph, hmap, hmf⟩ :=
        ih st j hj
      exact ⟨j1, hfind, hid, hpid, hsteps, hstat, hsr, hrs, hcipf,
        by rw [hcr]; simp, by rw [hmp]; simp, hph, hmap, by rw [hmf]; simp⟩

/-- The descending search of the back route finds an index below the
current one holding a manual step. -/
lemma findPrevManual_spec (steps : List StepKey) :
    ∀ c t, findPrevManual steps c = some t →
      t < c ∧ ∃ k, steps.get? t = some k ∧ isManualStep k = true := by
  intro c
  induction c with
  | zero =>
    intro t h
    cases h
  | succ n ih =>
    intro t h
    unfold findPrevManual at h
    cases hget : steps.get? n with
    | some k =>
      rw [hget] at h
      dsimp only at h
      by_cases hman : isManualStep k = true
      · rw [if_pos hman] at h
        injection h with he
        subst he
        exact ⟨Nat.lt_succ_self _, k, hget, hman⟩
      · rw [if_neg hman] at h
        rcases ih t h with ⟨hlt, hex⟩
        exact ⟨Nat.lt_succ_of_lt hlt, hex⟩
    | none =>
      rw [hget] at h
      rcases ih t h with ⟨hlt, hex⟩
      exact ⟨Nat.lt_succ_of_lt hlt, hex⟩

lemma contains_of_get?_drop {l : List StepKey} {t : Nat} {k : StepKey}
    (h : l.get? t = some k) : (l.drop t).contains k = true := by
  have h0 : (l.drop t).get? 0 = some k := by
    rw [List.get?_drop]
    simpa using h
  have hmem : k ∈ l.drop t := List.get?_mem h0
  exact List.elem_iff.mpr hmem

/-- After the back route's bookkeeping, resuming the pipeline re-pauses the
job at the target manual step with the recomputed input; nothing else about
the job or the mask files changes. -/
lemma resume_repause_char (st4 : St) (id : String) (j4 : Job) (photo : Photo) (k : StepKey)
    (t : Nat)
    (hnd4 : (st4.jobs.map Job.id).Nodup)
    (hj4 : findJob st4 id = some j4)
    (hphoto4 : st4.photos.find? (fun p => p.id == j4.photoId) = some photo)
    (hrs4 : j4.resumeFromStep = some t)
    (hstep4 : j4.steps.get? t = some k)
    (hneed4 : stepNeedsInput k j4 = true) :
    ∃ j1, findJob (finishEv (processJobBurst st4 id).1
        (if (processJobBurst st4 id).2 then 1 else 0)) id = some j1 ∧
      j1.status = Status.waiting_input ∧
      j1.waitingStep = some k ∧
      j1.resumeFromStep = some t ∧
      j1.stepResults = j4.stepResults ∧
      j1.cropRect = j4.cropRect ∧
      j1.maskPath = j4.maskPath ∧
      j1.currentInputPath = some (j4.currentInputPath.getD (FPath.uploads photo.filename)) ∧
      (finishEv (processJobBurst st4 id).1
        (if (processJobBurst st4 id).2 then 1 else 0)).maskFiles = st4.maskFiles := by
  have hstep4b : j4.steps.get? (j4.resumeFromStep.getD 0) = some k := by
    rw [hrs4]
    exact hstep4
  rw [processJobBurst_pause_char st4 id j4 photo k hj4 hphoto4 hstep4b hneed4]
  have hch : findJob (updSt (updSt st4 id (fun j0 => { j0 with status := Status.processing })) id
      (fun j0 => { j0 with
        status := Status.waiting_input,
        waitingStep := some k,
        resumeFromStep := some (j4.resumeFromStep.getD 0),
        currentInputPath := some (j4.currentInputPath.getD (FPath.uploads photo.filename)),
        waitingImage := some (getUrlForPath (j4.currentInputPath.getD (FPath.uploads photo.filename))),
        progress := round100 (j4.resumeFromStep.getD 0) j0.steps.length })) id
      = some { { j4 with status := Status.processing } with
        status := Status.waiting_input,
        waitingStep := some k,
        resumeFromStep := some (j4.resumeFromStep.getD 0),
        currentInputPath := some (j4.currentInputPath.getD (FPath.uploads photo.filename)),
        waitingImage := some (getUrlForPath (j4.currentInputPath.getD (FPath.uploads photo.filename))),
        progress := round100 (j4.resumeFromStep.getD 0) ({ j4 with status := Status.processing } : Job).steps.length } := by
    rw [findJob_updSt_self _ _ _ (by intro j0; rfl),
      findJob_updSt_self _ _ _ (by intro j0; rfl), hj4]
    rfl
  have hnd2 : (((updSt (updSt st4 id (fun j0 => { j0 with status := Status.processing })) id
      (fun j0 => { j0 with
        status := Status.waiting_input,
        waitingStep := some k,
        resumeFromStep := some (j4.resumeFromStep.getD 0),
        currentInputPath := some (j4.currentInputPath.getD (FPath.uploads photo.filename)),
        waitingImage := some (getUrlForPath (j4.currentInputPath.getD (FPath.uploads photo.filename))),
        progress := round100 (j4.resumeFromStep.getD 0) j0.steps.length })).jobs.map Job.id)).Nodup := by
    dsimp only [updSt]
    rw [updateJob_map_id _ _ _ (by intro j0; rfl), updateJob_map_id _ _ _ (by intro j0; rfl)]
    exact hnd4
  have hfin := finishEv_findJob_nonpending (q := 1) hnd2 hch
    (fun hcon => Status.noConfusion hcon)
  refine ⟨_, hfin, rfl, rfl, ?_, rfl, rfl, rfl, rfl, ?_⟩
  · show some (j4.resumeFromStep.getD 0) = some t
    rw [hrs4]
    rfl
  · have h1 := (finishEv_coreShape (updSt (updSt st4 id
        (fun j0 => { j0 with status := Status.processing })) id
      (fun j0 => { j0 with
        status := Status.waiting_input,
        waitingStep := some k,
        resumeFromStep := some (j4.resumeFromStep.getD 0),
        currentInputPath := some (j4.currentInputPath.getD (FPath.uploads photo.filename)),
        waitingImage := some (getUrlForPath (j4.currentInputPath.getD (FPath.uploads photo.filename))),
        progress := round100 (j4.resumeFromStep.getD 0) j0.steps.length })) 1).2.2.1
    exact h1

lemma manual_needs_after_clear (k : StepKey) (j4 : Job)
    (hcr : k = StepKey.crop → j4.cropRect = none)
    (hmp : k = StepKey.inpaint → j4.maskPath = none)
    (hman : isManualStep k = true) :
    stepNeedsInput k j4 = true := by
  cases k with
  | crop => simp [stepNeedsInput, hcr rfl]
  | inpaint => simp [stepNeedsInput, hmp rfl]
  | spot_removal => cases hman
  | scratch_removal => cases hman
  | face_restore => cases hman
  | colorize => cases hman
  | upscale => cases hman

/-- Concrete photo for exercising the back route. -/
def c5wphoto : Photo := ⟨"p5", "f5", "n5"⟩

/-- A job paused at the second crop of [crop, upscale, crop]; its previous
manual step is the crop at index 0. -/
def c5wjob : Job :=
  { id := "j5", photoId := "p5", photoName := "n5", originalUrl := "u5",
    steps := [StepKey.crop, StepKey.upscale, StepKey.crop],
    options := [], maskPath := none, cropRect := none,
    status := Status.waiting_input, progress := 66, createdAt := 0,
    result := none,
    stepResults := [(StepKey.crop, "r0"), (StepKey.upscale, "r1")],
    priority := 0, resumeFromStep := some 2,
    currentInputPath := some (FPath.results "r1"),
    currentStep := none, waitingStep := some StepKey.crop,
    waitingImage := none, error := none, failedStep := none,
    failedStepIndex := none }

/-- Store holding just that job and its photo. -/
def c5wst : St :=
  { jobs := [c5wjob], photos := [c5wphoto], maxConcurrent := 2,
    runningProcs := [], frames := [], maskFiles := [] }

/-- C5: the back route is accepted only in waiting_input (otherwise the
state is untouched); with no previous manual step it fails with no mutation;
on success with the photo present it clears the consumed inputs of all steps
from the target index t on (deleting the mask file when an inpaint step is
among them), truncates stepResults to length t, recomputes currentInputPath
from the last remaining step result or the photo's upload path, sets
resumeFromStep to t, and the resumed pipeline re-pauses the job in
waiting_input at the manual step t. -/
theorem claim_C5_rewind (st : St) (id : String) (j : Job)
    (hnd : (st.jobs.map Job.id).Nodup)
    (hj : findJob st id = some j) :
    (¬ j.status = Status.waiting_input → postBack st id = (st, Resp.er 400)) ∧
    (j.status = Status.waiting_input →
      (findPrevManual j.steps (j.resumeFromStep.getD 0) = none →
        postBack st id = (st, Resp.er 400)) ∧
      (∀ t photo, findPrevManual j.steps (j.resumeFromStep.getD 0) = some t →
        st.photos.find? (fun p => p.id == j.photoId) = some photo →
        (postBack st id).2 = Resp.ok ∧
        (postBack st id).1.maskFiles =
          (if (j.steps.drop t).contains StepKey.inpaint then
            (match j.maskPath with
             | some p => st.maskFiles.erase p
             | none => st.maskFiles)
           else st.maskFiles) ∧
        ∃ j1 k, findJob (postBack st id).1 id = some j1 ∧
          j.steps.get? t = some k ∧ isManualStep k = true ∧
          j1.status = Status.waiting_input ∧
          j1.waitingStep = some k ∧
          j1.resumeFromStep = some t ∧
          j1.stepResults = j.stepResults.take t ∧
          j1.cropRect = (if (j.steps.drop t).contains StepKey.crop then none else j.cropRect) ∧
          j1.maskPath = (if (j.steps.drop t).contains StepKey.inpaint then none else j.maskPath) ∧
          j1.currentInputPath = some (match (j.stepResults.take t).getLast? with
            | some last => joinRootUrl last.2
            | none => FPath.uploads photo.filename))) := by
  refine ⟨?_, ?_⟩
  · intro hnw
    unfold postBack
    rw [hj]
    dsimp only
    rw [if_neg hnw]
  · intro hw
    refine ⟨?_, ?_⟩
    · intro hnone
      unfold postBack
      rw [hj]
      dsimp only
      rw [if_pos hw]
      rw [hnone]
    · intro t photo ht hphoto
      obtain ⟨htlt, k, hkt, hkman⟩ := findPrevManual_spec j.steps _ _ ht
      have hkd : (j.steps.drop t).contains k = true := contains_of_get?_drop hkt
      unfold postBack
      rw [hj]
      dsimp only
      rw [if_pos hw]
      rw [ht]
      dsimp only
      obtain ⟨j1c, hfind1, hid1, hpid1, hsteps1, hstat1, hsr1, hrs1, hcip1, hcr1, hmp1,
        hph1, hmap1, hmf1⟩ := clearLoop_char id (j.steps.drop t) st j hj
      have hj2 : findJob (updSt ((j.steps.drop t).foldl (fun acc k => clearStepInput acc id k) st)
          id (fun j0 => { j0 with stepResults := j0.stepResults.take t })) id
          = some { j1c with stepResults := j1c.stepResults.take t } := by
        rw [findJob_updSt_self _ _ _ (by intro j0; rfl), hfind1]
        rfl
      rw [hj2]
      dsimp only
      rw [hsr1]
      cases hlast : (j.stepResults.take t).getLast? with
      | some last =>
        dsimp only
        have hj4 : findJob (updSt (updSt (updSt
            ((j.steps.drop t).foldl (fun acc k => clearStepInput acc id k) st)
            id (fun j0 => { j0 with stepResults := j0.stepResults.take t }))
            id (fun j0 => { j0 with currentInputPath := some (joinRootUrl last.2) }))
            id (fun j0 => { j0 with
              resumeFromStep := some t,
              waitingStep := none,
              waitingImage := none })) id
            = some { { { j1c with stepResults := j1c.stepResults.take t } with
                  currentInputPath := some (joinRootUrl last.2) } with
                  resumeFromStep := some t,
                  waitingStep := none,
                  waitingImage := none } := by
          rw [findJob_updSt_self _ _ _ (by intro j0; rfl),
            findJob_updSt_self _ _ _ (by intro j0; rfl), hj2]
          rfl
        have hnd4 : (((updSt (updSt (updSt
            ((j.steps.drop t).foldl (fun acc k => clearStepInput acc id k) st)
            id (fun j0 => { j0 with stepResults := j0.stepResults.take t }))
            id (fun j0 => { j0 with currentInputPath := some (joinRootUrl last.2) }))
            id (fun j0 => { j0 with
              resumeFromStep := some t,
              waitingStep := none,
              waitingImage := none })).jobs.map Job.id)).Nodup := by
          dsimp only [updSt]
          rw [updateJob_map_id _ _ _ (by intro j0; rfl),
            updateJob_map_id _ _ _ (by intro j0; rfl),
            updateJob_map_id _ _ _ (by intro j0; rfl), hmap1]
          exact hnd
        have hphoto4 : (updSt (updSt (updSt
            ((j.steps.drop t).foldl (fun acc k => clearStepInput acc id k) st)
            id (fun j0 => { j0 with stepResults := j0.stepResults.take t }))
            id (fun j0 => { j0 with currentInputPath := some (joinRootUrl last.2) }))
            id (fun j0 => { j0 with
              resumeFromStep := some t,
              waitingStep := none,
              waitingImage := none })).photos.find?
            (fun p => p.id == ({ { { j1c with stepResults := j1c.stepResults.take t } with
                  currentInputPath := some (joinRootUrl last.2) } with
                  resumeFromStep := some t,
                  waitingStep := none,
                  waitingImage := none } : Job).photoId)
            = some photo := by
          show ((j.steps.drop t).foldl (fun acc k => clearStepInput acc id k) st).photos.find?
            (fun p => p.id == j1c.photoId) = some photo
          rw [hph1, hpid1]
          exact hphoto
        have hrs4 : ({ { { j1c with stepResults := j1c.stepResults.take t } with
              currentInputPath := some (joinRootUrl last.2) } with
              resumeFromStep := some t,
              waitingStep := none,
              waitingImage := none } : Job).resumeFromStep
            = some t := rfl
        have hstep4 : ({ { { j1c with stepResults := j1c.stepResults.take t } with
              currentInputPath := some (joinRootUrl last.2) } with
              resumeFromStep := some t,
              waitingStep := none,
              waitingImage := none } : Job).steps.get? t
            = some k := by
          show j1c.steps.get? t = some k
          rw [hsteps1]
          exact hkt
        have hneed4 : stepNeedsInput k { { { j1c with stepResults := j1c.stepResults.take t } with
              currentInputPath := some (joinRootUrl last.2) } with
              resumeFromStep := some t,
              waitingStep := none,
              waitingImage := none } = true := by
          refine manual_needs_after_clear k _ ?_ ?_ hkman
          · intro hke
            show j1c.cropRect = none
            rw [hcr1]
            rw [if_pos (hke ▸ hkd)]
          · intro hke
            show j1c.maskPath = none
            rw [hmp1]
            rw [if_pos (hke ▸ hkd)]
        obtain ⟨j1, hfin, hst1, hws1, hrsb, hsrb, hcrb, hmpb, hcipb, hmfb⟩ :=
          resume_repause_char _ id _ photo k t hnd4 hj4 hphoto4 hrs4 hstep4 hneed4
        refine ⟨rfl, ?_, j1, k, hfin, hkt, hkman, hst1, hws1, hrsb, ?_, ?_, ?_, ?_⟩
        · exact hmfb.trans hmf1
        · refine hsrb.trans ?_
          show j1c.stepResults.take t = j.stepResults.take t
          rw [hsr1]
        · exact hcrb.trans hcr1
        · exact hmpb.trans hmp1
        · exact hcipb
      | none =>
        dsimp only
        rw [show (updSt ((j.steps.drop t).foldl (fun acc k => clearStepInput acc id k) st)
            id (fun j0 => { j0 with stepResults := j0.stepResults.take t })).photos
            = ((j.steps.drop t).foldl (fun acc k => clearStepInput acc id k) st).photos from rfl,
          hph1,
          show ({ j1c with stepResults := j1c.stepResults.take t } : Job).photoId
            = j1c.photoId from rfl,
          hpid1, hphoto]
        dsimp only
        have hj4 : findJob (updSt (updSt (updSt
            ((j.steps.drop t).foldl (fun acc k => clearStepInput acc id k) st)
            id (fun j0 => { j0 with stepResults := j0.stepResults.take t }))
            id (fun j0 => { j0 with currentInputPath := some (FPath.uploads photo.filename) }))
            id (fun j0 => { j0 with
              resumeFromStep := some t,
              waitingStep := none,
              waitingImage := none })) id
            = some { { { j1c with stepResults := j1c.stepResults.take t } with
                  currentInputPath := some (FPath.uploads photo.filename) } with
                  resumeFromStep := some t,
                  waitingStep := none,
                  waitingImage := none } := by
          rw [findJob_updSt_self _ _ _ (by intro j0; rfl),
            findJob_updSt_self _ _ _ (by intro j0; rfl), hj2]
          rfl
        have hnd4 : (((updSt (updSt (updSt
            ((j.steps.drop t).foldl (fun acc k => clearStepInput acc id k) st)
            id (fun j0 => { j0 with stepResults := j0.stepResults.take t }))
            id (fun j0 => { j0 with currentInputPath := some (FPath.uploads photo.filename) }))
            id (fun j0 => { j0 with
              resumeFromStep := some t,
              waitingStep := none,
              waitingImage := none })).jobs.map Job.id)).Nodup := by
          dsimp only [updSt]
          rw [updateJob_map_id _ _ _ (by intro j0; rfl),
            updateJob_map_id _ _ _ (by intro j0; rfl),
            updateJob_map_id _ _ _ (by intro j0; rfl), hmap1]
          exact hnd
        have hphoto4 : (updSt (updSt (updSt
            ((j.steps.drop t).foldl (fun acc k => clearStepInput acc id k) st)
            id (fun j0 => { j0 with stepResults := j0.stepResults.take t }))
            id (fun j0 => { j0 with currentInputPath := some (FPath.uploads photo.filename) }))
            id (fun j0 => { j0 with
              resumeFromStep := some t,
              waitingStep := none,
              waitingImage := none })).photos.find?
            (fun p => p.id == ({ { { j1c with stepResults := j1c.stepResults.take t } with
                  currentInputPath := some (FPath.uploads photo.filename) } with
                  resumeFromStep := some t,
                  waitingStep := none,
                  waitingImage := none } : Job).photoId)
            = some photo := by
          show ((j.steps.drop t).foldl (fun acc k => clearStepInput acc id k) st).photos.find?
            (fun p => p.id == j1c.photoId) = some photo
          rw [hph1, hpid1]
          exact hphoto
        have hrs4 : ({ { { j1c with stepResults := j1c.stepResults.take t } with
              currentInputPath := some (FPath.uploads photo.filename) } with
              resumeFromStep := some t,
              waitingStep := none,
              waitingImage := none } : Job).resumeFromStep
            = some t := rfl
        have hstep4 : ({ { { j1c with stepResults := j1c.stepResults.take t } with
              currentInputPath := some (FPath.uploads photo.filename) } with
              resumeFromStep := some t,
              waitingStep := none,
              waitingImage := none } : Job).steps.get? t
            = some k := by
          show j1c.steps.get? t = some k
          rw [hsteps1]
          exact hkt
        have hneed4 : stepNeedsInput k { { { j1c with stepResults := j1c.stepResults.take t } with
              currentInputPath := some (FPath.uploads photo.filename) } with
              resumeFromStep := some t,
              waitingStep := none,
              waitingImage := none } = true := by
          refine manual_needs_after_clear k _ ?_ ?_ hkman
          · intro hke
            show j1c.cropRect = none
            rw [hcr1]
            rw [if_pos (hke ▸ hkd)]
          · intro hke
            show j1c.maskPath = none
            rw [hmp1]
            rw [if_pos (hke ▸ hkd)]
        obtain ⟨j1, hfin, hst1, hws1, hrsb, hsrb, hcrb, hmpb, hcipb, hmfb⟩ :=
          resume_repause_char _ id _ photo k t hnd4 hj4 hphoto4 hrs4 hstep4 hneed4
        refine ⟨rfl, ?_, j1, k, hfin, hkt, hkman, hst1, hws1, hrsb, ?_, ?_, ?_, ?_⟩
        · exact hmfb.trans hmf1
        · refine hsrb.trans ?_
          show j1c.stepResults.take t = j.stepResults.take t
          rw [hsr1]
        · exact hcrb.trans hcr1
        · exact hmpb.trans hmp1
        · exact hcipb

/-! ### C9: the settings route -/

/-- Witness for C5: on the concrete paused job the back route succeeds and
rewinds to the manual crop at index 0. -/
theorem claim_C5_rewind_witness :
    (c5wst.jobs.map Job.id).Nodup ∧
    findJob c5wst "j5" = some c5wjob ∧
    c5wjob.status = Status.waiting_input ∧
    findPrevManual c5wjob.steps (c5wjob.resumeFromStep.getD 0) = some 0 ∧
    c5wst.photos.find? (fun p => p.id == c5wjob.photoId) = some c5wphoto ∧
    (postBack c5wst "j5").2 = Resp.ok :=
  ⟨by decide, rfl, rfl, rfl, rfl,
    (((claim_C5_rewind c5wst "j5" c5wjob (by decide) rfl).2 rfl).2 0 c5wphoto rfl rfl).1⟩

/-- The new concurrency limit as the specification describes it: accept a
numeric v within [1, MAX_CONCURRENT_LIMIT] (stored rounded), silently ignore
every out-of-range or non-numeric value. -/
def settingsNewMax (lim : Nat) (st : St) (v : Option JsVal) : Nat :=
  match v with
  | some (.num q) => if 1 ≤ q ∧ q ≤ (lim : ℚ) then (jsRound q).toNat else st.maxConcurrent
  | _ => st.maxConcurrent

/-- C9: PUT /settings updates maxConcurrent exactly when the supplied value
is a number in [1, MAX_CONCURRENT_LIMIT]; any other value leaves it
unchanged; the response always carries the current values; and in every case
the handler re-runs the dispatcher on the (possibly updated) state. -/
theorem claim_C9_settings (lim : Nat) (st : St) (v : Option JsVal) :
    (putSettings lim st v).1.maxConcurrent = settingsNewMax lim st v ∧
    (putSettings lim st v).2 = Resp.settings (settingsNewMax lim st v) lim ∧
    (putSettings lim st v).1 =
      finishEv (processNext { st with maxConcurrent := settingsNewMax lim st v }).1
        (processNext { st with maxConcurrent := settingsNewMax lim st v }).2 := by
  have key : ∀ st1 : St,
      (finishEv (processNext st1).1 (processNext st1).2).maxConcurrent = st1.maxConcurrent := by
    intro st1
    have h1 := (finishEv_coreShape (processNext st1).1 (processNext st1).2).2.1
    have h2 := (processNext_coreShape st1).2.1
    exact h1.trans h2
  match v with
  | none =>
    refine ⟨key st, ?_, rfl⟩
    exact congrArg (fun n => Resp.settings n lim) ((processNext_coreShape st).2.1)
  | some .other =>
    refine ⟨key st, ?_, rfl⟩
    exact congrArg (fun n => Resp.settings n lim) ((processNext_coreShape st).2.1)
  | some (.num q) =>
    dsimp only [putSettings, settingsNewMax]
    by_cases hc : 1 ≤ q ∧ q ≤ (lim : ℚ)
    · simp only [if_pos hc]
      refine ⟨key _, ?_, trivial⟩
      exact congrArg (fun n => Resp.settings n lim) ((processNext_coreShape _).2.1)
    · simp only [if_neg hc]
      refine ⟨key _, ?_, trivial⟩
      exact congrArg (fun n => Resp.settings n lim) ((processNext_coreShape _).2.1)

/-! ### C1: the dispatch pass refines the specification's walk -/

/-- willPause as the specification words it (§4.4.2): the candidate's next
step (at resumeFromStep) is a manual stage still needing its user input.
This is a spec-side definition, to be compared with jobWillPauseImmediately
of queue.js. -/
def specWillPause (j : Job) : Bool :=
  match j.steps.get? (j.resumeFromStep.getD 0) with
  | some k => isManualStep k && stepNeedsInput k j
  | none => false

/-- The candidate list as the specification words it: the jobs with status
pending and (when some job is in waiting_input) without manual steps, in
ascending priority order (stable). -/
def specCandidates (st : St) : List Job :=
  let hasWaitingManual := st.jobs.any (fun j => j.status == Status.waiting_input)
  sortByPrio (st.jobs.filter (fun j =>
    j.status == Status.pending && (!hasWaitingManual || !jobHasManualSteps j)))

/-- The walk of the candidates as the specification words it: a willPause
candidate is dispatched without consuming a compute slot; any other
candidate is dispatched only if running + slotsUsed < maxConcurrent,
incrementing slotsUsed. -/
def specWalk (maxC running : Nat) : List Job → Nat → List (String × Bool)
  | [], _ => []
  | j :: js, slots =>
    if specWillPause j then (j.id, true) :: specWalk maxC running js slots
    else if running + slots < maxC then
      (j.id, false) :: specWalk maxC running js (slots + 1)
    else specWalk maxC running js slots

/-- The dispatch decisions of one pass, as the specification describes
them. -/
def specDispatch (st : St) : List (String × Bool) :=
  specWalk st.maxConcurrent (st.jobs.countP (fun j => j.status == Status.processing))
    (specCandidates st) 0

lemma jobWillPauseImmediately_eq_spec (j : Job) :
    jobWillPauseImmediately j = specWillPause j := by
  unfold jobWillPauseImmediately specWillPause
  dsimp only
  cases j.steps.get? (j.resumeFromStep.getD 0) with
  | none => rfl
  | some k => cases k <;> rfl

lemma insertByPrio_perm (j : Job) (l : List Job) : List.Perm (insertByPrio j l) (j :: l) := by
  induction l with
  | nil => exact List.Perm.refl _
  | cons k ks ih =>
    dsimp only [insertByPrio]
    split
    · exact (List.Perm.cons k ih).trans (List.Perm.swap j k ks)
    · exact List.Perm.refl _

lemma foldl_insertByPrio_perm :
    ∀ (l acc : List Job),
      List.Perm (l.foldl (fun acc j => insertByPrio j acc) acc) (acc ++ l) := by
  intro l
  induction l with
  | nil =>
    intro acc
    rw [List.foldl_nil, List.append_nil]
  | cons j js ih =>
    intro acc
    rw [List.foldl_cons]
    refine (ih (insertByPrio j acc)).trans ?_
    refine ((insertByPrio_perm j acc).append_right js).trans ?_
    exact List.perm_middle.symm

lemma sortByPrio_perm (l : List Job) : List.Perm (sortByPrio l) l := by
  have h := foldl_insertByPrio_perm l []
  rw [List.nil_append] at h
  exact h

lemma dispatchLoop_trace_spec (maxC running : Nat) :
    ∀ (cands : List Job) (st : St) (slots q : Nat),
      (st.jobs.map Job.id).Nodup →
      (∀ j2 ∈ cands, findJob st j2.id = some j2) →
      ((cands.map Job.id).Nodup) →
      (dispatchLoop maxC running st (cands.map Job.id) slots q).2.2
        = specWalk maxC running cands slots := by
  intro cands
  induction cands with
  | nil =>
    intro st slots q _ _ _
    rfl
  | cons j js ih =>
    intro st slots q hnd hfind hcd
    rw [List.map_cons] at hcd ⊢
    have hjne : ∀ j2 ∈ js, j2.id ≠ j.id := by
      intro j2 hj2 he
      exact (List.nodup_cons.mp hcd).1 (he ▸ List.mem_map_of_mem Job.id hj2)
    have hcd' : (js.map Job.id).Nodup := (List.nodup_cons.mp hcd).2
    have hcs := processJobBurst_coreShape st j.id
    have hnd' : ((processJobBurst st j.id).1.jobs.map Job.id).Nodup := by
      rw [hcs.2.2.2]
      exact hnd
    have hfind' : ∀ j2 ∈ js, findJob (processJobBurst st j.id).1 j2.id = some j2 := by
      intro j2 hj2
      rw [processJobBurst_findJob_ne st j.id j2.id (hjne j2 hj2)]
      exact hfind j2 (List.mem_cons_of_mem j hj2)
    unfold dispatchLoop specWalk
    rw [hfind j (List.mem_cons_self j js)]
    dsimp only
    rw [jobWillPauseImmediately_eq_spec j]
    by_cases hwp : specWillPause j = true
    · rw [hwp]
      rw [if_neg (by simp), if_pos rfl]
      dsimp only
      exact congrArg (fun l => (j.id, true) :: l) (ih _ slots _ hnd' hfind' hcd')
    · rw [Bool.not_eq_true] at hwp
      rw [hwp]
      rw [if_neg (Bool.false_ne_true)]
      by_cases hlt : running + slots < maxC
      · have hcond : ¬ ((!false && decide (running + slots ≥ maxC)) = true) := by
          simp [Nat.not_le.mpr hlt]
        rw [if_neg hcond, if_pos hlt]
        dsimp only
        exact congrArg (fun l => (j.id, false) :: l) (ih _ (slots + 1) _ hnd' hfind' hcd')
      · have hcond : (!false && decide (running + slots ≥ maxC)) = true := by
          simp [Nat.le_of_not_lt hlt]
        rw [if_pos hcond, if_neg hlt]
        exact ih _ slots _ hnd (fun j2 hj2 => hfind j2 (List.mem_cons_of_mem j hj2)) hcd'

lemma candidates_eq (st : St) :
    specCandidates st
      = sortByPrio ((st.jobs.filter (fun j => j.status == Status.pending)).filter
          (fun j => !(st.jobs.any (fun j0 => j0.status == Status.waiting_input))
            || !jobHasManualSteps j)) := by
  unfold specCandidates
  dsimp only
  rw [List.filter_filter]
  congr 1
  refine (List.filter_congr ?_).symm
  intro a _
  exact Bool.and_comm _ _

/-- C1: the dispatch pass of processNext is exactly the specification's walk:
its candidate set is the pending jobs (excluding, when some job is in
waiting_input, those with manual steps), walked in ascending priority order;
a candidate whose next step is a manual stage still needing input is
dispatched without consuming a slot; any other candidate is dispatched only
while running + slotsUsed < maxConcurrent.  Stated as: the decision trace of
the code's pass equals the spec's walk (in a store with unique job ids). -/
theorem claim_C1_dispatch (st : St) (hnd : (st.jobs.map Job.id).Nodup) :
    (processNextT st).2.2 = specDispatch st := by
  have hpc : processNextT st
      = dispatchLoop st.maxConcurrent
          (st.jobs.countP (fun j => j.status == Status.processing)) st
          ((specCandidates st).map Job.id) 0 0 := by
    rw [candidates_eq st]
    rfl
  have hmem : ∀ j2 ∈ specCandidates st, j2 ∈ st.jobs := by
    intro j2 hj2
    have h2 : j2 ∈ st.jobs.filter (fun j =>
        j.status == Status.pending
          && (!(st.jobs.any (fun j0 => j0.status == Status.waiting_input))
            || !jobHasManualSteps j)) := mem_sortByPrio.mp hj2
    exact List.mem_of_mem_filter h2
  have hfind : ∀ j2 ∈ specCandidates st, findJob st j2.id = some j2 := by
    intro j2 hj2
    exact findJob_of_mem hnd (hmem j2 hj2)
  have hcd : ((specCandidates st).map Job.id).Nodup := by
    have hperm : List.Perm (specCandidates st) (st.jobs.filter (fun j =>
        j.status == Status.pending
          && (!(st.jobs.any (fun j0 => j0.status == Status.waiting_input))
            || !jobHasManualSteps j))) := sortByPrio_perm _
    refine ((hperm.map Job.id).nodup_iff).mpr ?_
    exact ((List.filter_sublist _).map Job.id).nodup hnd
  rw [hpc]
  exact dispatchLoop_trace_spec _ _ (specCandidates st) st 0 0 hnd hfind hcd

/-- Witness for C1 on a concrete store (one waiting_input job and one pending
manual job). -/
theorem claim_C1_dispatch_witness :
    ((gateSt.jobs.map Job.id).Nodup) ∧
    (processNextT gateSt).2.2 = specDispatch gateSt :=
  ⟨by decide, claim_C1_dispatch gateSt (by decide)⟩

/-! ### The reachable-state invariant used by C6 and C7 -/

/-- Per-job invariant: the resume index is within the steps (strictly when
the job is waiting for input), failedStepIndex (when set) is bounded by the
steps, and the failure fields are populated only on a failed job. -/
def JobInv (j : Job) : Prop :=
  j.resumeFromStep.getD 0 ≤ j.steps.length ∧
  (j.status = Status.waiting_input → j.resumeFromStep.getD 0 < j.steps.length) ∧
  (∀ n, j.failedStepIndex = some n → n.toNat ≤ j.steps.length) ∧
  ((j.failedStep.isSome ∨ j.failedStepIndex.isSome) → j.status = Status.failed)

/-- Whole-state invariant: job ids unique, at most one suspended frame per
job, every job satisfies JobInv, and every frame belongs to a stored job
that is processing or cancelled. -/
def StInv (st : St) : Prop :=
  (st.jobs.map Job.id).Nodup ∧
  (st.frames.map Frame.jobId).Nodup ∧
  (∀ j ∈ st.jobs, JobInv j) ∧
  (∀ fr ∈ st.frames, ∃ j, findJob st fr.jobId = some j ∧
    (j.status = Status.processing ∨ j.status = Status.cancelled))

lemma jobInv_of_find {st : St} {id : String} {j : Job} (h : StInv st)
    (hj : findJob st id = some j) : JobInv j :=
  h.2.2.1 j (findJob_mem hj).1

lemma fields_none_of_not_failed {j : Job} (h : JobInv j)
    (hs : ¬ j.status = Status.failed) :
    j.failedStep = none ∧ j.failedStepIndex = none := by
  constructor
  · cases hfs : j.failedStep with
    | none => rfl
    | some k => exact absurd (h.2.2.2 (Or.inl (by rw [hfs]; rfl))) hs
  · cases hfi : j.failedStepIndex with
    | none => rfl
    | some n => exact absurd (h.2.2.2 (Or.inr (by rw [hfi]; rfl))) hs

lemma noframe_of_status {st : St} {id : String} {j : Job} (h : StInv st)
    (hj : findJob st id = some j)
    (hs : ¬ (j.status = Status.processing ∨ j.status = Status.cancelled)) :
    ∀ fr ∈ st.frames, ¬ fr.jobId = id := by
  intro fr hfr he
  rcases h.2.2.2 fr hfr with ⟨j2, hfind, hstat⟩
  rw [he, hj] at hfind
  exact hs ((Option.some.inj hfind) ▸ hstat)

lemma mem_updateJob_find {l : List Job} {id : String} {f : Job → Job} {j1 : Job}
    (h : j1 ∈ updateJob l id f) :
    (j1 ∈ l) ∨ (∃ j, l.find? (fun k => k.id == id) = some j ∧ j1 = f j) := by
  induction l with
  | nil => simp [updateJob] at h
  | cons j js ih =>
    by_cases hj : (j.id == id) = true
    · rw [updateJob, if_pos hj] at h
      rcases List.mem_cons.mp h with h1 | h1
      · exact Or.inr ⟨j, by simp [List.find?, hj], h1⟩
      · exact Or.inl (List.mem_cons_of_mem _ h1)
    · rw [updateJob, if_neg hj] at h
      rcases List.mem_cons.mp h with h1 | h1
      · exact Or.inl (h1 ▸ List.mem_cons_self _ _)
      · rcases ih h1 with h2 | ⟨j2, hf2, he2⟩
        · exact Or.inl (List.mem_cons_of_mem _ h2)
        · refine Or.inr ⟨j2, ?_, he2⟩
          simp only [List.find?, Bool.of_not_eq_true hj]
          exact hf2

lemma updSt_frames (st : St) (id : String) (f : Job → Job) :
    (updSt st id f).frames = st.frames := rfl

/-- Master preservation lemma for a single in-place job update: the updated
record satisfies JobInv, and when the job has a suspended frame, its status
stays in {processing, cancelled}. -/
lemma stInv_updSt (st : St) (id : String) (f : Job → Job) (hf : KeepsId f)
    (hinv : ∀ j, findJob st id = some j → JobInv (f j))
    (hfrOk : ∀ fr ∈ st.frames, fr.jobId = id → ∀ j, findJob st id = some j →
      (j.status = Status.processing ∨ j.status = Status.cancelled) →
      ((f j).status = Status.processing ∨ (f j).status = Status.cancelled))
    (h : StInv st) : StInv (updSt st id f) := by
  obtain ⟨hnd, hfnd, hjobs, hfr⟩ := h
  refine ⟨?_, ?_, ?_, ?_⟩
  · show ((updateJob st.jobs id f).map Job.id).Nodup
    rw [updateJob_map_id _ _ _ hf]
    exact hnd
  · exact hfnd
  · intro j1 hj1
    rcases mem_updateJob_find hj1 with hm | ⟨j, hfind, he⟩
    · exact hjobs j1 hm
    · exact he ▸ hinv j hfind
  · intro fr hfr2
    rcases hfr fr hfr2 with ⟨j2, hfind2, hstat2⟩
    by_cases hid : fr.jobId = id
    · refine ⟨f j2, ?_, ?_⟩
      · rw [hid, findJob_updSt_self _ _ _ hf, ← hid, hfind2]
        rfl
      · exact hfrOk fr hfr2 hid j2 (hid ▸ hfind2) hstat2
    · rw [findJob_updSt_ne _ _ _ _ hf hid]
      exact ⟨j2, hfind2, hstat2⟩

lemma not_failed_of_pc {j : Job}
    (hpc : j.status = Status.processing ∨ j.status = Status.cancelled) :
    ¬ j.status = Status.failed := by
  rcases hpc with h1 | h1 <;> simp [h1]

lemma jobInv_pause (j : Job) (step : StepKey) (i : Nat) (cur : FPath) (pr : Nat)
    (hlt : i < j.steps.length)
    (hfs : j.failedStep = none) (hfi : j.failedStepIndex = none) :
    JobInv { j with
      status := .waiting_input, waitingStep := some step, resumeFromStep := some i,
      currentInputPath := some cur, waitingImage := some (getUrlForPath cur),
      progress := pr } := by
  refine ⟨Nat.le_of_lt hlt, fun _ => hlt, ?_, ?_⟩
  · intro n hn
    rw [show ({ j with
        status := .waiting_input, waitingStep := some step, resumeFromStep := some i,
        currentInputPath := some cur, waitingImage := some (getUrlForPath cur),
        progress := pr } : Job).failedStepIndex = j.failedStepIndex from rfl, hfi] at hn
    cases hn
  · intro hor
    rcases hor with h1 | h1
    · rw [show ({ j with
          status := .waiting_input, waitingStep := some step, resumeFromStep := some i,
          currentInputPath := some cur, waitingImage := some (getUrlForPath cur),
          progress := pr } : Job).failedStep = j.failedStep from rfl, hfs] at h1
      cases h1
    · rw [show ({ j with
          status := .waiting_input, waitingStep := some step, resumeFromStep := some i,
          currentInputPath := some cur, waitingImage := some (getUrlForPath cur),
          progress := pr } : Job).failedStepIndex = j.failedStepIndex from rfl, hfi] at h1
      cases h1

lemma stepIter_inv (st : St) (id : String) (i : Nat) (cur : FPath) (orig : String)
    (h : StInv st)
    (hnofr : ∀ fr ∈ st.frames, ¬ fr.jobId = id)
    (hstat : ∀ j, findJob st id = some j →
      j.status = Status.processing ∨ j.status = Status.cancelled) :
    StInv (stepIter st id i cur orig).1 := by
  unfold stepIter
  cases hj : findJob st id with
  | none => exact h
  | some j =>
    dsimp only
    have hJ := jobInv_of_find h hj
    have hpc := hstat j hj
    have hfn := fields_none_of_not_failed hJ (not_failed_of_pc hpc)
    cases hstep : j.steps.get? i with
    | some step =>
      dsimp only
      by_cases hni : stepNeedsInput step j = true
      · rw [if_pos hni]
        refine stInv_updSt st id _ (by intro j0; rfl) ?_ ?_ h
        · intro j2 hj2
          rw [hj] at hj2
          obtain rfl : j = j2 := Option.some.inj hj2
          have hlt : i < j.steps.length := by
            by_contra hge
            rw [List.get?_eq_none.mpr (Nat.le_of_not_lt hge)] at hstep
            cases hstep
          exact jobInv_pause j step i cur _ hlt hfn.1 hfn.2
        · intro fr hfr hid
          exact absurd hid (hnofr fr hfr)
      · rw [if_neg hni]
        by_cases hc : j.status = Status.cancelled
        · rw [if_pos hc]
          refine stInv_updSt st id _ (by intro j0; rfl) ?_ ?_ h
          · intro j2 hj2
            rw [hj] at hj2
            obtain rfl : j = j2 := Option.some.inj hj2
            exact hJ
          · intro fr hfr hid
            exact absurd hid (hnofr fr hfr)
        · rw [if_neg hc]
          obtain ⟨hnd, hfnd, hjobs, hfr⟩ := h
          refine ⟨?_, ?_, ?_, ?_⟩
          · show ((updateJob st.jobs id _).map Job.id).Nodup
            rw [updateJob_map_id _ _ _ (by intro j0; rfl)]
            exact hnd
          · show (Frame.jobId ⟨id, i, step, _, orig⟩ :: st.frames.map Frame.jobId).Nodup
            refine List.nodup_cons.mpr ⟨?_, hfnd⟩
            intro hmem
            rcases List.mem_map.mp hmem with ⟨fr, hfr2, hideq⟩
            exact hnofr fr hfr2 hideq
          · intro j1 hj1
            rcases mem_updateJob_find hj1 with hm | ⟨j2, hfind2, he⟩
            · exact hjobs j1 hm
            · rw [show st.jobs.find? (fun k => k.id == id) = findJob st id from rfl, hj] at hfind2
              obtain rfl : j = j2 := Option.some.inj hfind2
              exact he ▸ hJ
          · intro fr hfr2
            rcases List.mem_cons.mp hfr2 with rfl | hfr3
            · have hself : findJob (updSt st id (fun j0 => { j0 with
                    currentStep := some step,
                    progress := round100 i j0.steps.length })) id
                  = some { j with
                    currentStep := some step,
                    progress := round100 i j.steps.length } := by
                rw [findJob_updSt_self _ _ _ (by intro j0; rfl), hj]
                rfl
              refine ⟨_, hself, ?_⟩
              rcases hpc with h1 | h1
              · exact Or.inl h1
              · exact absurd h1 hc
            · rcases hfr fr hfr3 with ⟨j2, hfind2, hstat2⟩
              refine ⟨j2, ?_, hstat2⟩
              show findJob (updSt st id _) fr.jobId = some j2
              rw [findJob_updSt_ne _ _ _ _ (by intro j0; rfl) (hnofr fr hfr3)]
              exact hfind2
    | none =>
      refine stInv_updSt st id _ (by intro j0; rfl) ?_ ?_ h
      · intro j2 hj2
        rw [hj] at hj2
        obtain rfl : j = j2 := Option.some.inj hj2
        refine ⟨hJ.1, ?_, hJ.2.2.1, ?_⟩
        · intro habs
          exact Status.noConfusion habs
        · intro hor
          exact absurd (hJ.2.2.2 hor) (not_failed_of_pc hpc)
      · intro fr hfr hid
        exact absurd hid (hnofr fr hfr)

lemma mem_updateJob_nodup {l : List Job} {id : String} {f : Job → Job} {j1 : Job}
    (hnd : (l.map Job.id).Nodup) (h : j1 ∈ updateJob l id f) :
    (j1 ∈ l ∧ ¬ j1.id = id) ∨
    (∃ j, l.find? (fun k => k.id == id) = some j ∧ j1 = f j) := by
  induction l with
  | nil => simp [updateJob] at h
  | cons j js ih =>
    rw [List.map_cons, List.nodup_cons] at hnd
    by_cases hj : (j.id == id) = true
    · rw [updateJob, if_pos hj] at h
      rcases List.mem_cons.mp h with h1 | h1
      · exact Or.inr ⟨j, by simp [List.find?, hj], h1⟩
      · have hid : j.id = id := by simpa using hj
        refine Or.inl ⟨List.mem_cons_of_mem _ h1, ?_⟩
        intro he
        have hmm : j1.id ∈ js.map Job.id := List.mem_map_of_mem Job.id h1
        rw [he, ← hid] at hmm
        exact hnd.1 hmm
    · rw [updateJob, if_neg hj] at h
      rcases List.mem_cons.mp h with rfl | h1
      · exact Or.inl ⟨List.mem_cons_self _ _, fun he => hj (by simp [he])⟩
      · rcases ih hnd.2 h1 with ⟨hm, hne⟩ | ⟨j2, hf2, he2⟩
        · exact Or.inl ⟨List.mem_cons_of_mem _ hm, hne⟩
        · refine Or.inr ⟨j2, ?_, he2⟩
          simp only [List.find?, Bool.of_not_eq_true hj]
          exact hf2

/-- Precondition of a processJob call: the store is invariant except that
the target job only guarantees a bounded resume index and clear failure
fields (the resume routes may leave resumeFromStep = steps.length), and the
target has no suspended frame. -/
def BurstPre (st : St) (id : String) : Prop :=
  (st.jobs.map Job.id).Nodup ∧
  (st.frames.map Frame.jobId).Nodup ∧
  (∀ j ∈ st.jobs, ¬ j.id = id → JobInv j) ∧
  (∀ j, findJob st id = some j →
    j.resumeFromStep.getD 0 ≤ j.steps.length ∧
    j.failedStep = none ∧ j.failedStepIndex = none) ∧
  (∀ fr ∈ st.frames, ∃ j2, findJob st fr.jobId = some j2 ∧
    (j2.status = Status.processing ∨ j2.status = Status.cancelled)) ∧
  (∀ fr ∈ st.frames, ¬ fr.jobId = id)

lemma processJobBurst_inv (st : St) (id : String) (h : BurstPre st id) :
    StInv (processJobBurst st id).1 := by
  obtain ⟨hnd, hfnd, hjobs, hjob, hfr, hnofr⟩ := h
  unfold processJobBurst
  cases hj : findJob st id with
  | none =>
    refine ⟨hnd, hfnd, ?_, hfr⟩
    intro j1 hj1
    refine hjobs j1 hj1 ?_
    intro hid
    have := List.find?_eq_none.mp hj j1 hj1
    rw [hid] at this
    simp at this
  | some j =>
    dsimp only
    obtain ⟨hres, hfs, hfi⟩ := hjob j hj
    have h1 : StInv (updSt st id (fun j0 => { j0 with status := Status.processing })) := by
      refine ⟨?_, hfnd, ?_, ?_⟩
      · show ((updateJob st.jobs id _).map Job.id).Nodup
        rw [updateJob_map_id _ _ _ (by intro j0; rfl)]
        exact hnd
      · intro j1 hj1
        rcases mem_updateJob_nodup hnd hj1 with ⟨hm, hne⟩ | ⟨j2, hfind2, he⟩
        · exact hjobs j1 hm hne
        · rw [show st.jobs.find? (fun k => k.id == id) = findJob st id from rfl, hj] at hfind2
          obtain rfl : j = j2 := Option.some.inj hfind2
          subst he
          refine ⟨hres, fun habs => Status.noConfusion habs, ?_, ?_⟩
          · intro n hn
            rw [show ({ j with status := Status.processing } : Job).failedStepIndex
              = j.failedStepIndex from rfl, hfi] at hn
            cases hn
          · intro hor
            rcases hor with hx | hx
            · rw [show ({ j with status := Status.processing } : Job).failedStep
                = j.failedStep from rfl, hfs] at hx
              cases hx
            · rw [show ({ j with status := Status.processing } : Job).failedStepIndex
                = j.failedStepIndex from rfl, hfi] at hx
              cases hx
      · intro fr hfr2
        rcases hfr fr hfr2 with ⟨j2, hfind2, hstat2⟩
        refine ⟨j2, ?_, hstat2⟩
        rw [findJob_updSt_ne _ _ _ _ (by intro j0; rfl) (hnofr fr hfr2)]
        exact hfind2
    have hself : findJob (updSt st id (fun j0 => { j0 with status := Status.processing })) id
        = some { j with status := Status.processing } := by
      rw [findJob_updSt_self _ _ _ (by intro j0; rfl), hj]
      rfl
    cases hphoto : (updSt st id (fun j0 => { j0 with
        status := Status.processing })).photos.find? (fun p => p.id == j.photoId) with
    | none =>
      dsimp only
      refine stInv_updSt _ id _ (by intro j0; rfl) ?_ ?_ h1
      · intro j2 hj2
        rw [hself] at hj2
        obtain rfl : { j with status := Status.processing } = j2 := Option.some.inj hj2
        refine ⟨hres, fun habs => Status.noConfusion habs, ?_, fun _ => rfl⟩
        intro n hn
        have hn2 : j.failedStepIndex = some n := hn
        rw [hfi] at hn2
        cases hn2
      · intro fr hfr2 hid
        exact absurd hid (hnofr fr hfr2)
    | some photo =>
      dsimp only
      refine stepIter_inv _ id _ _ _ h1 hnofr ?_
      intro j2 hj2
      rw [hself] at hj2
      obtain rfl : { j with status := Status.processing } = j2 := Option.some.inj hj2
      exact Or.inl rfl

lemma dispatchLoop_inv (maxC running : Nat) :
    ∀ (ids : List String) (st : St) (slots q : Nat),
      StInv st → ids.Nodup →
      (∀ id ∈ ids, ∀ j, findJob st id = some j → j.status = Status.pending) →
      StInv (dispatchLoop maxC running st ids slots q).1 := by
  intro ids
  induction ids with
  | nil =>
    intro st _ _ h _ _
    exact h
  | cons id ids ih =>
    intro st slots q h hndl hpend
    unfold dispatchLoop
    cases hj : findJob st id with
    | none =>
      dsimp only
      exact ih st slots q h (List.nodup_cons.mp hndl).2
        (fun id2 hid2 => hpend id2 (List.mem_cons_of_mem _ hid2))
    | some j =>
      dsimp only
      have hp := hpend id (List.mem_cons_self _ _) j hj
      by_cases hcond : (!jobWillPauseImmediately j && decide (running + slots ≥ maxC)) = true
      · rw [if_pos hcond]
        exact ih st slots q h (List.nodup_cons.mp hndl).2
          (fun id2 hid2 => hpend id2 (List.mem_cons_of_mem _ hid2))
      · rw [if_neg hcond]
        dsimp only
        have hJ := jobInv_of_find h hj
        have hbp : BurstPre st id := by
          refine ⟨h.1, h.2.1, fun j1 hj1 _ => h.2.2.1 j1 hj1, ?_, h.2.2.2, ?_⟩
          · intro j2 hj2
            rw [hj] at hj2
            obtain rfl : j = j2 := Option.some.inj hj2
            have hfn := fields_none_of_not_failed hJ (by rw [hp]; simp)
            exact ⟨hJ.1, hfn.1, hfn.2⟩
          · refine noframe_of_status h hj ?_
            rw [hp]
            simp
        have hBI := processJobBurst_inv st id hbp
        refine ih _ _ _ hBI (List.nodup_cons.mp hndl).2 ?_
        intro id2 hid2 j2 hj2
        have hne : id2 ≠ id := fun he => (List.nodup_cons.mp hndl).1 (he ▸ hid2)
        rw [processJobBurst_findJob_ne st id id2 hne] at hj2
        exact hpend id2 (List.mem_cons_of_mem _ hid2) j2 hj2

lemma candidateIds_nodup (st : St) (hnd : (st.jobs.map Job.id).Nodup) :
    (candidateIds st).Nodup := by
  show ((sortByPrio ((st.jobs.filter (fun j => j.status == Status.pending)).filter
      (fun j => !(st.jobs.any (fun j0 => j0.status == Status.waiting_input))
        || !jobHasManualSteps j))).map (fun j => j.id)).Nodup
  have hperm := sortByPrio_perm ((st.jobs.filter (fun j => j.status == Status.pending)).filter
      (fun j => !(st.jobs.any (fun j0 => j0.status == Status.waiting_input))
        || !jobHasManualSteps j))
  refine ((hperm.map Job.id).nodup_iff).mpr ?_
  exact (((List.filter_sublist _).trans (List.filter_sublist _)).map Job.id).nodup hnd

lemma processNext_inv (st : St) (h : StInv st) : StInv (processNext st).1 := by
  show StInv (processNextT st).1
  rw [processNextT_eq]
  refine dispatchLoop_inv _ _ (candidateIds st) st 0 0 h (candidateIds_nodup st h.1) ?_
  intro id hid j hj
  rcases mem_candidateIds hid with ⟨jc, hjc, hidc, hpc⟩
  rcases findJob_mem hj with ⟨hjm, hjid⟩
  have he : j = jc := job_eq_of_id_eq h.1 hjm hjc (hjid.trans hidc.symm)
  exact he ▸ hpc

lemma drain_inv : ∀ (fuel : Nat) (st : St) (q : Nat), StInv st → StInv (drain fuel st q) := by
  intro fuel
  induction fuel with
  | zero =>
    intro st q h
    cases q with
    | zero => exact h
    | succ n => exact h
  | succ n ih =>
    intro st q h
    cases q with
    | zero => exact h
    | succ m =>
      show StInv (drain n (processNext st).1 _)
      exact ih _ _ (processNext_inv st h)

lemma finishEv_inv (st : St) (q : Nat) (h : StInv st) : StInv (finishEv st q) :=
  drain_inv _ st q h

lemma jsIndexOf_toNat_le : ∀ (l : List StepKey) (t : StepKey), (jsIndexOf l t).toNat ≤ l.length := by
  intro l
  induction l with
  | nil =>
    intro t
    exact Nat.le_refl 0
  | cons k ks ih =>
    intro t
    rw [jsIndexOf]
    by_cases hk : k = t
    · rw [if_pos hk]
      exact Nat.zero_le _
    · rw [if_neg hk]
      dsimp only
      by_cases hr : jsIndexOf ks t < 0
      · rw [if_pos hr]
        exact Nat.zero_le _
      · rw [if_neg hr]
        have := ih t
        rw [List.length_cons]
        omega

lemma burst_finish_inv (st3 : St) (id : String) (h : BurstPre st3 id) :
    StInv (finishEv (processJobBurst st3 id).1
      (if (processJobBurst st3 id).2 then 1 else 0)) :=
  finishEv_inv _ _ (processJobBurst_inv _ _ h)

/-- A resume route: mutate the target job in place (it is neither failed nor
running), call processJob on it, drain the queue.  The mutated job need only
have a bounded resume index and clear failure fields. -/
lemma stInv_updSt_burst (st' : St) (id : String) (F : Job → Job)
    (hkeep : KeepsId F) (h : StInv st') {j : Job} (hj : findJob st' id = some j)
    (hnpc : ¬ (j.status = Status.processing ∨ j.status = Status.cancelled))
    (hres : (F j).resumeFromStep.getD 0 ≤ (F j).steps.length)
    (hfs : (F j).failedStep = none) (hfi : (F j).failedStepIndex = none) :
    StInv (finishEv (processJobBurst (updSt st' id F) id).1
      (if (processJobBurst (updSt st' id F) id).2 then 1 else 0)) := by
  refine burst_finish_inv _ id ?_
  have hnofr : ∀ fr ∈ st'.frames, ¬ fr.jobId = id := noframe_of_status h hj hnpc
  refine ⟨?_, h.2.1, ?_, ?_, ?_, hnofr⟩
  · show ((updateJob st'.jobs id F).map Job.id).Nodup
    rw [updateJob_map_id _ _ _ hkeep]
    exact h.1
  · intro j1 hj1 hne
    rcases mem_updateJob_nodup h.1 hj1 with ⟨hm, _⟩ | ⟨j2, hfind2, he⟩
    · exact h.2.2.1 j1 hm
    · rw [show st'.jobs.find? (fun k => k.id == id) = findJob st' id from rfl, hj] at hfind2
      obtain rfl : j = j2 := Option.some.inj hfind2
      have hidj : j1.id = id := by rw [he, hkeep j, (findJob_mem hj).2]
      exact absurd hidj hne
  · intro j2 hj2
    rw [findJob_updSt_self _ _ _ hkeep, hj] at hj2
    obtain rfl : F j = j2 := Option.some.inj hj2
    exact ⟨hres, hfs, hfi⟩
  · intro fr hfr
    rcases h.2.2.2 fr hfr with ⟨j2, hfind2, hstat2⟩
    refine ⟨j2, ?_, hstat2⟩
    rw [findJob_updSt_ne _ _ _ _ hkeep (hnofr fr hfr)]
    exact hfind2

/-- Variant taking the route's state as written, with a proof it collapses
to a single in-place update. -/
lemma stInv_collapsed_burst (stc st' : St) (id : String) (F : Job → Job)
    (heq : stc = updSt st' id F)
    (hkeep : KeepsId F) (h : StInv st') {j : Job} (hj : findJob st' id = some j)
    (hnpc : ¬ (j.status = Status.processing ∨ j.status = Status.cancelled))
    (hres : (F j).resumeFromStep.getD 0 ≤ (F j).steps.length)
    (hfs : (F j).failedStep = none) (hfi : (F j).failedStepIndex = none) :
    StInv (finishEv (processJobBurst stc id).1
      (if (processJobBurst stc id).2 then 1 else 0)) := by
  subst heq
  exact stInv_updSt_burst st' id F hkeep h hj hnpc hres hfs hfi

lemma waiting_not_pc {j : Job} (hw : j.status = Status.waiting_input) :
    ¬ (j.status = Status.processing ∨ j.status = Status.cancelled) := by
  rw [hw]
  simp

lemma waiting_not_failed {j : Job} (hw : j.status = Status.waiting_input) :
    ¬ j.status = Status.failed := by
  rw [hw]
  simp

lemma postSkip_inv (st : St) (id : String) (h : StInv st) : StInv (postSkip st id).1 := by
  unfold postSkip
  cases hj : findJob st id with
  | none => exact h
  | some j =>
    dsimp only
    by_cases hw : j.status = Status.waiting_input
    · rw [if_pos hw]
      dsimp only
      have hJ := jobInv_of_find h hj
      have hfn := fields_none_of_not_failed hJ (waiting_not_failed hw)
      refine stInv_updSt_burst st id _ (by intro j0; rfl) h hj (waiting_not_pc hw) ?_ ?_ ?_
      · show j.resumeFromStep.getD 0 + 1 ≤ j.steps.length
        exact hJ.2.1 hw
      · show j.failedStep = none
        exact hfn.1
      · show j.failedStepIndex = none
        exact hfn.2
    · rw [if_neg hw]
      exact h

lemma postInput_inv (st : St) (id : String) (body : InputBody) (maskName : String)
    (h : StInv st) : StInv (postInput st id body maskName).1 := by
  unfold postInput
  cases hj : findJob st id with
  | none => exact h
  | some j =>
    dsimp only
    by_cases hw : j.status = Status.waiting_input
    · rw [if_pos hw]
      dsimp only
      have hJ := jobInv_of_find h hj
      have hfn := fields_none_of_not_failed hJ (waiting_not_failed hw)
      by_cases h1 : j.waitingStep = some StepKey.inpaint ∧ body.mask.isSome = true
      · rw [if_pos h1]
        by_cases h2 : j.waitingStep = some StepKey.crop ∧ body.cropRect.isSome = true
        · rw [if_pos h2]
          refine stInv_collapsed_burst _
            { st with maskFiles := FPath.uploads maskName :: st.maskFiles } id
            (fun j0 => { j0 with
              maskPath := some (FPath.uploads maskName), cropRect := body.cropRect,
              waitingStep := none, waitingImage := none }) ?_
            (by intro j0; rfl) h hj (waiting_not_pc hw) hJ.1 hfn.1 hfn.2
          rw [show ({ updSt st id (fun j0 => { j0 with
              maskPath := some (FPath.uploads maskName) }) with
              maskFiles := FPath.uploads maskName :: st.maskFiles } : St)
            = updSt { st with maskFiles := FPath.uploads maskName :: st.maskFiles } id
              (fun j0 => { j0 with maskPath := some (FPath.uploads maskName) }) from rfl,
            updSt_comp _ _ _ _ (by intro j0; rfl),
            updSt_comp _ _ _ _ (by intro j0; rfl)]
        · rw [if_neg h2]
          refine stInv_collapsed_burst _
            { st with maskFiles := FPath.uploads maskName :: st.maskFiles } id
            (fun j0 => { j0 with
              maskPath := some (FPath.uploads maskName),
              waitingStep := none, waitingImage := none }) ?_
            (by intro j0; rfl) h hj (waiting_not_pc hw) hJ.1 hfn.1 hfn.2
          rw [show ({ updSt st id (fun j0 => { j0 with
              maskPath := some (FPath.uploads maskName) }) with
              maskFiles := FPath.uploads maskName :: st.maskFiles } : St)
            = updSt { st with maskFiles := FPath.uploads maskName :: st.maskFiles } id
              (fun j0 => { j0 with maskPath := some (FPath.uploads maskName) }) from rfl,
            updSt_comp _ _ _ _ (by intro j0; rfl)]
      · rw [if_neg h1]
        by_cases h2 : j.waitingStep = some StepKey.crop ∧ body.cropRect.isSome = true
        · rw [if_pos h2]
          refine stInv_collapsed_burst _ st id
            (fun j0 => { j0 with
              cropRect := body.cropRect, waitingStep := none, waitingImage := none }) ?_
            (by intro j0; rfl) h hj (waiting_not_pc hw) hJ.1 hfn.1 hfn.2
          rw [updSt_comp _ _ _ _ (by intro j0; rfl)]
        · rw [if_neg h2]
          exact stInv_updSt_burst st id
            (fun j0 => { j0 with waitingStep := none, waitingImage := none })
            (by intro j0; rfl) h hj (waiting_not_pc hw) hJ.1 hfn.1 hfn.2
    · rw [if_neg hw]
      exact h

lemma failed_not_pc {j : Job} (hf : j.status = Status.failed) :
    ¬ (j.status = Status.processing ∨ j.status = Status.cancelled) := by
  rw [hf]
  simp

lemma postRetry_inv (st : St) (id : String) (model : Option String) (h : StInv st) :
    StInv (postRetry st id model).1 := by
  unfold postRetry
  cases hj : findJob st id with
  | none => exact h
  | some j =>
    dsimp only
    by_cases hf : j.status = Status.failed
    · rw [if_pos hf]
      dsimp only
      have hJ := jobInv_of_find h hj
      have hresB : intIdx (j.failedStepIndex.getD 0) ≤ j.steps.length := by
        cases hfi : j.failedStepIndex with
        | none => exact Nat.zero_le _
        | some n => exact hJ.2.2.1 n hfi
      cases model with
      | none =>
        exact stInv_updSt_burst st id _ (by intro j0; rfl) h hj (failed_not_pc hf) hresB rfl rfl
      | some m =>
        cases hfs : j.failedStep with
        | none =>
          exact stInv_updSt_burst st id _ (by intro j0; rfl) h hj (failed_not_pc hf) hresB rfl rfl
        | some fk =>
          refine stInv_collapsed_burst _ st id
            (fun j0 => { j0 with
              options := setOpt j0.options fk m,
              resumeFromStep := some (intIdx (j0.failedStepIndex.getD 0)),
              status := Status.processing, error := none,
              failedStep := none, failedStepIndex := none }) ?_
            (by intro j0; rfl) h hj (failed_not_pc hf) hresB rfl rfl
          rw [updSt_comp _ _ _ _ (by intro j0; rfl)]
    · rw [if_neg hf]
      exact h

lemma postSkipFailed_inv (st : St) (id : String) (h : StInv st) :
    StInv (postSkipFailed st id).1 := by
  unfold postSkipFailed
  cases hj : findJob st id with
  | none => exact h
  | some j =>
    dsimp only
    by_cases hf : j.status = Status.failed
    · rw [if_pos hf]
      have hJ := jobInv_of_find h hj
      by_cases hge : (j.failedStepIndex.getD 0 + 1 : Int) ≥ (j.steps.length : Int)
      · rw [if_pos hge]
        have hcoll : updSt (updSt st id (fun j0 => { j0 with
              error := none, failedStep := none, failedStepIndex := none })) id
              (fun j0 => { j0 with
                status := Status.completed, progress := 100,
                result := (j0.stepResults.getLast?).map (fun p => p.2) })
            = updSt st id (fun j0 => { j0 with
                status := Status.completed, progress := 100,
                result := (j0.stepResults.getLast?).map (fun p => p.2),
                error := none, failedStep := none, failedStepIndex := none }) := by
          rw [updSt_comp _ _ _ _ (by intro j0; rfl)]
        rw [hcoll]
        refine stInv_updSt st id _ (by intro j0; rfl) ?_ ?_ h
        · intro j2 hj2
          rw [hj] at hj2
          obtain rfl : j = j2 := Option.some.inj hj2
          refine ⟨hJ.1, fun habs => Status.noConfusion habs, ?_, ?_⟩
          · intro n hn
            have hn2 : (none : Option Int) = some n := hn
            cases hn2
          · intro hor
            rcases hor with hx | hx
            · have hx2 : (none : Option StepKey).isSome = true := hx
              cases hx2
            · have hx2 : (none : Option Int).isSome = true := hx
              cases hx2
        · intro fr hfr hid
          exact absurd hid (noframe_of_status h hj (failed_not_pc hf) fr hfr)
      · rw [if_neg hge]
        dsimp only
        refine stInv_collapsed_burst _ st id
          (fun j0 => { j0 with
            error := none, failedStep := none, failedStepIndex := none,
            resumeFromStep := some (intIdx (j.failedStepIndex.getD 0 + 1)),
            status := Status.processing }) ?_
          (by intro j0; rfl) h hj (failed_not_pc hf) ?_ rfl rfl
        · rw [updSt_comp _ _ _ _ (by intro j0; rfl)]
        · show (j.failedStepIndex.getD 0 + 1 : Int).toNat ≤ j.steps.length
          have hlt : (j.failedStepIndex.getD 0 + 1 : Int) < (j.steps.length : Int) :=
            lt_of_not_ge hge
          omega
    · rw [if_neg hf]
      exact h

lemma clearStepInput_inv (st : St) (id : String) (k : StepKey) (h : StInv st) :
    StInv (clearStepInput st id k) := by
  unfold clearStepInput
  cases k with
  | crop =>
    refine stInv_updSt st id _ (by intro j0; rfl) ?_ ?_ h
    · intro j2 hj2
      have hx := jobInv_of_find h hj2
      exact hx
    · intro fr hfr hid j2 hj2 hpc
      exact hpc
  | inpaint =>
    cases hj : findJob st id with
    | none => exact h
    | some j0 =>
      dsimp only
      refine stInv_updSt st id _ (by intro j1; rfl) ?_ ?_ h
      · intro j2 hj2
        have hx := jobInv_of_find h hj2
        exact hx
      · intro fr hfr hid j2 hj2 hpc
        exact hpc
  | spot_removal => exact h
  | scratch_removal => exact h
  | face_restore => exact h
  | colorize => exact h
  | upscale => exact h

lemma clearLoop_inv (id : String) :
    ∀ (ks : List StepKey) (st : St), StInv st →
      StInv (ks.foldl (fun acc k => clearStepInput acc id k) st) := by
  intro ks
  induction ks with
  | nil =>
    intro st h
    exact h
  | cons k ks ih =>
    intro st h
    rw [List.foldl_cons]
    exact ih _ (clearStepInput_inv st id k h)

lemma postBack_inv (st : St) (id : String) (h : StInv st) : StInv (postBack st id).1 := by
  unfold postBack
  cases hj : findJob st id with
  | none => exact h
  | some j =>
    dsimp only
    by_cases hw : j.status = Status.waiting_input
    · rw [if_pos hw]
      cases ht : findPrevManual j.steps (j.resumeFromStep.getD 0) with
      | none => exact h
      | some t =>
        dsimp only
        obtain ⟨htlt, k, hkt, hkman⟩ := findPrevManual_spec j.steps _ _ ht
        obtain ⟨j1c, hfind1, hid1, hpid1, hsteps1, hstat1, hsr1, hrs1, hcip1, hcr1, hmp1,
          hph1, hmap1, hmf1⟩ := clearLoop_char id (j.steps.drop t) st j hj
        have hlt : t < j.steps.length := by
          by_contra hge
          rw [List.get?_eq_none.mpr (Nat.le_of_not_lt hge)] at hkt
          cases hkt
        have h1 : StInv ((j.steps.drop t).foldl (fun acc k => clearStepInput acc id k) st) :=
          clearLoop_inv id (j.steps.drop t) st h
        have hst1c : j1c.status = Status.waiting_input := hstat1.trans hw
        have hJ1 := jobInv_of_find h1 hfind1
        have hfn1 := fields_none_of_not_failed hJ1 (waiting_not_failed hst1c)
        have h2 : StInv (updSt ((j.steps.drop t).foldl (fun acc k => clearStepInput acc id k) st)
            id (fun j0 => { j0 with stepResults := j0.stepResults.take t })) := by
          refine stInv_updSt _ id _ (by intro j0; rfl) ?_ ?_ h1
          · intro j2 hj2
            have hx := jobInv_of_find h1 hj2
            exact hx
          · intro fr hfr hid j2 hj2 hpc
            exact hpc
        have hjst2 : findJob (updSt ((j.steps.drop t).foldl
              (fun acc k => clearStepInput acc id k) st)
              id (fun j0 => { j0 with stepResults := j0.stepResults.take t })) id
            = some { j1c with stepResults := j1c.stepResults.take t } := by
          rw [findJob_updSt_self _ _ _ (by intro j0; rfl), hfind1]
          rfl
        have hbr : ∀ v : Option FPath,
            StInv (finishEv (processJobBurst (updSt (updSt (updSt ((j.steps.drop t).foldl
                (fun acc k => clearStepInput acc id k) st)
                id (fun j0 => { j0 with stepResults := j0.stepResults.take t }))
                id (fun j0 => { j0 with currentInputPath := v }))
                id (fun j0 => { j0 with
                  resumeFromStep := some t, waitingStep := none, waitingImage := none })) id).1
              (if (processJobBurst (updSt (updSt (updSt ((j.steps.drop t).foldl
                (fun acc k => clearStepInput acc id k) st)
                id (fun j0 => { j0 with stepResults := j0.stepResults.take t }))
                id (fun j0 => { j0 with currentInputPath := v }))
                id (fun j0 => { j0 with
                  resumeFromStep := some t, waitingStep := none, waitingImage := none })) id).2
               then 1 else 0)) := by
          intro v
          have h3 : StInv (updSt (updSt ((j.steps.drop t).foldl
              (fun acc k => clearStepInput acc id k) st)
              id (fun j0 => { j0 with stepResults := j0.stepResults.take t }))
              id (fun j0 => { j0 with currentInputPath := v })) := by
            refine stInv_updSt _ id _ (by intro j0; rfl) ?_ ?_ h2
            · intro j2 hj2
              have hx := jobInv_of_find h2 hj2
              exact hx
            · intro fr hfr hid j2 hj2 hpc
              exact hpc
          have hj3 : findJob (updSt (updSt ((j.steps.drop t).foldl
                (fun acc k => clearStepInput acc id k) st)
                id (fun j0 => { j0 with stepResults := j0.stepResults.take t }))
                id (fun j0 => { j0 with currentInputPath := v })) id
              = some { { j1c with stepResults := j1c.stepResults.take t } with
                  currentInputPath := v } := by
            rw [findJob_updSt_self _ _ _ (by intro j0; rfl), hjst2]
            rfl
          refine stInv_updSt_burst _ id _ (by intro j0; rfl) h3 hj3 ?_ ?_ ?_ ?_
          · show ¬ (j1c.status = Status.processing ∨ j1c.status = Status.cancelled)
            rw [hst1c]
            simp
          · show t ≤ j1c.steps.length
            rw [hsteps1]
            exact Nat.le_of_lt hlt
          · show j1c.failedStep = none
            exact hfn1.1
          · show j1c.failedStepIndex = none
            exact hfn1.2
        rw [hjst2]
        dsimp only
        cases hlast : (j1c.stepResults.take t).getLast? with
        | some last =>
          dsimp only
          exact hbr _
        | none =>
          dsimp only
          rw [show (updSt ((j.steps.drop t).foldl (fun acc k => clearStepInput acc id k) st)
              id (fun j0 => { j0 with stepResults := j0.stepResults.take t })).photos
              = ((j.steps.drop t).foldl (fun acc k => clearStepInput acc id k) st).photos from rfl,
            hph1,
            show ({ j1c with stepResults := j1c.stepResults.take t } : Job).photoId
              = j1c.photoId from rfl,
            hpid1]
          cases hph : st.photos.find? (fun p => p.id == j.photoId) with
          | some photo =>
            exact hbr _
          | none =>
            exact hbr _
    · rw [if_neg hw]
      exact h

lemma postCancel_inv (st : St) (id : String) (h : StInv st) : StInv (postCancel st id).1 := by
  unfold postCancel
  cases hj : findJob st id with
  | none => exact h
  | some j =>
    dsimp only
    by_cases hc : isCancellable j.status = true
    · rw [if_pos hc]
      dsimp only
      have hJ := jobInv_of_find h hj
      have hnf : ¬ j.status = Status.failed := by
        intro he
        rw [he] at hc
        cases hc
      have hfn := fields_none_of_not_failed hJ hnf
      have h1 : StInv (updSt st id cancelJobRecord) := by
        refine stInv_updSt st id _ (by intro j0; rfl) ?_ ?_ h
        · intro j2 hj2
          rw [hj] at hj2
          obtain rfl : j = j2 := Option.some.inj hj2
          refine ⟨hJ.1, fun habs => Status.noConfusion habs, ?_, ?_⟩
          · intro n hn
            have hn2 : j.failedStepIndex = some n := hn
            rw [hfn.2] at hn2
            cases hn2
          · intro hor
            rcases hor with hx | hx
            · have hx2 : j.failedStep.isSome = true := hx
              rw [hfn.1] at hx2
              cases hx2
            · have hx2 : j.failedStepIndex.isSome = true := hx
              rw [hfn.2] at hx2
              cases hx2
        · intro fr hfr hid j2 hj2 hpc
          exact Or.inr rfl
      exact finishEv_inv _ _ (processNext_inv _ h1)
    · rw [if_neg hc]
      exact h

lemma find?_map_id_keep (l : List Job) (g : Job → Job) (hg : ∀ j, (g j).id = j.id)
    (x : String) :
    (l.map g).find? (fun k => k.id == x) = (l.find? (fun k => k.id == x)).map g := by
  induction l with
  | nil => rfl
  | cons j js ih =>
    rw [List.map_cons]
    cases hk : (j.id == x) with
    | true =>
      have hk2 : ((g j).id == x) = true := by rw [hg j]; exact hk
      simp only [List.find?, hk, hk2]
      rfl
    | false =>
      have hk2 : ((g j).id == x) = false := by rw [hg j]; exact hk
      simp only [List.find?, hk, hk2]
      exact ih

lemma stInv_map_cancel (st : St) (guard : Job → Bool) (rp : List String)
    (hguard : ∀ j, guard j = true → ¬ j.status = Status.failed)
    (h : StInv st) :
    StInv { st with
      jobs := st.jobs.map (fun j => if guard j then cancelJobRecord j else j),
      runningProcs := rp } := by
  obtain ⟨hnd, hfnd, hjobs, hfr⟩ := h
  have hgid : ∀ j : Job, ((fun j => if guard j then cancelJobRecord j else j) j).id = j.id := by
    intro j
    dsimp only
    by_cases hg : guard j = true
    · rw [if_pos hg]
      rfl
    · rw [if_neg hg]
  refine ⟨?_, hfnd, ?_, ?_⟩
  · show ((st.jobs.map _).map Job.id).Nodup
    rw [List.map_map]
    have heq : st.jobs.map (Job.id ∘ fun j => if guard j then cancelJobRecord j else j)
        = st.jobs.map Job.id := by
      refine List.map_congr_left ?_
      intro j _
      exact hgid j
    rw [heq]
    exact hnd
  · intro j1 hj1
    rcases List.mem_map.mp hj1 with ⟨j, hjm, he⟩
    have hJ := hjobs j hjm
    by_cases hg : guard j = true
    · rw [if_pos hg] at he
      have hfn := fields_none_of_not_failed hJ (hguard j hg)
      subst he
      refine ⟨hJ.1, fun habs => Status.noConfusion habs, ?_, ?_⟩
      · intro n hn
        have hn2 : j.failedStepIndex = some n := hn
        rw [hfn.2] at hn2
        cases hn2
      · intro hor
        rcases hor with hx | hx
        · have hx2 : j.failedStep.isSome = true := hx
          rw [hfn.1] at hx2
          cases hx2
        · have hx2 : j.failedStepIndex.isSome = true := hx
          rw [hfn.2] at hx2
          cases hx2
    · rw [if_neg hg] at he
      exact he ▸ hJ
  · intro fr hfr2
    rcases hfr fr hfr2 with ⟨j2, hfind2, hstat2⟩
    refine ⟨(fun j => if guard j then cancelJobRecord j else j) j2, ?_, ?_⟩
    · show (st.jobs.map (fun j => if guard j then cancelJobRecord j else j)).find?
          (fun k => k.id == fr.jobId)
        = some ((fun j => if guard j then cancelJobRecord j else j) j2)
      have hfind2b : st.jobs.find? (fun k => k.id == fr.jobId) = some j2 := hfind2
      rw [find?_map_id_keep _ _ hgid, hfind2b]
      rfl
    · show (if guard j2 = true then cancelJobRecord j2 else j2).status = Status.processing ∨
        (if guard j2 = true then cancelJobRecord j2 else j2).status = Status.cancelled
      by_cases hg : guard j2 = true
      · rw [if_pos hg]
        exact Or.inr rfl
      · rw [if_neg hg]
        exact hstat2

lemma cancelAllJobs_inv (st : St) (h : StInv st) : StInv (cancelAllJobs st) := by
  unfold cancelAllJobs
  refine stInv_map_cancel st _ _ ?_ h
  intro j hg he
  have hg2 : isCancellable j.status = true := hg
  rw [he] at hg2
  cases hg2

lemma checkHeartbeat_inv (timeoutMs now lastHB : Nat) (st : St) (h : StInv st) :
    StInv (checkHeartbeat timeoutMs now lastHB st) := by
  unfold checkHeartbeat
  by_cases h1 : now - lastHB < timeoutMs
  · rw [if_pos h1]
    exact h
  · rw [if_neg h1]
    by_cases h2 : st.jobs.countP isActiveJob = 0
    · rw [if_pos h2]
      exact h
    · rw [if_neg h2]
      refine stInv_map_cancel st _ _ ?_ h
      intro j hg he
      rw [show isActiveJob j = (j.status == Status.pending || j.status == Status.processing)
        from rfl] at hg
      rw [he] at hg
      cases hg

lemma putReorder_inv (st : St) (ids : List String) (h : StInv st) :
    StInv (putReorder st ids) := by
  unfold putReorder
  generalize ids.enum = l
  induction l generalizing st with
  | nil => exact h
  | cons p ps ih =>
    rw [List.foldl_cons]
    refine ih _ ?_
    refine stInv_updSt st p.2 _ ?_ ?_ ?_ h
    · intro j0
      dsimp only
      split
      · rfl
      · rfl
    · intro j2 hj2
      dsimp only
      split
      · have hx := jobInv_of_find h hj2
        exact hx
      · exact jobInv_of_find h hj2
    · intro fr hfr hid j2 hj2 hpc
      dsimp only
      split
      · exact hpc
      · exact hpc

lemma putSettings_inv (lim : Nat) (st : St) (v : Option JsVal) (h : StInv st) :
    StInv (putSettings lim st v).1 := by
  unfold putSettings
  cases v with
  | none => exact finishEv_inv _ _ (processNext_inv st h)
  | some jv =>
    cases jv with
    | other => exact finishEv_inv _ _ (processNext_inv st h)
    | num q =>
      dsimp only
      by_cases hq : 1 ≤ q ∧ q ≤ (lim : ℚ)
      · rw [if_pos hq]
        exact finishEv_inv _ _ (processNext_inv _ h)
      · rw [if_neg hq]
        exact finishEv_inv _ _ (processNext_inv _ h)

lemma find?_append_of_some {α : Type} {p : α → Bool} :
    ∀ {l1 : List α} (l2 : List α) {a : α}, l1.find? p = some a → (l1 ++ l2).find? p = some a := by
  intro l1
  induction l1 with
  | nil =>
    intro l2 a hfind
    cases hfind
  | cons x xs ih =>
    intro l2 a hfind
    rw [List.cons_append]
    cases hx : p x with
    | true =>
      simp only [List.find?, hx] at hfind ⊢
      exact hfind
    | false =>
      simp only [List.find?, hx] at hfind ⊢
      exact ih l2 hfind

lemma createOne_inv (stepsReq : List StepKey) (opts : List (StepKey × String)) (prioVal : Nat)
    (acc : St × Nat) (it : CreateItem)
    (h : StInv acc.1) (hfresh : it.newId ∉ acc.1.jobs.map Job.id) :
    StInv (createOne stepsReq opts prioVal acc it).1 ∧
    ((createOne stepsReq opts prioVal acc it).1.jobs.map Job.id = acc.1.jobs.map Job.id ∨
      (createOne stepsReq opts prioVal acc it).1.jobs.map Job.id
        = acc.1.jobs.map Job.id ++ [it.newId]) := by
  unfold createOne
  dsimp only
  cases hp : acc.1.photos.find? (fun p => p.id == it.photoId) with
  | none => exact ⟨h, Or.inl rfl⟩
  | some photo =>
    dsimp only
    obtain ⟨hnd, hfnd, hjobs, hfr⟩ := h
    have h1 : StInv { acc.1 with
        jobs := acc.1.jobs ++ [{
          id := it.newId, photoId := it.photoId, photoName := photo.originalName,
          originalUrl := "/uploads/" ++ photo.filename, steps := stepsReq, options := opts,
          maskPath := if stepsReq.contains StepKey.inpaint ∧ it.maskData.isSome = true
            then some (FPath.uploads it.maskName) else none,
          cropRect := if stepsReq.contains StepKey.crop then it.rect else none,
          status := .pending, progress := 0,
          createdAt := prioVal, result := none, stepResults := [], priority := prioVal,
          resumeFromStep := none, currentInputPath := none, currentStep := none,
          waitingStep := none, waitingImage := none, error := none,
          failedStep := none, failedStepIndex := none }],
        maskFiles := if stepsReq.contains StepKey.inpaint ∧ it.maskData.isSome = true
          then FPath.uploads it.maskName :: acc.1.maskFiles else acc.1.maskFiles } := by
      refine ⟨?_, hfnd, ?_, ?_⟩
      · show ((acc.1.jobs ++ [_]).map Job.id).Nodup
        rw [List.map_append]
        refine List.nodup_append.mpr ⟨hnd, List.nodup_singleton _, ?_⟩
        intro a ha hb
        rw [List.map_cons, List.map_nil, List.mem_singleton] at hb
        subst hb
        exact hfresh ha
      · intro j1 hj1
        rcases List.mem_append.mp hj1 with hm | hm
        · exact hjobs j1 hm
        · rw [List.mem_singleton] at hm
          subst hm
          refine ⟨Nat.zero_le _, fun habs => Status.noConfusion habs, ?_, ?_⟩
          · intro n hn
            have hn2 : (none : Option Int) = some n := hn
            cases hn2
          · intro hor
            rcases hor with hx | hx
            · have hx2 : (none : Option StepKey).isSome = true := hx
              cases hx2
            · have hx2 : (none : Option Int).isSome = true := hx
              cases hx2
      · intro fr hfr2
        rcases hfr fr hfr2 with ⟨j2, hfind2, hstat2⟩
        refine ⟨j2, ?_, hstat2⟩
        show (acc.1.jobs ++ [_]).find? (fun k => k.id == fr.jobId) = some j2
        exact find?_append_of_some _ hfind2
    refine ⟨processNext_inv _ h1, Or.inr ?_⟩
    show (processNext _).1.jobs.map Job.id = _
    rw [(processNext_coreShape _).2.2.2]
    show (acc.1.jobs ++ [_]).map Job.id = _
    rw [List.map_append]
    rfl

lemma createFold_inv (stepsReq : List StepKey) (opts : List (StepKey × String)) (prioVal : Nat) :
    ∀ (items : List CreateItem) (acc : St × Nat),
      StInv acc.1 → (items.map CreateItem.newId).Nodup →
      (∀ it ∈ items, it.newId ∉ acc.1.jobs.map Job.id) →
      StInv (items.foldl (createOne stepsReq opts prioVal) acc).1 := by
  intro items
  induction items with
  | nil =>
    intro acc h _ _
    exact h
  | cons it its ih =>
    intro acc h hnds hfr
    rw [List.map_cons, List.nodup_cons] at hnds
    rw [List.foldl_cons]
    obtain ⟨h1, hmap⟩ := createOne_inv stepsReq opts prioVal acc it h
      (hfr it (List.mem_cons_self _ _))
    refine ih _ h1 hnds.2 ?_
    intro it2 hit2
    have hne : it2.newId ≠ it.newId := by
      intro he
      exact hnds.1 (he ▸ List.mem_map_of_mem CreateItem.newId hit2)
    rcases hmap with hm | hm
    · rw [hm]
      exact hfr it2 (List.mem_cons_of_mem _ hit2)
    · rw [hm]
      intro hmem
      rcases List.mem_append.mp hmem with h2 | h2
      · exact hfr it2 (List.mem_cons_of_mem _ hit2) h2
      · rw [List.mem_singleton] at h2
        exact hne h2

lemma createJobs_inv (st : St) (items : List CreateItem) (stepsReq : List StepKey)
    (opts : List (StepKey × String)) (prioVal : Nat) (h : StInv st)
    (hnds : (items.map CreateItem.newId).Nodup)
    (hfresh : ∀ it ∈ items, it.newId ∉ st.jobs.map Job.id) :
    StInv (createJobs st items stepsReq opts prioVal).1 := by
  unfold createJobs
  by_cases he : items.isEmpty = true ∨ stepsReq.isEmpty = true
  · rw [if_pos he]
    exact h
  · rw [if_neg he]
    dsimp only
    exact finishEv_inv _ _ (createFold_inv stepsReq opts prioVal items (st, 0) h hnds hfresh)

lemma uploadPhoto_inv (st : St) (p : Photo) (h : StInv st) : StInv (uploadPhoto st p) := h

lemma deletePhoto_inv (st : St) (pid : String) (h : StInv st) : StInv (deletePhoto st pid) := h

lemma stepIter_frames (st : St) (id : String) (i : Nat) (cur : FPath) (orig : String) :
    ∀ fr2 ∈ (stepIter st id i cur orig).1.frames, fr2 ∈ st.frames ∨ fr2.jobId = id := by
  unfold stepIter
  cases hj : findJob st id with
  | none =>
    intro fr2 h2
    exact Or.inl h2
  | some j =>
    dsimp only
    cases hstep : j.steps.get? i with
    | some step =>
      dsimp only
      by_cases hni : stepNeedsInput step j = true
      · rw [if_pos hni]
        intro fr2 h2
        exact Or.inl h2
      · rw [if_neg hni]
        by_cases hc : j.status = Status.cancelled
        · rw [if_pos hc]
          intro fr2 h2
          exact Or.inl h2
        · rw [if_neg hc]
          intro fr2 h2
          rcases List.mem_cons.mp h2 with rfl | h3
          · exact Or.inr rfl
          · exact Or.inl h3
    | none =>
      intro fr2 h2
      exact Or.inl h2

lemma processJobBurst_frames (st : St) (id : String) :
    ∀ fr2 ∈ (processJobBurst st id).1.frames, fr2 ∈ st.frames ∨ fr2.jobId = id := by
  unfold processJobBurst
  cases hj : findJob st id with
  | none =>
    intro fr2 h2
    exact Or.inl h2
  | some j =>
    dsimp only
    cases hp : (updSt st id (fun j0 => { j0 with
        status := Status.processing })).photos.find? (fun p => p.id == j.photoId) with
    | none =>
      intro fr2 h2
      exact Or.inl h2
    | some photo =>
      dsimp only
      intro fr2 h2
      exact stepIter_frames (updSt st id (fun j0 => { j0 with
        status := Status.processing })) id _ _ _ fr2 h2

lemma dispatchLoop_frames (maxC running : Nat) :
    ∀ (ids : List String) (st : St) (slots q : Nat),
      ∀ fr2 ∈ (dispatchLoop maxC running st ids slots q).1.frames,
        fr2 ∈ st.frames ∨ fr2.jobId ∈ ids := by
  intro ids
  induction ids with
  | nil =>
    intro st slots q fr2 h2
    exact Or.inl h2
  | cons id ids ih =>
    intro st slots q
    unfold dispatchLoop
    cases hj : findJob st id with
    | none =>
      dsimp only
      intro fr2 h2
      rcases ih st slots q fr2 h2 with h3 | h3
      · exact Or.inl h3
      · exact Or.inr (List.mem_cons_of_mem _ h3)
    | some j =>
      dsimp only
      by_cases hcond : (!jobWillPauseImmediately j && decide (running + slots ≥ maxC)) = true
      · rw [if_pos hcond]
        intro fr2 h2
        rcases ih st slots q fr2 h2 with h3 | h3
        · exact Or.inl h3
        · exact Or.inr (List.mem_cons_of_mem _ h3)
      · rw [if_neg hcond]
        dsimp only
        intro fr2 h2
        rcases ih _ _ _ fr2 h2 with h3 | h3
        · rcases processJobBurst_frames st id fr2 h3 with h4 | h4
          · exact Or.inl h4
          · refine Or.inr ?_
            rw [h4]
            exact List.mem_cons_self _ _
        · exact Or.inr (List.mem_cons_of_mem _ h3)

lemma processNext_frames (st : St) :
    ∀ fr2 ∈ (processNext st).1.frames, fr2 ∈ st.frames ∨ fr2.jobId ∈ candidateIds st := by
  intro fr2 h2
  have h3 : fr2 ∈ (processNextT st).1.frames := h2
  rw [processNextT_eq] at h3
  exact dispatchLoop_frames _ _ (candidateIds st) st 0 0 fr2 h3

lemma not_mem_candidateIds {st : St} {id : String} {j : Job}
    (hnd : (st.jobs.map Job.id).Nodup)
    (hj : findJob st id = some j) (hs : j.status ≠ Status.pending) :
    id ∉ candidateIds st := by
  intro hmem
  rcases mem_candidateIds hmem with ⟨jc, hjc, hidc, hpc⟩
  rcases findJob_mem hj with ⟨hjm, hjid⟩
  have he : j = jc := job_eq_of_id_eq hnd hjm hjc (hjid.trans hidc.symm)
  exact hs (he ▸ hpc)

lemma eraseP_no_dup_match {frames : List Frame} (id : String)
    (hnd : (frames.map Frame.jobId).Nodup) :
    ∀ fr2 ∈ frames.eraseP (fun f2 => f2.jobId == id), ¬ fr2.jobId = id := by
  induction frames with
  | nil =>
    intro fr2 h2
    cases h2
  | cons f fs ih =>
    rw [List.map_cons, List.nodup_cons] at hnd
    by_cases hp : (f.jobId == id) = true
    · simp only [List.eraseP_cons, hp, cond_true]
      intro fr2 h2 he
      have hid : f.jobId = id := by simpa using hp
      have hmm : fr2.jobId ∈ fs.map Frame.jobId := List.mem_map_of_mem Frame.jobId h2
      rw [he, ← hid] at hmm
      exact hnd.1 hmm
    · have hpf : (f.jobId == id) = false := by simpa using hp
      simp only [List.eraseP_cons, hpf, cond_false]
      intro fr2 h2
      rcases List.mem_cons.mp h2 with rfl | h3
      · intro he
        exact hp (by simp [he])
      · exact ih hnd.2 fr2 h3

lemma workerExit_inv (st : St) (id : String) (ok : Bool) (msg : String) (h : StInv st) :
    StInv (workerExit st id ok msg) := by
  unfold workerExit
  cases hfr : st.frames.find? (fun fr => fr.jobId == id) with
  | none => exact h
  | some fr =>
    dsimp only
    have hfrm : fr ∈ st.frames := List.mem_of_find?_eq_some hfr
    have hfrid : fr.jobId = id := by simpa using List.find?_some hfr
    have h1 : StInv { st with
        frames := st.frames.eraseP (fun fr2 => fr2.jobId == id),
        runningProcs := st.runningProcs.erase id } := by
      refine ⟨h.1, ?_, h.2.2.1, ?_⟩
      · exact ((List.eraseP_sublist _).map Frame.jobId).nodup h.2.1
      · intro fr2 hfr2
        have hmem : fr2 ∈ st.frames := (List.eraseP_sublist _).subset hfr2
        rcases h.2.2.2 fr2 hmem with ⟨j2, hfind2, hstat2⟩
        exact ⟨j2, hfind2, hstat2⟩
    have hnofr1 : ∀ fr2 ∈ st.frames.eraseP (fun fr2 => fr2.jobId == id), ¬ fr2.jobId = id :=
      eraseP_no_dup_match id h.2.1
    rw [findJob_set_frames]
    cases hj : findJob st id with
    | none => exact h1
    | some j =>
      dsimp only
      have hpc : j.status = Status.processing ∨ j.status = Status.cancelled := by
        rcases h.2.2.2 fr hfrm with ⟨j2, hfind2, hstat2⟩
        rw [hfrid, hj] at hfind2
        exact (Option.some.inj hfind2) ▸ hstat2
      have hJ := jobInv_of_find h hj
      cases ok with
      | true =>
        rw [if_pos rfl]
        by_cases hc : j.status = Status.cancelled
        · rw [if_pos hc]
          exact finishEv_inv _ _ h1
        · rw [if_neg hc]
          have hproc : j.status = Status.processing := hpc.resolve_right hc
          have hgen : ∀ st2 : St,
              st2.jobs = st.jobs →
              st2.frames = st.frames.eraseP (fun fr2 => fr2.jobId == id) →
              StInv (finishEv (stepIter (processNext (updSt (updSt st2 id
                  (fun j0 => onCompleteJob fr.stepK j0)) id
                  (fun j0 => { j0 with
                    stepResults := j0.stepResults ++ [(fr.stepK, "/results/" ++ fr.outName)],
                    currentInputPath := some (FPath.results fr.outName) }))).1 id
                  (fr.stepIdx + 1) (FPath.results fr.outName) fr.origName).1
                ((processNext (updSt (updSt st2 id (fun j0 => onCompleteJob fr.stepK j0)) id
                  (fun j0 => { j0 with
                    stepResults := j0.stepResults ++ [(fr.stepK, "/results/" ++ fr.outName)],
                    currentInputPath := some (FPath.results fr.outName) }))).2
                  + (if (stepIter (processNext (updSt (updSt st2 id
                      (fun j0 => onCompleteJob fr.stepK j0)) id
                      (fun j0 => { j0 with
                        stepResults := j0.stepResults ++ [(fr.stepK, "/results/" ++ fr.outName)],
                        currentInputPath := some (FPath.results fr.outName) }))).1 id
                      (fr.stepIdx + 1) (FPath.results fr.outName) fr.origName).2
                    then 1 else 0))) := by
            intro st2 hjobs2 hframes2
            have h2 : StInv st2 := by
              refine ⟨?_, ?_, ?_, ?_⟩
              · rw [hjobs2]
                exact h.1
              · rw [hframes2]
                exact h1.2.1
              · rw [hjobs2]
                exact h.2.2.1
              · intro fr2 hfr2
                rw [hframes2] at hfr2
                have hmem : fr2 ∈ st.frames := (List.eraseP_sublist _).subset hfr2
                rcases h.2.2.2 fr2 hmem with ⟨j2, hfind2, hstat2⟩
                refine ⟨j2, ?_, hstat2⟩
                show st2.jobs.find? (fun k => k.id == fr2.jobId) = some j2
                rw [hjobs2]
                exact hfind2
            have hj2 : findJob st2 id = some j := by
              show st2.jobs.find? (fun k => k.id == id) = some j
              rw [hjobs2]
              exact hj
            have h3 : StInv (updSt st2 id (fun j0 => onCompleteJob fr.stepK j0)) := by
              refine stInv_updSt _ id _ ?_ ?_ ?_ h2
              · intro j0
                cases fr.stepK <;> rfl
              · intro j2 hj2b
                have hx := jobInv_of_find h2 hj2b
                cases fr.stepK <;> exact hx
              · intro fr2 hfr2 hid j2 hj2b hpc2
                cases fr.stepK <;> exact hpc2
            have h4 : StInv (updSt (updSt st2 id (fun j0 => onCompleteJob fr.stepK j0)) id
                (fun j0 => { j0 with
                  stepResults := j0.stepResults ++ [(fr.stepK, "/results/" ++ fr.outName)],
                  currentInputPath := some (FPath.results fr.outName) })) := by
              refine stInv_updSt _ id _ (by intro j0; rfl) ?_ ?_ h3
              · intro j2 hj2b
                have hx := jobInv_of_find h3 hj2b
                exact hx
              · intro fr2 hfr2 hid j2 hj2b hpc2
                exact hpc2
            have hj4 : findJob (updSt (updSt st2 id (fun j0 => onCompleteJob fr.stepK j0)) id
                (fun j0 => { j0 with
                  stepResults := j0.stepResults ++ [(fr.stepK, "/results/" ++ fr.outName)],
                  currentInputPath := some (FPath.results fr.outName) })) id
                = some { (onCompleteJob fr.stepK j) with
                  stepResults := (onCompleteJob fr.stepK j).stepResults
                    ++ [(fr.stepK, "/results/" ++ fr.outName)],
                  currentInputPath := some (FPath.results fr.outName) } := by
              rw [findJob_updSt_self _ _ _ (by intro j0; rfl),
                findJob_updSt_self _ _ _ (by intro j0; cases fr.stepK <;> rfl), hj2]
              rfl
            have hst4 : ({ (onCompleteJob fr.stepK j) with
                stepResults := (onCompleteJob fr.stepK j).stepResults
                  ++ [(fr.stepK, "/results/" ++ fr.outName)],
                currentInputPath := some (FPath.results fr.outName) } : Job).status
                = Status.processing := by
              show (onCompleteJob fr.stepK j).status = Status.processing
              cases fr.stepK <;> exact hproc
            have h5 := processNext_inv _ h4
            have hj5 := processNext_findJob_nonpending h4.1 hj4 (by rw [hst4]; simp)
            have hnofr5 : ∀ fr2 ∈ (processNext (updSt (updSt st2 id
                (fun j0 => onCompleteJob fr.stepK j0)) id
                (fun j0 => { j0 with
                  stepResults := j0.stepResults ++ [(fr.stepK, "/results/" ++ fr.outName)],
                  currentInputPath := some (FPath.results fr.outName) }))).1.frames,
                ¬ fr2.jobId = id := by
              intro fr2 hfr2 he
              rcases processNext_frames _ fr2 hfr2 with h6 | h6
              · have h7 : fr2 ∈ st2.frames := h6
                rw [hframes2] at h7
                exact hnofr1 fr2 h7 he
              · rw [he] at h6
                exact not_mem_candidateIds h4.1 hj4 (by rw [hst4]; simp) h6
            refine finishEv_inv _ _ ?_
            refine stepIter_inv _ id _ _ _ h5 hnofr5 ?_
            intro j5 hj5b
            rw [hj5] at hj5b
            obtain rfl := Option.some.inj hj5b
            exact Or.inl hst4
          refine hgen _ ?_ ?_
          · cases fr.stepK <;> cases j.maskPath <;> rfl
          · cases fr.stepK <;> cases j.maskPath <;> rfl
      | false =>
        rw [if_neg Bool.false_ne_true]
        by_cases hc : j.status = Status.cancelled
        · rw [if_pos hc]
          refine finishEv_inv _ _ ?_
          refine stInv_updSt _ id _ (by intro j0; rfl) ?_ ?_ h1
          · intro j2 hj2b
            rw [findJob_set_frames, hj] at hj2b
            obtain rfl : j = j2 := Option.some.inj hj2b
            have hx := hJ
            exact hx
          · intro fr2 hfr2 hid
            exact absurd hid (hnofr1 fr2 hfr2)
        · rw [if_neg hc]
          refine finishEv_inv _ _ ?_
          refine stInv_updSt _ id _ (by intro j0; rfl) ?_ ?_ h1
          · intro j2 hj2b
            rw [findJob_set_frames, hj] at hj2b
            obtain rfl : j = j2 := Option.some.inj hj2b
            refine ⟨hJ.1, fun habs => Status.noConfusion habs, ?_, fun _ => rfl⟩
            intro n hn
            have hn2 : (some (match j.currentStep with
                | some k => jsIndexOf j.steps k
                | none => -1) : Option Int) = some n := hn
            obtain rfl := Option.some.inj hn2
            show (match j.currentStep with
                | some k => jsIndexOf j.steps k
                | none => -1).toNat ≤ j.steps.length
            cases j.currentStep with
            | some k => exact jsIndexOf_toNat_le _ _
            | none => exact Nat.zero_le _
          · intro fr2 hfr2 hid
            exact absurd hid (hnofr1 fr2 hfr2)

lemma applyEv_inv (lim : Nat) (st : St) (e : Ev) (hok : EvOk st e) (h : StInv st) :
    StInv (applyEv lim st e) := by
  cases e with
  | upload p => exact uploadPhoto_inv st p h
  | delPhoto pid => exact deletePhoto_inv st pid h
  | create items s o pr => exact createJobs_inv st items s o pr h hok.1 hok.2
  | input id body mn => exact postInput_inv st id body mn h
  | skipManual id => exact postSkip_inv st id h
  | back id => exact postBack_inv st id h
  | retryJob id m => exact postRetry_inv st id m h
  | skipFailedJob id => exact postSkipFailed_inv st id h
  | cancelJob id => exact postCancel_inv st id h
  | cancelAll => exact cancelAllJobs_inv st h
  | reorder ids => exact putReorder_inv st ids h
  | setMax v => exact putSettings_inv lim st v h
  | heartbeat now lastHB => exact checkHeartbeat_inv 10000 now lastHB st h
  | workerDone id ok msg => exact workerExit_inv st id ok msg h

lemma stInv_init (lim : Nat) : StInv (initSt lim) := by
  refine ⟨List.nodup_nil, List.nodup_nil, ?_, ?_⟩
  · intro j hj
    cases hj
  · intro fr hfr
    cases hfr

/-- Every reachable state satisfies the invariant bundle. -/
lemma stInv_reachable {lim : Nat} {st : St} (h : Reachable lim st) : StInv st := by
  induction h with
  | refl => exact stInv_init lim
  | tail hab hbc ih =>
    cases hbc with
    | mk e hok => exact applyEv_inv lim _ e hok ih

/-- C6 amended: in every reachable state, every job's resume index
(resumeFromStep read as 0 when unset) is at most steps.length.  (The
spec's other inequality, stepResults.length ≤ resumeFromStep at every
observable moment, is refuted by claim_C6_counterexample.) -/
theorem claim_C6_amended_invariant (lim : Nat) (st : St) (h : Reachable lim st) :
    ∀ j ∈ st.jobs, j.resumeFromStep.getD 0 ≤ j.steps.length := by
  intro j hj
  exact ((stInv_reachable h).2.2.1 j hj).1

/-- Witness for the C6 amended invariant at the concrete reachable state
c6s2 (a pipeline suspended between worker invocations). -/
theorem claim_C6_amended_invariant_witness :
    Reachable 2 c6s2 ∧ ∀ j ∈ c6s2.jobs, j.resumeFromStep.getD 0 ≤ j.steps.length :=
  ⟨c6s2_reachable, claim_C6_amended_invariant 2 c6s2 c6s2_reachable⟩

/-- C7 amended: in every reachable state, a job with failedStep or
failedStepIndex populated has status failed.  (The spec's converse — every
failed job has them populated — is refuted by claim_C7_counterexample: the
missing-photo failure path sets only the status.) -/
theorem claim_C7_amended_invariant (lim : Nat) (st : St) (h : Reachable lim st) :
    ∀ j ∈ st.jobs, (j.failedStep.isSome ∨ j.failedStepIndex.isSome) →
      j.status = Status.failed := by
  intro j hj
  exact ((stInv_reachable h).2.2.1 j hj).2.2.2

/-- Witness for the C7 amended invariant at the concrete reachable state
c7s2 (which holds a failed job). -/
theorem claim_C7_amended_invariant_witness :
    Reachable 2 c7s2 ∧ ∀ j ∈ c7s2.jobs,
      (j.failedStep.isSome ∨ j.failedStepIndex.isSome) → j.status = Status.failed :=
  ⟨c7s2_reachable, claim_C7_amended_invariant 2 c7s2 c7s2_reachable⟩

end OldPhotos
